import Mathlib

/-!
# ArSocket line reader / writer

A shallow embedding of the line-oriented text protocol of `src/ArSocket.cpp`
(`read`, `write`, `writeString`, `readString`, `clearPartialReadString`,
`comparePartialReadString`, `doStringEcho`, `internalInit`) for the non-Windows
build, together with properties of that code.

Conventions of the embedding

* A `char` is a natural number in `0..255`; the test `c < 0` on the signed
  `char` of the source is `128 ≤ c`.
* `myStringBuf` is a list of bytes whose length is `sizeof(myStringBuf)`; that
  constant is declared in a header and is therefore left arbitrary.
* The operating system is an environment: the results of the successive
  `recv` calls are a list of `Recv` events consumed from the front, the results
  of the successive `write` system calls are given by an oracle indexed by the
  number of the call.  Every buffer handed to `ArSocket::write` is recorded in
  the ghost field `wire`.
* `size_t` arithmetic that can wrap (`i--` at zero, `myStringPos -
  myStringPosLast`) is computed modulo `2 ^ 64`.
* Logging, the time stamp and the two mutexes have no counterpart.
-/

/-- One call of `ArSocket::write` as seen by the channel: `data` holds the bytes
of the source range that lie inside the array it was taken from, `len` is the
length argument. The call stays inside the array exactly when
`data.length = len`. -/
structure WriteCall where
  data : List Nat
  len : Nat
deriving DecidableEq, Repr

/-- The members of `ArSocket` used by the text protocol, and the ghost record
`wire` of the calls of `write`. -/
structure ArSocket where
  myStringBuf : List Nat
  myStringBufEmpty : List Nat
  myStringPos : Nat
  myStringPosLast : Nat
  myStringGotComplete : Bool
  myStringGotEscapeChars : Bool
  myStringHaveEchoed : Bool
  myStringAutoEcho : Bool
  myStringEcho : Bool
  myStringIgnoreReturn : Bool
  myStringWrongEndChars : Bool
  myLogWriteStrings : Bool
  myErrorTracking : Bool
  myNonBlocking : Bool
  myFakeWrites : Bool
  myBadRead : Bool
  myBadWrite : Bool
  mySends : Nat
  myBytesSent : Nat
  myRecvs : Nat
  myBytesRecvd : Nat
  wire : List WriteCall
deriving DecidableEq, Repr

/-- What one `read(&myStringBuf[i], 1, msWait)` meets: `data b` is a `recv` that
stored the byte `b` and returned 1; `zero` is a result of 0 (`recv` returned 0,
or `read` returned 0 early because the descriptor is closed or `select` timed
out); `error e` is a `recv` that returned -1 and left `errno = e`. -/
inductive Recv where
  | data (b : Nat)
  | zero
  | error (errno : Nat)
deriving DecidableEq, Repr

/-- What one call of `write` meets: `notReady` is the early `return 0` (closed
descriptor, or `select` does not report the socket writable); `done ret e` is
the result `ret` of the `write` system call, with `errno = e` afterwards. -/
inductive Send where
  | notReady
  | done (ret : Int) (errno : Nat)
deriving DecidableEq, Repr

/-- The tagged result of `readString`. `Complete start payload` is the return of
`&myStringBuf[start]`, `payload` being the C string found there; `Partial` is
the return of `myStringBufEmpty`; the three others are the three `return NULL`
statements (zero-byte read, read error, end of the loop). -/
inductive Outcome where
  | Complete (start : Nat) (payload : List Nat)
  | Partial (payload : List Nat)
  | Closed
  | IoError
  | Overflowed
deriving DecidableEq, Repr

/-- The result code of the `recv` behind a `Recv` event. -/
def Recv.ret : Recv → Int
  | .data _ => 1
  | .zero => 0
  | .error _ => -1

/-- The value of `errno` after a `Recv` event (only read when the result is
negative). -/
def Recv.errno : Recv → Nat
  | .error e => e
  | _ => 0

/-- The byte carried by a `Recv` event, if any. -/
def Recv.byte : Recv → Option Nat
  | .data b => some b
  | _ => none

namespace ArSocket

/-- The value of `errno` that means would-block (`EAGAIN` on Linux). -/
abbrev EAGAIN : Nat := 11

/-- Number of values of a `size_t`. -/
abbrev sizeMod : Nat := 2 ^ 64

/-- Size of the local array `buf` of `writeString`. -/
abbrev writeBufSize : Nat := 10000

/-- The test `c < 0` on a signed `char`. -/
def isNeg (c : Nat) : Bool := decide (128 ≤ c)

/-- The C string that starts at the head of `l`: the bytes before the first NUL. -/
def cstr (l : List Nat) : List Nat := l.takeWhile (fun c => c != 0)

/-- The function `strlen`. -/
def strlen (l : List Nat) : Nat := (cstr l).length

/-- Conversion `(int)len` of a `size_t`. -/
def toInt32 (n : Nat) : Int := ((n + 2 ^ 31) % 2 ^ 32 : Nat) - 2 ^ 31

/-- The bytes of the message `"String too long"`. -/
def stringTooLong : List Nat :=
  [83, 116, 114, 105, 110, 103, 32, 116, 111, 111, 32, 108, 111, 110, 103]

/-- The assignments of `ArSocket::internalInit` (lines 59-84). The members it
does not assign, among them the contents of `myStringBuf`, are kept; the call
of `resetTracking`, which is defined elsewhere, is left out. -/
def internalInit (s : ArSocket) : ArSocket :=
  { s with
    myStringAutoEcho := true
    myStringEcho := false
    myStringPosLast := 0
    myStringPos := 0
    myStringGotComplete := false
    myStringBufEmpty := s.myStringBufEmpty.set 0 0
    myStringGotEscapeChars := false
    myStringHaveEchoed := false
    myLogWriteStrings := false
    myBadWrite := false
    myBadRead := false
    myStringIgnoreReturn := false
    myStringWrongEndChars := false
    myErrorTracking := false
    myFakeWrites := false }

/-- The function `ArSocket::write(buff, len)` (lines 145-202). `data` is the
content of the range `buff[0 .. len)`; the call is appended to `wire`, and the
oracle `snd` answers for the system. Returns the result and the new state. -/
def write (snd : Nat → Send) (s : ArSocket) (data : List Nat) (len : Nat) :
    Int × ArSocket :=
  let k := s.wire.length
  let s := { s with wire := s.wire ++ [⟨data, len⟩] }
  if s.myFakeWrites then (toInt32 len, s)
  else
    match snd k with
    | .notReady => (0, s)
    | .done ret errno =>
      let s := if ret > 0 then
          { s with mySends := s.mySends + 1, myBytesSent := s.myBytesSent + ret.toNat }
        else s
      let s := if s.myErrorTracking && decide (ret < 0) then
          (if s.myNonBlocking then
            (if errno ≠ EAGAIN then { s with myBadWrite := true } else s)
          else { s with myBadWrite := true })
        else s
      (ret, s)

/-- The function `ArSocket::read(buff, 1, msWait)` (lines 210-260), apart from
the store of the received byte into `buff`, which `readAt` performs. -/
def read (s : ArSocket) (ev : Recv) : Int × ArSocket :=
  let ret := ev.ret
  let s := if ret > 0 then
      { s with myRecvs := s.myRecvs + 1, myBytesRecvd := s.myBytesRecvd + ret.toNat }
    else s
  let s := if s.myErrorTracking && decide (ret < 0) then
      (if s.myNonBlocking then
        (if ev.errno ≠ EAGAIN then { s with myBadRead := true } else s)
      else { s with myBadRead := true })
    else s
  (ret, s)

/-- The call `read(&myStringBuf[i], 1, msWait)` of line 347: `read`, and the
received byte stored at index `i`. -/
def readAt (s : ArSocket) (i : Nat) (ev : Recv) : Int × ArSocket :=
  let r := read s ev
  match ev with
  | .data b => (r.1, { r.2 with myStringBuf := r.2.myStringBuf.set i b })
  | _ => r

/-- The function `ArSocket::writeString` (lines 269-306) applied to the
formatted message `msg`: `vsnprintf` keeps at most `sizeof(buf) - 3 - 1` of its
bytes, `strlen` stops at the first NUL, the two end characters are appended and
the whole is handed to `write`. Returns the result of `write`. -/
def writeString (snd : Nat → Send) (s : ArSocket) (msg : List Nat) : Int × ArSocket :=
  let body := (cstr msg).take (writeBufSize - 3 - 1)
  let len := body.length
  let buf := if s.myStringWrongEndChars then body ++ [10, 13] else body ++ [13, 10]
  write snd s buf (len + 2)

/-- The function `ArSocket::doStringEcho` (lines 490-514). -/
def doStringEcho (snd : Nat → Send) (s : ArSocket) : ArSocket :=
  if !s.myStringAutoEcho && !s.myStringEcho then s
  else
    let s := if s.myStringHaveEchoed && s.myStringGotComplete then
        { (write snd s [10, 13] 2).2 with myStringGotComplete := false }
      else s
    if s.myStringPosLast = s.myStringPos then s
    else if s.myStringAutoEcho && s.myStringGotEscapeChars then s
    else
      let s := { s with myStringHaveEchoed := true }
      let len := (s.myStringPos + sizeMod - s.myStringPosLast) % sizeMod
      let s := (write snd s ((s.myStringBuf.drop s.myStringPosLast).take len) len).2
      { s with myStringPosLast := s.myStringPos }

/-- The loop `for (ei = 0; buf[ei] < 0 || (ei > 0 && buf[ei - 1] < 0); ei++);`
of lines 392-394, started at `ei` with `fuel` iterations left. The scan also
stops when `ei` leaves the array (the source would read outside of it). -/
def escapeScan (buf : List Nat) : Nat → Nat → Nat
  | 0, ei => ei
  | fuel + 1, ei =>
    match buf[ei]? with
    | none => ei
    | some c =>
      if isNeg c || (decide (ei > 0) && isNeg (buf.getD (ei - 1) 0)) then
        escapeScan buf fuel (ei + 1)
      else ei

/-- Lines 365 and 383-413 of `readString`: a line end was stored at index
`i ≠ 0`. -/
def finishLine (snd : Nat → Send) (s : ArSocket) (i : Nat) : Outcome × ArSocket :=
  let s := { s with myStringGotComplete := true }
  let s := { s with myStringBuf := s.myStringBuf.set i 0, myStringPos := 0,
                    myStringPosLast := 0 }
  if isNeg (s.myStringBuf.getD 0 0) then
    let s := { s with myStringGotEscapeChars := true }
    let ei := escapeScan s.myStringBuf (s.myStringBuf.length + 1) 0
    let s := doStringEcho snd s
    (Outcome.Complete ei (cstr (s.myStringBuf.drop ei)), s)
  else
    let s := doStringEcho snd s
    (Outcome.Complete 0 (cstr s.myStringBuf), s)

/-- Lines 463-470 of `readString`: the loop ended without a line end. -/
def overflowExit (snd : Nat → Send) (s : ArSocket) : Outcome × ArSocket :=
  (Outcome.Overflowed, (writeString snd s stringTooLong).2)

/-- The loop of `ArSocket::readString` (lines 345-462) entered with loop index
`i`, and the exit after it. The events are consumed one per iteration; the
result holds the outcome, the state and the events that are left, and is `none`
when the events run out while the call is still waiting for a byte. The
recursive call of line 381 restarts the function, hence the loop at
`myStringPos`. -/
def readStringFrom (snd : Nat → Send) :
    List Recv → ArSocket → Nat → Option (Outcome × ArSocket × List Recv)
  | [], s, i =>
    if i < s.myStringBuf.length then none
    else some ((overflowExit snd s).1, (overflowExit snd s).2, [])
  | ev :: rest, s, i =>
    if i < s.myStringBuf.length then
      let n := (readAt s i ev).1
      let s := (readAt s i ev).2
      if n > 0 then
        let s := if i = 0 ∧ isNeg (s.myStringBuf.getD i 0) then
            { s with myStringGotEscapeChars := true }
          else s
        if s.myStringIgnoreReturn ∧ s.myStringBuf.getD i 0 = 13 then
          readStringFrom snd rest s (((i + sizeMod - 1) % sizeMod + 1) % sizeMod)
        else if s.myStringBuf.getD i 0 = 10 ∨ s.myStringBuf.getD i 0 = 13 then
          if i ≠ 0 then
            some ((finishLine snd s i).1, (finishLine snd s i).2, rest)
          else
            readStringFrom snd rest
              { s with myStringBufEmpty := s.myStringBufEmpty.set 0 0 } s.myStringPos
        else
          readStringFrom snd rest s (i + 1)
      else if n = 0 then
        let s := { s with myStringPos := i }
        let s := { s with myStringBuf := s.myStringBuf.set s.myStringPos 0 }
        some (Outcome.Closed, s, rest)
      else if ev.errno = EAGAIN then
        let s := { s with myStringPos := i }
        let s := doStringEcho snd s
        some (Outcome.Partial (cstr s.myStringBufEmpty), s, rest)
      else
        some (Outcome.IoError, s, rest)
    else some ((overflowExit snd s).1, (overflowExit snd s).2, ev :: rest)

/-- The function `ArSocket::readString` (lines 334-471). -/
def readString (snd : Nat → Send) (s : ArSocket) (evs : List Recv) :
    Option (Outcome × ArSocket × List Recv) :=
  readStringFrom snd evs { s with myStringBufEmpty := s.myStringBufEmpty.set 0 0 }
    s.myStringPos

/-- The function `ArSocket::clearPartialReadString` (lines 473-479). -/
def clearPartialReadString (s : ArSocket) : ArSocket :=
  { s with myStringBuf := s.myStringBuf.set 0 0, myStringPos := 0 }

/-- The function `strncmp(s1, s2, n)`, `s1` being a C string given by its bytes
(its NUL is met at the end of the list) and `s2` an array; the result is `none`
when the comparison reads past the end of the array. -/
def strncmp : List Nat → List Nat → Nat → Option Int
  | _, _, 0 => some 0
  | _, [], _ + 1 => none
  | [], c2 :: _, _ + 1 => if c2 = 0 then some 0 else some (0 - (c2 : Int))
  | c1 :: t1, c2 :: t2, n + 1 =>
    if c1 ≠ c2 then some ((c1 : Int) - (c2 : Int))
    else if c1 = 0 then some 0
    else strncmp t1 t2 n

/-- The function `ArSocket::comparePartialReadString` (lines 481-488); the state
is returned with the result. -/
def comparePartialReadString (s : ArSocket) (partialString : List Nat) :
    Option Int × ArSocket :=
  (strncmp partialString s.myStringBuf (strlen partialString), s)

/-- Repeated calls of `readString`, at most `n` of them, each on the events the
previous one left; the list of their outcomes. It stops at a call that does not
return. -/
def readMany (snd : Nat → Send) : Nat → ArSocket → List Recv → List Outcome
  | 0, _, _ => []
  | n + 1, s, evs =>
    match readString snd s evs with
    | none => []
    | some (o, s1, rest) => o :: readMany snd n s1 rest

/-- A concrete socket: a non-blocking one whose buffer holds `cap` zero bytes,
after `internalInit`. -/
def freshSocket (cap : Nat) : ArSocket :=
  internalInit
    { myStringBuf := List.replicate cap 0, myStringBufEmpty := [0], myStringPos := 0,
      myStringPosLast := 0, myStringGotComplete := false, myStringGotEscapeChars := false,
      myStringHaveEchoed := false, myStringAutoEcho := false, myStringEcho := false,
      myStringIgnoreReturn := false, myStringWrongEndChars := false,
      myLogWriteStrings := false, myErrorTracking := false, myNonBlocking := true,
      myFakeWrites := false, myBadRead := false, myBadWrite := false, mySends := 0,
      myBytesSent := 0, myRecvs := 0, myBytesRecvd := 0, wire := [] }

/-- An oracle under which every `write` system call sends `n` bytes. -/
def sendOk (n : Int) : Nat → Send := fun _ => Send.done n 0

/-- The state after line 342 of `readString`: `myStringBufEmpty[0] = '\0'`. -/
def enter (s : ArSocket) : ArSocket :=
  { s with myStringBufEmpty := s.myStringBufEmpty.set 0 0 }

/-- The state of `readString` after one iteration that received the byte `b`
at loop index `i`: the `read` of line 347 and the flag of lines 350-353. -/
def accept (s : ArSocket) (i b : Nat) : ArSocket :=
  let s1 := (readAt s i (Recv.data b)).2
  if i = 0 ∧ isNeg (s1.myStringBuf.getD i 0) then
    { s1 with myStringGotEscapeChars := true }
  else s1

/-- The state after the iterations `i`, `i + 1`, ... received the bytes `bs`. -/
def acceptAll (s : ArSocket) : Nat → List Nat → ArSocket
  | _, [] => s
  | i, b :: bs => acceptAll (accept s i b) (i + 1) bs

/-- The state `s` with the two receive counters replaced. -/
def setStats (s : ArSocket) (a b : Nat) : ArSocket :=
  { s with myRecvs := a, myBytesRecvd := b }

/-- The result of `write` and the new values of `mySends`, `myBytesSent` and
`myBadWrite`, as a function of the members that `write` reads. -/
def sendEffect (snd : Nat → Send) (k : Nat) (fake tracking nonBlocking : Bool)
    (sends bytes : Nat) (bad : Bool) (len : Nat) : Int × Nat × Nat × Bool :=
  if fake then (toInt32 len, sends, bytes, bad)
  else
    match snd k with
    | .notReady => (0, sends, bytes, bad)
    | .done ret errno =>
      (ret, if ret > 0 then sends + 1 else sends,
        if ret > 0 then bytes + ret.toNat else bytes,
        if tracking && decide (ret < 0) then
          (if nonBlocking then (if errno ≠ EAGAIN then true else bad) else true)
        else bad)

/-- The state `s` with the two receive counters cleared. -/
def noStats (s : ArSocket) : ArSocket := setStats s 0 0

/-- The state `s` with the receive counters and the cell 0 of `myStringBuf`
cleared. -/
def noCell (s : ArSocket) : ArSocket :=
  setStats { s with myStringBuf := s.myStringBuf.set 0 0 } 0 0

/-- What is compared of a state when a line end met at index 0 is skipped: all
members but the receive counters, which count the skipped byte, and, while no
byte is accumulated (`myStringPos = 0`), but the cell 0 of the array, which lies
outside of the accumulated bytes. -/
def view (s : ArSocket) : ArSocket :=
  if s.myStringPos = 0 then noCell s else noStats s

/-- A result of `readString` with `f` applied to its state. -/
def mapState (f : ArSocket → ArSocket) (r : Outcome × ArSocket × List Recv) :
    Outcome × ArSocket × List Recv :=
  (r.1, f r.2.1, r.2.2)

/-- The state `s` with `c` stored in the cell 0 of `myStringBuf`. -/
def setCell (s : ArSocket) (c : Nat) : ArSocket :=
  { s with myStringBuf := s.myStringBuf.set 0 c }

/-- The events met while a byte stream arrives in fragments: a received byte, or
a would-block result. -/
def isChunk : Recv → Bool
  | .data _ => true
  | .zero => false
  | .error e => decide (e = EAGAIN)

/-- The bytes sent for a list of lines: every line followed by CR, LF. -/
def wireOf : List (List Nat) → List Nat
  | [] => []
  | l :: ls => l ++ 13 :: 10 :: wireOf ls

/-- A line that `readString` with a buffer of `cap` bytes returns unchanged: not
empty, shorter than `cap`, without NUL, CR or LF, and not starting with a
high-bit byte. -/
def GoodLine (cap : Nat) (l : List Nat) : Prop :=
  l ≠ [] ∧ l.length < cap ∧ (∀ b ∈ l, b ≠ 0 ∧ b ≠ 10 ∧ b ≠ 13) ∧ isNeg (l.headD 0) = false

/-- The events `evs` deliver the byte stream `stream` in fragments: every event
is a received byte or a would-block result, and the received bytes, in order,
are `stream`. -/
def Fragmented (evs : List Recv) (stream : List Nat) : Prop :=
  (∀ ev ∈ evs, isChunk ev = true) ∧ evs.filterMap Recv.byte = stream

/-- The outcomes that follow a result of `readString`: its outcome, then those
of at most `n` further calls. -/
def runFrom (snd : Nat → Send) (n : Nat) :
    Option (Outcome × ArSocket × List Recv) → List Outcome
  | none => []
  | some (o, s1, rest) => o :: readMany snd n s1 rest

/-- What is still to come while the reader holds the bytes `acc` of the current
line: `bytes` are the bytes not yet received and `lines` the lines not yet
returned. Either the rest `cur` of the current line and its CR, LF are to come,
or the LF of a line just returned, or nothing. -/
def Pending (cap : Nat) (acc bytes : List Nat) (lines : List (List Nat)) : Prop :=
  (∃ cur rest, bytes = cur ++ 13 :: 10 :: wireOf rest ∧ lines = (acc ++ cur) :: rest
      ∧ ∀ l ∈ lines, GoodLine cap l)
    ∨ (acc = [] ∧ bytes = 10 :: wireOf lines ∧ ∀ l ∈ lines, GoodLine cap l)
    ∨ (acc = [] ∧ bytes = [] ∧ lines = [])

/-- The state of the reader inside the loop of `readString` at index `i`, the
bytes `acc` of the current line being accumulated, ignore-return off. -/
def Reading (cap : Nat) (s : ArSocket) (i : Nat) (acc : List Nat) : Prop :=
  s.myStringIgnoreReturn = false ∧ cstr s.myStringBufEmpty = [] ∧ s.myStringPos ≤ i
    ∧ i = acc.length ∧ s.myStringBuf.take i = acc ∧ s.myStringBuf.length = cap ∧ 0 < cap

/-- The state after at most `n` repeated calls of `readString`, each on the
events the previous one left; it stops at a call that does not return. Such a
call has written nothing: `readString` calls `write` only on its way out. -/
def readManyState (snd : Nat → Send) : Nat → ArSocket → List Recv → ArSocket
  | 0, s, _ => s
  | n + 1, s, evs =>
    match readString snd s evs with
    | none => s
    | some (_, s1, rest) => readManyState snd n s1 rest

/-- A call of one of the member functions of the text protocol; `readString`
comes with the events it meets. -/
inductive Call where
  | readString (evs : List Recv)
  | writeString (msg : List Nat)
  | clearPartialReadString
  | doStringEcho
deriving DecidableEq, Repr

/-- The state after a call; a `readString` that does not return leaves it as it
was. -/
def applyCall (snd : Nat → Send) (s : ArSocket) : Call → ArSocket
  | .readString evs =>
    match readString snd s evs with
    | none => s
    | some (_, s1, _) => s1
  | .writeString msg => (writeString snd s msg).2
  | .clearPartialReadString => clearPartialReadString s
  | .doStringEcho => doStringEcho snd s

/-- The state after a sequence of calls. -/
def applyCalls (snd : Nat → Send) (s : ArSocket) (cs : List Call) : ArSocket :=
  cs.foldl (applyCall snd) s

/-- The stores of `writeString` into its local array `buf`, in program order, as
pairs of index and byte: those of `vsnprintf(buf, sizeof(buf) - 3, ...)` (the
kept bytes of the message and the NUL after them), the two end characters at
`len` and `len + 1`, and the NUL stored at `len + 2` after the `write`. -/
def writeStringStores (s : ArSocket) (msg : List Nat) : List (Nat × Nat) :=
  let body := (cstr msg).take (writeBufSize - 3 - 1)
  let len := body.length
  (body.enum ++ [(len, 0)])
    ++ (if s.myStringWrongEndChars then [(len, 10), (len + 1, 13)]
        else [(len, 13), (len + 1, 10)])
    ++ [(len + 2, 0)]

/-- The array `buf` after the stores `st`. -/
def storeAll (buf : List Nat) (st : List (Nat × Nat)) : List Nat :=
  st.foldl (fun b p => b.set p.1 p.2) buf

/-- A call of `write` that carries no byte of the line buffer: the echo `"\n\r"`
of a line end (line 498), or the message of the overflow exit (line 465) with
its two end characters, in the orientation `wrong`. -/
def NoPayload (wrong : Bool) (c : WriteCall) : Prop :=
  c = ⟨[10, 13], 2⟩
    ∨ c = ⟨stringTooLong ++ (if wrong then [10, 13] else [13, 10]), 17⟩

/-- The calls other than `writeString`. -/
def Call.isReader : Call → Bool
  | .writeString _ => false
  | _ => true

/-- The record `w1` of the writes extends `w0` by calls that carry no byte of
the line buffer. -/
def QuietFrom (wrong : Bool) (w0 w1 : List WriteCall) : Prop :=
  ∃ ext, w1 = w0 ++ ext ∧ ∀ c ∈ ext, NoPayload wrong c

/-- The state `s` with `c` stored in the cell `i` of `myStringBuf`. -/
def setCellAt (s : ArSocket) (i c : Nat) : ArSocket :=
  { s with myStringBuf := s.myStringBuf.set i c }

/-- The events other than a received CR. -/
def notReturn (ev : Recv) : Bool := decide (ev ≠ Recv.data 13)

/-- The outcome of a call of `readString`, with its payload, and the resulting
`myStringPos`. -/
def outcomeAndPos (r : Outcome × ArSocket × List Recv) : Outcome × Nat :=
  (r.1, r.2.1.myStringPos)

/-- What one call of `readString` receives in a run of calls that end on a
would-block result or on a line end: first the line ends `lead` that are skipped
at index 0, then the bytes `bytes` that are accepted, then the event that ends
the call, a would-block result (`stop = none`) or the line end `t`
(`stop = some t`). -/
structure Round where
  lead : List Nat
  bytes : List Nat
  stop : Option Nat
deriving DecidableEq, Repr

/-- The events of a round, in the order of their arrival. -/
def Round.events (r : Round) : List Recv :=
  r.lead.map Recv.data ++ (r.bytes.map Recv.data ++
    [match r.stop with
     | none => Recv.error EAGAIN
     | some t => Recv.data t])

/-- The events of a list of rounds. -/
def roundsEvents : List Round → List Recv
  | [] => []
  | r :: rs => r.events ++ roundsEvents rs

/-- The rounds `rs` can be run from the position `pos` with a buffer of `cap`
bytes: line ends are skipped only while no byte is accumulated, the accepted
bytes are neither line ends nor high-bit bytes and leave room in the buffer for
the event that ends the call, and a line end that ends a call comes after at
least one accumulated byte (and is not a CR dropped by the ignore-return
mode). -/
def roundsFit (ign : Bool) (cap : Nat) : Nat → List Round → Bool
  | _, [] => true
  | pos, r :: rs =>
    (r.lead.isEmpty || decide (pos = 0))
      && r.lead.all (fun t => decide (t = 10) || decide (t = 13))
      && r.bytes.all (fun b => decide (b ≠ 10) && decide (b ≠ 13) && !isNeg b)
      && decide (pos + r.bytes.length < cap)
      && (match r.stop with
          | none => roundsFit ign cap (pos + r.bytes.length) rs
          | some t =>
            (decide (t = 10) || (decide (t = 13) && !ign))
              && decide (pos + r.bytes.length ≠ 0) && roundsFit ign cap 0 rs)

/-- The outcome `o` is the one that ends the round `r`: `Partial` with the empty
payload for a would-block result, `Complete` for a line end. -/
def Answers (r : Round) (o : Outcome) : Prop :=
  match r.stop with
  | none => o = Outcome.Partial []
  | some _ => ∃ st p, o = Outcome.Complete st p

/-- The payload bytes of a record of writes: the bytes of all the calls of
`write` but the line-end echoes `write("\n\r", 2)`, in order. -/
def echoedPayload : List WriteCall → List Nat
  | [] => []
  | c :: ws => if c = ⟨[10, 13], 2⟩ then echoedPayload ws else c.data ++ echoedPayload ws

/-- The bytes accepted by the rounds that end on a would-block result, in
order. -/
def pendingBytes : List Round → List Nat
  | [] => []
  | r :: rs =>
    match r.stop with
    | none => r.bytes ++ pendingBytes rs
    | some _ => pendingBytes rs

/-- The reader is ready to echo what it accepts: echo is on, no escape byte was
seen, all accumulated bytes are echoed, the first accumulated byte (if any) has
its high bit clear, and `size_t` can count the buffer. -/
def EchoReady (s : ArSocket) : Prop :=
  (s.myStringAutoEcho = true ∨ s.myStringEcho = true)
    ∧ s.myStringGotEscapeChars = false
    ∧ s.myStringPosLast = s.myStringPos
    ∧ (s.myStringPos ≠ 0 → isNeg (s.myStringBuf.getD 0 0) = false)
    ∧ s.myStringBuf.length ≤ sizeMod

/-! ## Frame lemmas: the members a function leaves alone -/

theorem write_shape (snd : Nat → Send) (s : ArSocket) (d : List Nat) (l : Nat) :
    ∃ a b c, (write snd s d l).2 =
      { s with wire := s.wire ++ [⟨d, l⟩], mySends := a, myBytesSent := b, myBadWrite := c } := by
  unfold write
  simp only []
  split_ifs
  · exact ⟨_, _, _, rfl⟩
  · split
    · exact ⟨_, _, _, rfl⟩
    · split_ifs <;> exact ⟨_, _, _, rfl⟩

@[simp]
theorem write_wire (snd : Nat → Send) (s : ArSocket) (d : List Nat) (l : Nat) :
    (write snd s d l).2.wire = s.wire ++ [⟨d, l⟩] := by
  obtain ⟨a, b, c, h⟩ := write_shape snd s d l
  rw [h]

@[simp]
theorem write_myStringBuf (snd : Nat → Send) (s : ArSocket) (d : List Nat) (l : Nat) :
    (write snd s d l).2.myStringBuf = s.myStringBuf := by
  obtain ⟨a, b, c, h⟩ := write_shape snd s d l
  rw [h]

@[simp]
theorem write_myStringBufEmpty (snd : Nat → Send) (s : ArSocket) (d : List Nat) (l : Nat) :
    (write snd s d l).2.myStringBufEmpty = s.myStringBufEmpty := by
  obtain ⟨a, b, c, h⟩ := write_shape snd s d l
  rw [h]

@[simp]
theorem write_myStringPos (snd : Nat → Send) (s : ArSocket) (d : List Nat) (l : Nat) :
    (write snd s d l).2.myStringPos = s.myStringPos := by
  obtain ⟨a, b, c, h⟩ := write_shape snd s d l
  rw [h]

@[simp]
theorem write_myStringPosLast (snd : Nat → Send) (s : ArSocket) (d : List Nat) (l : Nat) :
    (write snd s d l).2.myStringPosLast = s.myStringPosLast := by
  obtain ⟨a, b, c, h⟩ := write_shape snd s d l
  rw [h]

@[simp]
theorem write_myStringGotComplete (snd : Nat → Send) (s : ArSocket) (d : List Nat) (l : Nat) :
    (write snd s d l).2.myStringGotComplete = s.myStringGotComplete := by
  obtain ⟨a, b, c, h⟩ := write_shape snd s d l
  rw [h]

@[simp]
theorem write_myStringGotEscapeChars (snd : Nat → Send) (s : ArSocket) (d : List Nat) (l : Nat) :
    (write snd s d l).2.myStringGotEscapeChars = s.myStringGotEscapeChars := by
  obtain ⟨a, b, c, h⟩ := write_shape snd s d l
  rw [h]

@[simp]
theorem write_myStringHaveEchoed (snd : Nat → Send) (s : ArSocket) (d : List Nat) (l : Nat) :
    (write snd s d l).2.myStringHaveEchoed = s.myStringHaveEchoed := by
  obtain ⟨a, b, c, h⟩ := write_shape snd s d l
  rw [h]

@[simp]
theorem write_myStringAutoEcho (snd : Nat → Send) (s : ArSocket) (d : List Nat) (l : Nat) :
    (write snd s d l).2.myStringAutoEcho = s.myStringAutoEcho := by
  obtain ⟨a, b, c, h⟩ := write_shape snd s d l
  rw [h]

@[simp]
theorem write_myStringEcho (snd : Nat → Send) (s : ArSocket) (d : List Nat) (l : Nat) :
    (write snd s d l).2.myStringEcho = s.myStringEcho := by
  obtain ⟨a, b, c, h⟩ := write_shape snd s d l
  rw [h]

@[simp]
theorem write_myStringIgnoreReturn (snd : Nat → Send) (s : ArSocket) (d : List Nat) (l : Nat) :
    (write snd s d l).2.myStringIgnoreReturn = s.myStringIgnoreReturn := by
  obtain ⟨a, b, c, h⟩ := write_shape snd s d l
  rw [h]

@[simp]
theorem write_myStringWrongEndChars (snd : Nat → Send) (s : ArSocket) (d : List Nat) (l : Nat) :
    (write snd s d l).2.myStringWrongEndChars = s.myStringWrongEndChars := by
  obtain ⟨a, b, c, h⟩ := write_shape snd s d l
  rw [h]

@[simp]
theorem write_myLogWriteStrings (snd : Nat → Send) (s : ArSocket) (d : List Nat) (l : Nat) :
    (write snd s d l).2.myLogWriteStrings = s.myLogWriteStrings := by
  obtain ⟨a, b, c, h⟩ := write_shape snd s d l
  rw [h]

@[simp]
theorem write_myErrorTracking (snd : Nat → Send) (s : ArSocket) (d : List Nat) (l : Nat) :
    (write snd s d l).2.myErrorTracking = s.myErrorTracking := by
  obtain ⟨a, b, c, h⟩ := write_shape snd s d l
  rw [h]

@[simp]
theorem write_myNonBlocking (snd : Nat → Send) (s : ArSocket) (d : List Nat) (l : Nat) :
    (write snd s d l).2.myNonBlocking = s.myNonBlocking := by
  obtain ⟨a, b, c, h⟩ := write_shape snd s d l
  rw [h]

@[simp]
theorem write_myFakeWrites (snd : Nat → Send) (s : ArSocket) (d : List Nat) (l : Nat) :
    (write snd s d l).2.myFakeWrites = s.myFakeWrites := by
  obtain ⟨a, b, c, h⟩ := write_shape snd s d l
  rw [h]

@[simp]
theorem write_myBadRead (snd : Nat → Send) (s : ArSocket) (d : List Nat) (l : Nat) :
    (write snd s d l).2.myBadRead = s.myBadRead := by
  obtain ⟨a, b, c, h⟩ := write_shape snd s d l
  rw [h]

@[simp]
theorem write_myRecvs (snd : Nat → Send) (s : ArSocket) (d : List Nat) (l : Nat) :
    (write snd s d l).2.myRecvs = s.myRecvs := by
  obtain ⟨a, b, c, h⟩ := write_shape snd s d l
  rw [h]

@[simp]
theorem write_myBytesRecvd (snd : Nat → Send) (s : ArSocket) (d : List Nat) (l : Nat) :
    (write snd s d l).2.myBytesRecvd = s.myBytesRecvd := by
  obtain ⟨a, b, c, h⟩ := write_shape snd s d l
  rw [h]

@[simp]
theorem writeString_myStringBuf (snd : Nat → Send) (s : ArSocket) (m : List Nat) :
    (writeString snd s m).2.myStringBuf = s.myStringBuf := by
  simp [writeString]

@[simp]
theorem writeString_myStringBufEmpty (snd : Nat → Send) (s : ArSocket) (m : List Nat) :
    (writeString snd s m).2.myStringBufEmpty = s.myStringBufEmpty := by
  simp [writeString]

@[simp]
theorem writeString_myStringPos (snd : Nat → Send) (s : ArSocket) (m : List Nat) :
    (writeString snd s m).2.myStringPos = s.myStringPos := by
  simp [writeString]

@[simp]
theorem writeString_myStringPosLast (snd : Nat → Send) (s : ArSocket) (m : List Nat) :
    (writeString snd s m).2.myStringPosLast = s.myStringPosLast := by
  simp [writeString]

@[simp]
theorem writeString_myStringGotComplete (snd : Nat → Send) (s : ArSocket) (m : List Nat) :
    (writeString snd s m).2.myStringGotComplete = s.myStringGotComplete := by
  simp [writeString]

@[simp]
theorem writeString_myStringGotEscapeChars (snd : Nat → Send) (s : ArSocket) (m : List Nat) :
    (writeString snd s m).2.myStringGotEscapeChars = s.myStringGotEscapeChars := by
  simp [writeString]

@[simp]
theorem writeString_myStringHaveEchoed (snd : Nat → Send) (s : ArSocket) (m : List Nat) :
    (writeString snd s m).2.myStringHaveEchoed = s.myStringHaveEchoed := by
  simp [writeString]

@[simp]
theorem writeString_myStringAutoEcho (snd : Nat → Send) (s : ArSocket) (m : List Nat) :
    (writeString snd s m).2.myStringAutoEcho = s.myStringAutoEcho := by
  simp [writeString]

@[simp]
theorem writeString_myStringEcho (snd : Nat → Send) (s : ArSocket) (m : List Nat) :
    (writeString snd s m).2.myStringEcho = s.myStringEcho := by
  simp [writeString]

@[simp]
theorem writeString_myStringIgnoreReturn (snd : Nat → Send) (s : ArSocket) (m : List Nat) :
    (writeString snd s m).2.myStringIgnoreReturn = s.myStringIgnoreReturn := by
  simp [writeString]

@[simp]
theorem writeString_myStringWrongEndChars (snd : Nat → Send) (s : ArSocket) (m : List Nat) :
    (writeString snd s m).2.myStringWrongEndChars = s.myStringWrongEndChars := by
  simp [writeString]

@[simp]
theorem writeString_myLogWriteStrings (snd : Nat → Send) (s : ArSocket) (m : List Nat) :
    (writeString snd s m).2.myLogWriteStrings = s.myLogWriteStrings := by
  simp [writeString]

@[simp]
theorem writeString_myErrorTracking (snd : Nat → Send) (s : ArSocket) (m : List Nat) :
    (writeString snd s m).2.myErrorTracking = s.myErrorTracking := by
  simp [writeString]

@[simp]
theorem writeString_myNonBlocking (snd : Nat → Send) (s : ArSocket) (m : List Nat) :
    (writeString snd s m).2.myNonBlocking = s.myNonBlocking := by
  simp [writeString]

@[simp]
theorem writeString_myFakeWrites (snd : Nat → Send) (s : ArSocket) (m : List Nat) :
    (writeString snd s m).2.myFakeWrites = s.myFakeWrites := by
  simp [writeString]

@[simp]
theorem writeString_myBadRead (snd : Nat → Send) (s : ArSocket) (m : List Nat) :
    (writeString snd s m).2.myBadRead = s.myBadRead := by
  simp [writeString]

@[simp]
theorem writeString_myRecvs (snd : Nat → Send) (s : ArSocket) (m : List Nat) :
    (writeString snd s m).2.myRecvs = s.myRecvs := by
  simp [writeString]

@[simp]
theorem writeString_myBytesRecvd (snd : Nat → Send) (s : ArSocket) (m : List Nat) :
    (writeString snd s m).2.myBytesRecvd = s.myBytesRecvd := by
  simp [writeString]

@[simp]
theorem doStringEcho_myStringBuf (snd : Nat → Send) (s : ArSocket) :
    (doStringEcho snd s).myStringBuf = s.myStringBuf := by
  unfold doStringEcho
  simp only []
  split_ifs <;> simp

@[simp]
theorem doStringEcho_myStringBufEmpty (snd : Nat → Send) (s : ArSocket) :
    (doStringEcho snd s).myStringBufEmpty = s.myStringBufEmpty := by
  unfold doStringEcho
  simp only []
  split_ifs <;> simp

@[simp]
theorem doStringEcho_myStringPos (snd : Nat → Send) (s : ArSocket) :
    (doStringEcho snd s).myStringPos = s.myStringPos := by
  unfold doStringEcho
  simp only []
  split_ifs <;> simp

@[simp]
theorem doStringEcho_myStringGotEscapeChars (snd : Nat → Send) (s : ArSocket) :
    (doStringEcho snd s).myStringGotEscapeChars = s.myStringGotEscapeChars := by
  unfold doStringEcho
  simp only []
  split_ifs <;> simp

@[simp]
theorem doStringEcho_myStringAutoEcho (snd : Nat → Send) (s : ArSocket) :
    (doStringEcho snd s).myStringAutoEcho = s.myStringAutoEcho := by
  unfold doStringEcho
  simp only []
  split_ifs <;> simp

@[simp]
theorem doStringEcho_myStringEcho (snd : Nat → Send) (s : ArSocket) :
    (doStringEcho snd s).myStringEcho = s.myStringEcho := by
  unfold doStringEcho
  simp only []
  split_ifs <;> simp

@[simp]
theorem doStringEcho_myStringIgnoreReturn (snd : Nat → Send) (s : ArSocket) :
    (doStringEcho snd s).myStringIgnoreReturn = s.myStringIgnoreReturn := by
  unfold doStringEcho
  simp only []
  split_ifs <;> simp

@[simp]
theorem doStringEcho_myStringWrongEndChars (snd : Nat → Send) (s : ArSocket) :
    (doStringEcho snd s).myStringWrongEndChars = s.myStringWrongEndChars := by
  unfold doStringEcho
  simp only []
  split_ifs <;> simp

@[simp]
theorem doStringEcho_myLogWriteStrings (snd : Nat → Send) (s : ArSocket) :
    (doStringEcho snd s).myLogWriteStrings = s.myLogWriteStrings := by
  unfold doStringEcho
  simp only []
  split_ifs <;> simp

@[simp]
theorem doStringEcho_myErrorTracking (snd : Nat → Send) (s : ArSocket) :
    (doStringEcho snd s).myErrorTracking = s.myErrorTracking := by
  unfold doStringEcho
  simp only []
  split_ifs <;> simp

@[simp]
theorem doStringEcho_myNonBlocking (snd : Nat → Send) (s : ArSocket) :
    (doStringEcho snd s).myNonBlocking = s.myNonBlocking := by
  unfold doStringEcho
  simp only []
  split_ifs <;> simp

@[simp]
theorem doStringEcho_myFakeWrites (snd : Nat → Send) (s : ArSocket) :
    (doStringEcho snd s).myFakeWrites = s.myFakeWrites := by
  unfold doStringEcho
  simp only []
  split_ifs <;> simp

@[simp]
theorem doStringEcho_myBadRead (snd : Nat → Send) (s : ArSocket) :
    (doStringEcho snd s).myBadRead = s.myBadRead := by
  unfold doStringEcho
  simp only []
  split_ifs <;> simp

@[simp]
theorem doStringEcho_myRecvs (snd : Nat → Send) (s : ArSocket) :
    (doStringEcho snd s).myRecvs = s.myRecvs := by
  unfold doStringEcho
  simp only []
  split_ifs <;> simp

@[simp]
theorem doStringEcho_myBytesRecvd (snd : Nat → Send) (s : ArSocket) :
    (doStringEcho snd s).myBytesRecvd = s.myBytesRecvd := by
  unfold doStringEcho
  simp only []
  split_ifs <;> simp

theorem read_shape (s : ArSocket) (ev : Recv) :
    ∃ a b c, (read s ev).2 = { s with myRecvs := a, myBytesRecvd := b, myBadRead := c } := by
  unfold read
  simp only []
  split_ifs <;> exact ⟨_, _, _, rfl⟩

@[simp]
theorem read_fst (s : ArSocket) (ev : Recv) : (read s ev).1 = ev.ret := rfl

@[simp]
theorem readAt_fst (s : ArSocket) (i : Nat) (ev : Recv) : (readAt s i ev).1 = ev.ret := by
  cases ev <;> rfl

@[simp]
theorem readAt_zero (s : ArSocket) (i : Nat) : readAt s i Recv.zero = (0, s) := by
  simp [readAt, read, Recv.ret]

@[simp]
theorem readAt_myStringBuf (s : ArSocket) (i : Nat) (ev : Recv) :
    (readAt s i ev).2.myStringBuf =
      match ev with
      | .data b => s.myStringBuf.set i b
      | _ => s.myStringBuf := by
  obtain ⟨a, b, c, h⟩ := read_shape s ev
  cases ev <;> simp [readAt, h]

@[simp]
theorem read_myStringBuf (s : ArSocket) (ev : Recv) :
    (read s ev).2.myStringBuf = s.myStringBuf := by
  obtain ⟨a, b, c, h⟩ := read_shape s ev
  rw [h]

@[simp]
theorem read_myStringBufEmpty (s : ArSocket) (ev : Recv) :
    (read s ev).2.myStringBufEmpty = s.myStringBufEmpty := by
  obtain ⟨a, b, c, h⟩ := read_shape s ev
  rw [h]

@[simp]
theorem read_myStringPos (s : ArSocket) (ev : Recv) :
    (read s ev).2.myStringPos = s.myStringPos := by
  obtain ⟨a, b, c, h⟩ := read_shape s ev
  rw [h]

@[simp]
theorem read_myStringPosLast (s : ArSocket) (ev : Recv) :
    (read s ev).2.myStringPosLast = s.myStringPosLast := by
  obtain ⟨a, b, c, h⟩ := read_shape s ev
  rw [h]

@[simp]
theorem read_myStringGotComplete (s : ArSocket) (ev : Recv) :
    (read s ev).2.myStringGotComplete = s.myStringGotComplete := by
  obtain ⟨a, b, c, h⟩ := read_shape s ev
  rw [h]

@[simp]
theorem read_myStringGotEscapeChars (s : ArSocket) (ev : Recv) :
    (read s ev).2.myStringGotEscapeChars = s.myStringGotEscapeChars := by
  obtain ⟨a, b, c, h⟩ := read_shape s ev
  rw [h]

@[simp]
theorem read_myStringHaveEchoed (s : ArSocket) (ev : Recv) :
    (read s ev).2.myStringHaveEchoed = s.myStringHaveEchoed := by
  obtain ⟨a, b, c, h⟩ := read_shape s ev
  rw [h]

@[simp]
theorem read_myStringAutoEcho (s : ArSocket) (ev : Recv) :
    (read s ev).2.myStringAutoEcho = s.myStringAutoEcho := by
  obtain ⟨a, b, c, h⟩ := read_shape s ev
  rw [h]

@[simp]
theorem read_myStringEcho (s : ArSocket) (ev : Recv) :
    (read s ev).2.myStringEcho = s.myStringEcho := by
  obtain ⟨a, b, c, h⟩ := read_shape s ev
  rw [h]

@[simp]
theorem read_myStringIgnoreReturn (s : ArSocket) (ev : Recv) :
    (read s ev).2.myStringIgnoreReturn = s.myStringIgnoreReturn := by
  obtain ⟨a, b, c, h⟩ := read_shape s ev
  rw [h]

@[simp]
theorem read_myStringWrongEndChars (s : ArSocket) (ev : Recv) :
    (read s ev).2.myStringWrongEndChars = s.myStringWrongEndChars := by
  obtain ⟨a, b, c, h⟩ := read_shape s ev
  rw [h]

@[simp]
theorem read_myLogWriteStrings (s : ArSocket) (ev : Recv) :
    (read s ev).2.myLogWriteStrings = s.myLogWriteStrings := by
  obtain ⟨a, b, c, h⟩ := read_shape s ev
  rw [h]

@[simp]
theorem read_myErrorTracking (s : ArSocket) (ev : Recv) :
    (read s ev).2.myErrorTracking = s.myErrorTracking := by
  obtain ⟨a, b, c, h⟩ := read_shape s ev
  rw [h]

@[simp]
theorem read_myNonBlocking (s : ArSocket) (ev : Recv) :
    (read s ev).2.myNonBlocking = s.myNonBlocking := by
  obtain ⟨a, b, c, h⟩ := read_shape s ev
  rw [h]

@[simp]
theorem read_myFakeWrites (s : ArSocket) (ev : Recv) :
    (read s ev).2.myFakeWrites = s.myFakeWrites := by
  obtain ⟨a, b, c, h⟩ := read_shape s ev
  rw [h]

@[simp]
theorem read_myBadWrite (s : ArSocket) (ev : Recv) :
    (read s ev).2.myBadWrite = s.myBadWrite := by
  obtain ⟨a, b, c, h⟩ := read_shape s ev
  rw [h]

@[simp]
theorem read_mySends (s : ArSocket) (ev : Recv) :
    (read s ev).2.mySends = s.mySends := by
  obtain ⟨a, b, c, h⟩ := read_shape s ev
  rw [h]

@[simp]
theorem read_myBytesSent (s : ArSocket) (ev : Recv) :
    (read s ev).2.myBytesSent = s.myBytesSent := by
  obtain ⟨a, b, c, h⟩ := read_shape s ev
  rw [h]

@[simp]
theorem read_wire (s : ArSocket) (ev : Recv) :
    (read s ev).2.wire = s.wire := by
  obtain ⟨a, b, c, h⟩ := read_shape s ev
  rw [h]

@[simp]
theorem readAt_myStringBufEmpty (s : ArSocket) (i : Nat) (ev : Recv) :
    (readAt s i ev).2.myStringBufEmpty = s.myStringBufEmpty := by
  cases ev <;> simp [readAt]

@[simp]
theorem readAt_myStringPos (s : ArSocket) (i : Nat) (ev : Recv) :
    (readAt s i ev).2.myStringPos = s.myStringPos := by
  cases ev <;> simp [readAt]

@[simp]
theorem readAt_myStringPosLast (s : ArSocket) (i : Nat) (ev : Recv) :
    (readAt s i ev).2.myStringPosLast = s.myStringPosLast := by
  cases ev <;> simp [readAt]

@[simp]
theorem readAt_myStringGotComplete (s : ArSocket) (i : Nat) (ev : Recv) :
    (readAt s i ev).2.myStringGotComplete = s.myStringGotComplete := by
  cases ev <;> simp [readAt]

@[simp]
theorem readAt_myStringGotEscapeChars (s : ArSocket) (i : Nat) (ev : Recv) :
    (readAt s i ev).2.myStringGotEscapeChars = s.myStringGotEscapeChars := by
  cases ev <;> simp [readAt]

@[simp]
theorem readAt_myStringHaveEchoed (s : ArSocket) (i : Nat) (ev : Recv) :
    (readAt s i ev).2.myStringHaveEchoed = s.myStringHaveEchoed := by
  cases ev <;> simp [readAt]

@[simp]
theorem readAt_myStringAutoEcho (s : ArSocket) (i : Nat) (ev : Recv) :
    (readAt s i ev).2.myStringAutoEcho = s.myStringAutoEcho := by
  cases ev <;> simp [readAt]

@[simp]
theorem readAt_myStringEcho (s : ArSocket) (i : Nat) (ev : Recv) :
    (readAt s i ev).2.myStringEcho = s.myStringEcho := by
  cases ev <;> simp [readAt]

@[simp]
theorem readAt_myStringIgnoreReturn (s : ArSocket) (i : Nat) (ev : Recv) :
    (readAt s i ev).2.myStringIgnoreReturn = s.myStringIgnoreReturn := by
  cases ev <;> simp [readAt]

@[simp]
theorem readAt_myStringWrongEndChars (s : ArSocket) (i : Nat) (ev : Recv) :
    (readAt s i ev).2.myStringWrongEndChars = s.myStringWrongEndChars := by
  cases ev <;> simp [readAt]

@[simp]
theorem readAt_myLogWriteStrings (s : ArSocket) (i : Nat) (ev : Recv) :
    (readAt s i ev).2.myLogWriteStrings = s.myLogWriteStrings := by
  cases ev <;> simp [readAt]

@[simp]
theorem readAt_myErrorTracking (s : ArSocket) (i : Nat) (ev : Recv) :
    (readAt s i ev).2.myErrorTracking = s.myErrorTracking := by
  cases ev <;> simp [readAt]

@[simp]
theorem readAt_myNonBlocking (s : ArSocket) (i : Nat) (ev : Recv) :
    (readAt s i ev).2.myNonBlocking = s.myNonBlocking := by
  cases ev <;> simp [readAt]

@[simp]
theorem readAt_myFakeWrites (s : ArSocket) (i : Nat) (ev : Recv) :
    (readAt s i ev).2.myFakeWrites = s.myFakeWrites := by
  cases ev <;> simp [readAt]

@[simp]
theorem readAt_myBadWrite (s : ArSocket) (i : Nat) (ev : Recv) :
    (readAt s i ev).2.myBadWrite = s.myBadWrite := by
  cases ev <;> simp [readAt]

@[simp]
theorem readAt_mySends (s : ArSocket) (i : Nat) (ev : Recv) :
    (readAt s i ev).2.mySends = s.mySends := by
  cases ev <;> simp [readAt]

@[simp]
theorem readAt_myBytesSent (s : ArSocket) (i : Nat) (ev : Recv) :
    (readAt s i ev).2.myBytesSent = s.myBytesSent := by
  cases ev <;> simp [readAt]

@[simp]
theorem readAt_wire (s : ArSocket) (i : Nat) (ev : Recv) :
    (readAt s i ev).2.wire = s.wire := by
  cases ev <;> simp [readAt]

/-! ## One iteration of the loop of `readString` -/

theorem getD_set_self (l : List Nat) (i b : Nat) (h : i < l.length) :
    (l.set i b).getD i 0 = b := by
  simp [List.getD_eq_getElem?_getD, h]

theorem accept_shape (s : ArSocket) (i b : Nat) :
    ∃ g, accept s i b =
      { s with myStringBuf := s.myStringBuf.set i b, myRecvs := s.myRecvs + 1,
               myBytesRecvd := s.myBytesRecvd + 1, myStringGotEscapeChars := g } := by
  unfold accept readAt read
  simp only [Recv.ret]
  split_ifs <;> first | exact ⟨_, rfl⟩ | simp_all

theorem readStringFrom_data (snd : Nat → Send) (s : ArSocket) (i b : Nat) (rest : List Recv)
    (h : i < s.myStringBuf.length) :
    readStringFrom snd (Recv.data b :: rest) s i =
      if (accept s i b).myStringIgnoreReturn = true ∧ b = 13 then
        readStringFrom snd rest (accept s i b) (((i + sizeMod - 1) % sizeMod + 1) % sizeMod)
      else if b = 10 ∨ b = 13 then
        if i ≠ 0 then
          some ((finishLine snd (accept s i b) i).1, (finishLine snd (accept s i b) i).2, rest)
        else
          readStringFrom snd rest (enter (accept s i b)) (accept s i b).myStringPos
      else readStringFrom snd rest (accept s i b) (i + 1) := by
  have hb : (accept s i b).myStringBuf.getD i 0 = b := by
    obtain ⟨g, hg⟩ := accept_shape s i b
    rw [hg]
    exact getD_set_self _ _ _ h
  rw [readStringFrom]
  simp only [h, if_true, readAt_fst, Recv.ret]
  have h1 : ((1 : Int) > 0) := by decide
  simp only [h1, if_true]
  change (if (accept s i b).myStringIgnoreReturn = true ∧
      (accept s i b).myStringBuf.getD i 0 = 13 then _
    else if (accept s i b).myStringBuf.getD i 0 = 10 ∨
      (accept s i b).myStringBuf.getD i 0 = 13 then _ else _) = _
  rw [hb]
  rfl

@[simp]
theorem enter_myStringBuf (s : ArSocket) : (enter s).myStringBuf = s.myStringBuf := rfl

@[simp]
theorem enter_myStringPos (s : ArSocket) : (enter s).myStringPos = s.myStringPos := rfl

@[simp]
theorem enter_myStringPosLast (s : ArSocket) : (enter s).myStringPosLast = s.myStringPosLast := rfl

@[simp]
theorem enter_myStringGotComplete (s : ArSocket) : (enter s).myStringGotComplete = s.myStringGotComplete := rfl

@[simp]
theorem enter_myStringGotEscapeChars (s : ArSocket) : (enter s).myStringGotEscapeChars = s.myStringGotEscapeChars := rfl

@[simp]
theorem enter_myStringHaveEchoed (s : ArSocket) : (enter s).myStringHaveEchoed = s.myStringHaveEchoed := rfl

@[simp]
theorem enter_myStringAutoEcho (s : ArSocket) : (enter s).myStringAutoEcho = s.myStringAutoEcho := rfl

@[simp]
theorem enter_myStringEcho (s : ArSocket) : (enter s).myStringEcho = s.myStringEcho := rfl

@[simp]
theorem enter_myStringIgnoreReturn (s : ArSocket) : (enter s).myStringIgnoreReturn = s.myStringIgnoreReturn := rfl

@[simp]
theorem enter_myStringWrongEndChars (s : ArSocket) : (enter s).myStringWrongEndChars = s.myStringWrongEndChars := rfl

@[simp]
theorem enter_myLogWriteStrings (s : ArSocket) : (enter s).myLogWriteStrings = s.myLogWriteStrings := rfl

@[simp]
theorem enter_myErrorTracking (s : ArSocket) : (enter s).myErrorTracking = s.myErrorTracking := rfl

@[simp]
theorem enter_myNonBlocking (s : ArSocket) : (enter s).myNonBlocking = s.myNonBlocking := rfl

@[simp]
theorem enter_myFakeWrites (s : ArSocket) : (enter s).myFakeWrites = s.myFakeWrites := rfl

@[simp]
theorem enter_myBadRead (s : ArSocket) : (enter s).myBadRead = s.myBadRead := rfl

@[simp]
theorem enter_myBadWrite (s : ArSocket) : (enter s).myBadWrite = s.myBadWrite := rfl

@[simp]
theorem enter_mySends (s : ArSocket) : (enter s).mySends = s.mySends := rfl

@[simp]
theorem enter_myBytesSent (s : ArSocket) : (enter s).myBytesSent = s.myBytesSent := rfl

@[simp]
theorem enter_myRecvs (s : ArSocket) : (enter s).myRecvs = s.myRecvs := rfl

@[simp]
theorem enter_myBytesRecvd (s : ArSocket) : (enter s).myBytesRecvd = s.myBytesRecvd := rfl

@[simp]
theorem enter_wire (s : ArSocket) : (enter s).wire = s.wire := rfl

@[simp]
theorem enter_myStringBufEmpty (s : ArSocket) :
    (enter s).myStringBufEmpty = s.myStringBufEmpty.set 0 0 := rfl

theorem readString_eq (snd : Nat → Send) (s : ArSocket) (evs : List Recv) :
    readString snd s evs = readStringFrom snd evs (enter s) s.myStringPos := rfl

@[simp]
theorem accept_myStringBuf (s : ArSocket) (i b : Nat) :
    (accept s i b).myStringBuf = s.myStringBuf.set i b := by
  obtain ⟨g, h⟩ := accept_shape s i b
  rw [h]

@[simp]
theorem accept_myStringBufEmpty (s : ArSocket) (i b : Nat) :
    (accept s i b).myStringBufEmpty = s.myStringBufEmpty := by
  obtain ⟨g, h⟩ := accept_shape s i b
  rw [h]

@[simp]
theorem accept_myStringPos (s : ArSocket) (i b : Nat) :
    (accept s i b).myStringPos = s.myStringPos := by
  obtain ⟨g, h⟩ := accept_shape s i b
  rw [h]

@[simp]
theorem accept_myStringPosLast (s : ArSocket) (i b : Nat) :
    (accept s i b).myStringPosLast = s.myStringPosLast := by
  obtain ⟨g, h⟩ := accept_shape s i b
  rw [h]

@[simp]
theorem accept_myStringGotComplete (s : ArSocket) (i b : Nat) :
    (accept s i b).myStringGotComplete = s.myStringGotComplete := by
  obtain ⟨g, h⟩ := accept_shape s i b
  rw [h]

@[simp]
theorem accept_myStringHaveEchoed (s : ArSocket) (i b : Nat) :
    (accept s i b).myStringHaveEchoed = s.myStringHaveEchoed := by
  obtain ⟨g, h⟩ := accept_shape s i b
  rw [h]

@[simp]
theorem accept_myStringAutoEcho (s : ArSocket) (i b : Nat) :
    (accept s i b).myStringAutoEcho = s.myStringAutoEcho := by
  obtain ⟨g, h⟩ := accept_shape s i b
  rw [h]

@[simp]
theorem accept_myStringEcho (s : ArSocket) (i b : Nat) :
    (accept s i b).myStringEcho = s.myStringEcho := by
  obtain ⟨g, h⟩ := accept_shape s i b
  rw [h]

@[simp]
theorem accept_myStringIgnoreReturn (s : ArSocket) (i b : Nat) :
    (accept s i b).myStringIgnoreReturn = s.myStringIgnoreReturn := by
  obtain ⟨g, h⟩ := accept_shape s i b
  rw [h]

@[simp]
theorem accept_myStringWrongEndChars (s : ArSocket) (i b : Nat) :
    (accept s i b).myStringWrongEndChars = s.myStringWrongEndChars := by
  obtain ⟨g, h⟩ := accept_shape s i b
  rw [h]

@[simp]
theorem accept_myLogWriteStrings (s : ArSocket) (i b : Nat) :
    (accept s i b).myLogWriteStrings = s.myLogWriteStrings := by
  obtain ⟨g, h⟩ := accept_shape s i b
  rw [h]

@[simp]
theorem accept_myErrorTracking (s : ArSocket) (i b : Nat) :
    (accept s i b).myErrorTracking = s.myErrorTracking := by
  obtain ⟨g, h⟩ := accept_shape s i b
  rw [h]

@[simp]
theorem accept_myNonBlocking (s : ArSocket) (i b : Nat) :
    (accept s i b).myNonBlocking = s.myNonBlocking := by
  obtain ⟨g, h⟩ := accept_shape s i b
  rw [h]

@[simp]
theorem accept_myFakeWrites (s : ArSocket) (i b : Nat) :
    (accept s i b).myFakeWrites = s.myFakeWrites := by
  obtain ⟨g, h⟩ := accept_shape s i b
  rw [h]

@[simp]
theorem accept_myBadRead (s : ArSocket) (i b : Nat) :
    (accept s i b).myBadRead = s.myBadRead := by
  obtain ⟨g, h⟩ := accept_shape s i b
  rw [h]

@[simp]
theorem accept_myBadWrite (s : ArSocket) (i b : Nat) :
    (accept s i b).myBadWrite = s.myBadWrite := by
  obtain ⟨g, h⟩ := accept_shape s i b
  rw [h]

@[simp]
theorem accept_mySends (s : ArSocket) (i b : Nat) :
    (accept s i b).mySends = s.mySends := by
  obtain ⟨g, h⟩ := accept_shape s i b
  rw [h]

@[simp]
theorem accept_myBytesSent (s : ArSocket) (i b : Nat) :
    (accept s i b).myBytesSent = s.myBytesSent := by
  obtain ⟨g, h⟩ := accept_shape s i b
  rw [h]

@[simp]
theorem accept_wire (s : ArSocket) (i b : Nat) :
    (accept s i b).wire = s.wire := by
  obtain ⟨g, h⟩ := accept_shape s i b
  rw [h]

@[simp]
theorem acceptAll_myStringBufEmpty (s : ArSocket) (i : Nat) (bs : List Nat) :
    (acceptAll s i bs).myStringBufEmpty = s.myStringBufEmpty := by
  induction bs generalizing s i with
  | nil => rfl
  | cons b bs ih => simp [acceptAll, ih]

@[simp]
theorem acceptAll_myStringPos (s : ArSocket) (i : Nat) (bs : List Nat) :
    (acceptAll s i bs).myStringPos = s.myStringPos := by
  induction bs generalizing s i with
  | nil => rfl
  | cons b bs ih => simp [acceptAll, ih]

@[simp]
theorem acceptAll_myStringPosLast (s : ArSocket) (i : Nat) (bs : List Nat) :
    (acceptAll s i bs).myStringPosLast = s.myStringPosLast := by
  induction bs generalizing s i with
  | nil => rfl
  | cons b bs ih => simp [acceptAll, ih]

@[simp]
theorem acceptAll_myStringGotComplete (s : ArSocket) (i : Nat) (bs : List Nat) :
    (acceptAll s i bs).myStringGotComplete = s.myStringGotComplete := by
  induction bs generalizing s i with
  | nil => rfl
  | cons b bs ih => simp [acceptAll, ih]

@[simp]
theorem acceptAll_myStringHaveEchoed (s : ArSocket) (i : Nat) (bs : List Nat) :
    (acceptAll s i bs).myStringHaveEchoed = s.myStringHaveEchoed := by
  induction bs generalizing s i with
  | nil => rfl
  | cons b bs ih => simp [acceptAll, ih]

@[simp]
theorem acceptAll_myStringAutoEcho (s : ArSocket) (i : Nat) (bs : List Nat) :
    (acceptAll s i bs).myStringAutoEcho = s.myStringAutoEcho := by
  induction bs generalizing s i with
  | nil => rfl
  | cons b bs ih => simp [acceptAll, ih]

@[simp]
theorem acceptAll_myStringEcho (s : ArSocket) (i : Nat) (bs : List Nat) :
    (acceptAll s i bs).myStringEcho = s.myStringEcho := by
  induction bs generalizing s i with
  | nil => rfl
  | cons b bs ih => simp [acceptAll, ih]

@[simp]
theorem acceptAll_myStringIgnoreReturn (s : ArSocket) (i : Nat) (bs : List Nat) :
    (acceptAll s i bs).myStringIgnoreReturn = s.myStringIgnoreReturn := by
  induction bs generalizing s i with
  | nil => rfl
  | cons b bs ih => simp [acceptAll, ih]

@[simp]
theorem acceptAll_myStringWrongEndChars (s : ArSocket) (i : Nat) (bs : List Nat) :
    (acceptAll s i bs).myStringWrongEndChars = s.myStringWrongEndChars := by
  induction bs generalizing s i with
  | nil => rfl
  | cons b bs ih => simp [acceptAll, ih]

@[simp]
theorem acceptAll_myLogWriteStrings (s : ArSocket) (i : Nat) (bs : List Nat) :
    (acceptAll s i bs).myLogWriteStrings = s.myLogWriteStrings := by
  induction bs generalizing s i with
  | nil => rfl
  | cons b bs ih => simp [acceptAll, ih]

@[simp]
theorem acceptAll_myErrorTracking (s : ArSocket) (i : Nat) (bs : List Nat) :
    (acceptAll s i bs).myErrorTracking = s.myErrorTracking := by
  induction bs generalizing s i with
  | nil => rfl
  | cons b bs ih => simp [acceptAll, ih]

@[simp]
theorem acceptAll_myNonBlocking (s : ArSocket) (i : Nat) (bs : List Nat) :
    (acceptAll s i bs).myNonBlocking = s.myNonBlocking := by
  induction bs generalizing s i with
  | nil => rfl
  | cons b bs ih => simp [acceptAll, ih]

@[simp]
theorem acceptAll_myFakeWrites (s : ArSocket) (i : Nat) (bs : List Nat) :
    (acceptAll s i bs).myFakeWrites = s.myFakeWrites := by
  induction bs generalizing s i with
  | nil => rfl
  | cons b bs ih => simp [acceptAll, ih]

@[simp]
theorem acceptAll_myBadRead (s : ArSocket) (i : Nat) (bs : List Nat) :
    (acceptAll s i bs).myBadRead = s.myBadRead := by
  induction bs generalizing s i with
  | nil => rfl
  | cons b bs ih => simp [acceptAll, ih]

@[simp]
theorem acceptAll_myBadWrite (s : ArSocket) (i : Nat) (bs : List Nat) :
    (acceptAll s i bs).myBadWrite = s.myBadWrite := by
  induction bs generalizing s i with
  | nil => rfl
  | cons b bs ih => simp [acceptAll, ih]

@[simp]
theorem acceptAll_mySends (s : ArSocket) (i : Nat) (bs : List Nat) :
    (acceptAll s i bs).mySends = s.mySends := by
  induction bs generalizing s i with
  | nil => rfl
  | cons b bs ih => simp [acceptAll, ih]

@[simp]
theorem acceptAll_myBytesSent (s : ArSocket) (i : Nat) (bs : List Nat) :
    (acceptAll s i bs).myBytesSent = s.myBytesSent := by
  induction bs generalizing s i with
  | nil => rfl
  | cons b bs ih => simp [acceptAll, ih]

@[simp]
theorem acceptAll_wire (s : ArSocket) (i : Nat) (bs : List Nat) :
    (acceptAll s i bs).wire = s.wire := by
  induction bs generalizing s i with
  | nil => rfl
  | cons b bs ih => simp [acceptAll, ih]

@[simp]
theorem acceptAll_length (s : ArSocket) (i : Nat) (bs : List Nat) :
    (acceptAll s i bs).myStringBuf.length = s.myStringBuf.length := by
  induction bs generalizing s i with
  | nil => rfl
  | cons b bs ih => simp [acceptAll, ih]

theorem acceptAll_buf (s : ArSocket) (bs pre old suf : List Nat)
    (hbuf : s.myStringBuf = pre ++ old ++ suf) (hold : old.length = bs.length) :
    (acceptAll s pre.length bs).myStringBuf = pre ++ bs ++ suf := by
  induction bs generalizing s pre old with
  | nil =>
    have : old = [] := List.length_eq_zero.mp hold
    simp [acceptAll, hbuf, this]
  | cons b bs ih =>
    cases old with
    | nil => simp at hold
    | cons c old =>
      have h1 : (accept s pre.length b).myStringBuf = (pre ++ [b]) ++ old ++ suf := by
        simp [hbuf]
      have h2 := ih (accept s pre.length b) (pre ++ [b]) old h1 (by simpa using hold)
      simp only [List.length_append, List.length_singleton] at h2
      simp [acceptAll, h2]

theorem acceptAll_take (s : ArSocket) (i : Nat) (bs : List Nat)
    (h : i + bs.length ≤ s.myStringBuf.length) :
    (acceptAll s i bs).myStringBuf =
      s.myStringBuf.take i ++ bs ++ s.myStringBuf.drop (i + bs.length) := by
  have hi : (s.myStringBuf.take i).length = i := by simp; omega
  have := acceptAll_buf s bs (s.myStringBuf.take i)
    ((s.myStringBuf.drop i).take bs.length) (s.myStringBuf.drop (i + bs.length))
    (by rw [List.append_assoc, ← List.drop_drop, List.take_append_drop,
          List.take_append_drop])
    (by simp; omega)
  rw [hi] at this
  exact this

/-- Bytes that are neither LF nor CR pass through the loop one per iteration. -/
theorem readStringFrom_plain (snd : Nat → Send) (bs : List Nat) (s : ArSocket) (i : Nat)
    (rest : List Recv) (hplain : ∀ b ∈ bs, b ≠ 10 ∧ b ≠ 13)
    (h : i + bs.length ≤ s.myStringBuf.length) :
    readStringFrom snd (bs.map Recv.data ++ rest) s i =
      readStringFrom snd rest (acceptAll s i bs) (i + bs.length) := by
  induction bs generalizing s i with
  | nil => rfl
  | cons b bs ih =>
    have hb := hplain b (List.mem_cons_self _ _)
    simp only [List.length_cons] at h
    rw [List.map_cons, List.cons_append, readStringFrom_data snd s i b _ (by omega)]
    simp only [hb.1, hb.2, and_false, or_self, if_false]
    rw [ih (accept s i b) (i + 1) (fun c hc => hplain c (List.mem_cons_of_mem _ hc))
      (by simp; omega)]
    simp only [acceptAll, List.length_cons]
    congr 1
    omega

theorem readStringFrom_zero (snd : Nat → Send) (s : ArSocket) (i : Nat) (rest : List Recv)
    (h : i < s.myStringBuf.length) :
    readStringFrom snd (Recv.zero :: rest) s i =
      some (Outcome.Closed,
        { s with myStringPos := i, myStringBuf := s.myStringBuf.set i 0 }, rest) := by
  rw [readStringFrom]
  simp [h, Recv.ret]

theorem readStringFrom_error (snd : Nat → Send) (s : ArSocket) (i e : Nat) (rest : List Recv)
    (h : i < s.myStringBuf.length) :
    readStringFrom snd (Recv.error e :: rest) s i =
      if e = EAGAIN then
        some (Outcome.Partial (cstr s.myStringBufEmpty),
          doStringEcho snd { (readAt s i (Recv.error e)).2 with myStringPos := i }, rest)
      else some (Outcome.IoError, (readAt s i (Recv.error e)).2, rest) := by
  rw [readStringFrom]
  simp [h, Recv.ret, Recv.errno]

theorem readStringFrom_full (snd : Nat → Send) (s : ArSocket) (i : Nat) (evs : List Recv)
    (h : s.myStringBuf.length ≤ i) :
    readStringFrom snd evs s i =
      some (Outcome.Overflowed, (writeString snd s stringTooLong).2, evs) := by
  cases evs <;> simp [readStringFrom, overflowExit, Nat.not_lt.mpr h]

/-! ## C strings -/

theorem cstr_of_nul_free (m : List Nat) (h : 0 ∉ m) : cstr m = m := by
  unfold cstr
  rw [List.takeWhile_eq_self_iff]
  intro x hx
  have : x ≠ 0 := fun h0 => h (h0 ▸ hx)
  simpa using this

theorem cstr_append_nul (m t : List Nat) (h : 0 ∉ m) : cstr (m ++ 0 :: t) = m := by
  unfold cstr
  rw [List.takeWhile_append_of_pos]
  · simp
  · intro x hx
    have : x ≠ 0 := fun h0 => h (h0 ▸ hx)
    simpa using this

theorem cstr_set_zero (l : List Nat) : cstr (l.set 0 0) = [] := by
  cases l <;> simp [cstr]

theorem strncmp_eq_zero_iff (p buf : List Nat) (h : 0 ∉ p) :
    strncmp p buf p.length = some 0 ↔ p <+: buf := by
  induction p generalizing buf with
  | nil => simp [strncmp]
  | cons c t ih =>
    have hc : c ≠ 0 := fun h0 => h (by simp [h0])
    have ht : 0 ∉ t := fun h0 => h (List.mem_cons_of_mem _ h0)
    cases buf with
    | nil => simp [strncmp]
    | cons c2 t2 =>
      simp only [List.length_cons, strncmp, List.cons_prefix_cons]
      by_cases hcc : c = c2
      · subst hcc
        simp [hc, ih t2 ht]
      · have : (c : Int) - (c2 : Int) ≠ 0 := by omega
        simp [hcc, this]

theorem prefix_before_nul (p acc t : List Nat) (h : 0 ∉ p) :
    p <+: acc ++ 0 :: t ↔ p <+: acc := by
  constructor
  · intro hp
    by_cases hl : p.length ≤ acc.length
    · exact List.prefix_of_prefix_length_le hp (List.prefix_append _ _) hl
    · exfalso
      have h1 : acc ++ [0] <+: acc ++ 0 :: t := by
        rw [List.prefix_append_right_inj]
        simp
      have h2 : acc ++ [0] <+: p :=
        List.prefix_of_prefix_length_le h1 hp (by simp; omega)
      exact h (h2.subset (by simp))
  · intro hp
    exact hp.trans (List.prefix_append _ _)

/-! ## The end of a line, the fault flags -/

@[simp]
theorem finishLine_myStringBufEmpty (snd : Nat → Send) (s : ArSocket) (i : Nat) :
    (finishLine snd s i).2.myStringBufEmpty = s.myStringBufEmpty := by
  unfold finishLine
  simp only []
  split_ifs <;> simp

@[simp]
theorem finishLine_myStringAutoEcho (snd : Nat → Send) (s : ArSocket) (i : Nat) :
    (finishLine snd s i).2.myStringAutoEcho = s.myStringAutoEcho := by
  unfold finishLine
  simp only []
  split_ifs <;> simp

@[simp]
theorem finishLine_myStringEcho (snd : Nat → Send) (s : ArSocket) (i : Nat) :
    (finishLine snd s i).2.myStringEcho = s.myStringEcho := by
  unfold finishLine
  simp only []
  split_ifs <;> simp

@[simp]
theorem finishLine_myStringIgnoreReturn (snd : Nat → Send) (s : ArSocket) (i : Nat) :
    (finishLine snd s i).2.myStringIgnoreReturn = s.myStringIgnoreReturn := by
  unfold finishLine
  simp only []
  split_ifs <;> simp

@[simp]
theorem finishLine_myStringWrongEndChars (snd : Nat → Send) (s : ArSocket) (i : Nat) :
    (finishLine snd s i).2.myStringWrongEndChars = s.myStringWrongEndChars := by
  unfold finishLine
  simp only []
  split_ifs <;> simp

@[simp]
theorem finishLine_myLogWriteStrings (snd : Nat → Send) (s : ArSocket) (i : Nat) :
    (finishLine snd s i).2.myLogWriteStrings = s.myLogWriteStrings := by
  unfold finishLine
  simp only []
  split_ifs <;> simp

@[simp]
theorem finishLine_myErrorTracking (snd : Nat → Send) (s : ArSocket) (i : Nat) :
    (finishLine snd s i).2.myErrorTracking = s.myErrorTracking := by
  unfold finishLine
  simp only []
  split_ifs <;> simp

@[simp]
theorem finishLine_myNonBlocking (snd : Nat → Send) (s : ArSocket) (i : Nat) :
    (finishLine snd s i).2.myNonBlocking = s.myNonBlocking := by
  unfold finishLine
  simp only []
  split_ifs <;> simp

@[simp]
theorem finishLine_myFakeWrites (snd : Nat → Send) (s : ArSocket) (i : Nat) :
    (finishLine snd s i).2.myFakeWrites = s.myFakeWrites := by
  unfold finishLine
  simp only []
  split_ifs <;> simp

@[simp]
theorem finishLine_myBadRead (snd : Nat → Send) (s : ArSocket) (i : Nat) :
    (finishLine snd s i).2.myBadRead = s.myBadRead := by
  unfold finishLine
  simp only []
  split_ifs <;> simp

@[simp]
theorem finishLine_myRecvs (snd : Nat → Send) (s : ArSocket) (i : Nat) :
    (finishLine snd s i).2.myRecvs = s.myRecvs := by
  unfold finishLine
  simp only []
  split_ifs <;> simp

@[simp]
theorem finishLine_myBytesRecvd (snd : Nat → Send) (s : ArSocket) (i : Nat) :
    (finishLine snd s i).2.myBytesRecvd = s.myBytesRecvd := by
  unfold finishLine
  simp only []
  split_ifs <;> simp

@[simp]
theorem finishLine_myStringBuf (snd : Nat → Send) (s : ArSocket) (i : Nat) :
    (finishLine snd s i).2.myStringBuf = s.myStringBuf.set i 0 := by
  unfold finishLine
  simp only []
  split_ifs <;> simp

@[simp]
theorem finishLine_myStringPos (snd : Nat → Send) (s : ArSocket) (i : Nat) :
    (finishLine snd s i).2.myStringPos = 0 := by
  unfold finishLine
  simp only []
  split_ifs <;> simp

theorem write_myBadWrite (snd : Nat → Send) (s : ArSocket) (d : List Nat) (l : Nat) :
    (write snd s d l).2.myBadWrite =
      (s.myBadWrite || (!s.myFakeWrites &&
        match snd s.wire.length with
        | Send.notReady => false
        | Send.done ret e =>
          s.myErrorTracking && decide (ret < 0) && (!s.myNonBlocking || decide (e ≠ EAGAIN)))) := by
  unfold write
  simp only []
  split_ifs with h1
  · simp [h1]
  · split <;> rename_i heq <;> simp only [heq]
    · simp
    · split_ifs <;> simp_all

theorem write_myBadWrite_mono (snd : Nat → Send) (s : ArSocket) (d : List Nat) (l : Nat)
    (h : s.myBadWrite = true) : (write snd s d l).2.myBadWrite = true := by
  rw [write_myBadWrite, h]
  rfl

theorem doStringEcho_myBadWrite_mono (snd : Nat → Send) (s : ArSocket)
    (h : s.myBadWrite = true) : (doStringEcho snd s).myBadWrite = true := by
  unfold doStringEcho
  simp only []
  split_ifs <;> simp [write_myBadWrite_mono, h]

theorem finishLine_myBadWrite_mono (snd : Nat → Send) (s : ArSocket) (i : Nat)
    (h : s.myBadWrite = true) : (finishLine snd s i).2.myBadWrite = true := by
  unfold finishLine
  simp only []
  split_ifs <;> exact doStringEcho_myBadWrite_mono _ _ h

theorem read_myBadRead (s : ArSocket) (ev : Recv) :
    (read s ev).2.myBadRead =
      (s.myBadRead || (s.myErrorTracking && decide (ev.ret < 0) &&
        (!s.myNonBlocking || decide (ev.errno ≠ EAGAIN)))) := by
  unfold read
  simp only []
  split_ifs <;> simp_all

theorem readAt_myBadRead (s : ArSocket) (i : Nat) (ev : Recv) :
    (readAt s i ev).2.myBadRead = (read s ev).2.myBadRead := by
  cases ev <;> simp [readAt]

theorem readStringFrom_flags_mono (snd : Nat → Send) (evs : List Recv) (s : ArSocket) (i : Nat)
    (o : Outcome) (s' : ArSocket) (rest : List Recv)
    (h : readStringFrom snd evs s i = some (o, s', rest)) :
    (s.myBadRead = true → s'.myBadRead = true) ∧
      (s.myBadWrite = true → s'.myBadWrite = true) := by
  induction evs generalizing s i with
  | nil =>
    by_cases hi : i < s.myStringBuf.length
    · simp [readStringFrom, hi] at h
    · rw [readStringFrom_full snd s i [] (by omega)] at h
      simp only [Option.some.injEq, Prod.mk.injEq] at h
      obtain ⟨-, rfl, -⟩ := h
      exact ⟨by simp, fun hb => by simpa [writeString] using write_myBadWrite_mono _ _ _ _ hb⟩
  | cons ev evs ih =>
    by_cases hi : i < s.myStringBuf.length
    · cases ev with
      | data b =>
        rw [readStringFrom_data snd s i b evs hi] at h
        split_ifs at h with h1 h2 h3
        · simpa using ih _ _ h
        · simp only [Option.some.injEq, Prod.mk.injEq] at h
          obtain ⟨-, rfl, -⟩ := h
          exact ⟨by simp, fun hb => finishLine_myBadWrite_mono _ _ _ (by simpa using hb)⟩
        · simpa using ih _ _ h
        · simpa using ih _ _ h
      | zero =>
        rw [readStringFrom_zero snd s i evs hi] at h
        simp only [Option.some.injEq, Prod.mk.injEq] at h
        obtain ⟨-, rfl, -⟩ := h
        simp
      | error e =>
        rw [readStringFrom_error snd s i e evs hi] at h
        split_ifs at h
        · simp only [Option.some.injEq, Prod.mk.injEq] at h
          obtain ⟨-, rfl, -⟩ := h
          refine ⟨fun hb => ?_, fun hb => doStringEcho_myBadWrite_mono _ _ (by simpa using hb)⟩
          simp [readAt_myBadRead, read_myBadRead, hb]
        · simp only [Option.some.injEq, Prod.mk.injEq] at h
          obtain ⟨-, rfl, -⟩ := h
          refine ⟨fun hb => ?_, fun hb => by simpa using hb⟩
          simp [readAt_myBadRead, read_myBadRead, hb]
    · rw [readStringFrom_full snd s i _ (by omega)] at h
      simp only [Option.some.injEq, Prod.mk.injEq] at h
      obtain ⟨-, rfl, -⟩ := h
      exact ⟨by simp, fun hb => by simpa [writeString] using write_myBadWrite_mono _ _ _ _ hb⟩

/-! ## Whole lines -/

/-- The start of `readString` followed by the iterations that receive `bs`. -/
theorem readString_plain (snd : Nat → Send) (s : ArSocket) (bs : List Nat) (rest : List Recv)
    (hplain : ∀ b ∈ bs, b ≠ 10 ∧ b ≠ 13)
    (h : s.myStringPos + bs.length ≤ s.myStringBuf.length) :
    readString snd s (bs.map Recv.data ++ rest) =
      readStringFrom snd rest
        (acceptAll { s with myStringBufEmpty := s.myStringBufEmpty.set 0 0 } s.myStringPos bs)
        (s.myStringPos + bs.length) := by
  unfold readString
  exact readStringFrom_plain snd bs _ _ rest hplain h

theorem take_accumulated (buf bs : List Nat) (p : Nat) (h : p + bs.length ≤ buf.length)
    (t : List Nat) :
    (buf.take p ++ bs ++ t).take (p + bs.length) = buf.take p ++ bs := by
  have : (buf.take p ++ bs).length = p + bs.length := by simp; omega
  rw [← this, List.take_left]

theorem take_accumulated_nul (acc t : List Nat) (n : Nat) (h : acc.length = n) :
    (acc ++ 0 :: t).take (n + 1) = acc ++ [0] := by
  have h1 : acc ++ 0 :: t = (acc ++ [0]) ++ t := by simp
  have h2 : (acc ++ [0]).length = n + 1 := by simp [h]
  rw [h1, ← h2, List.take_left]

theorem acceptAll_set_nul (s : ArSocket) (i : Nat) (bs : List Nat)
    (h : i + bs.length < s.myStringBuf.length) :
    (acceptAll s i bs).myStringBuf.set (i + bs.length) 0 =
      (s.myStringBuf.take i ++ bs) ++ 0 :: s.myStringBuf.drop (i + bs.length + 1) := by
  have hlen : (s.myStringBuf.take i ++ bs).length = i + bs.length := by
    simp; omega
  rw [acceptAll_take _ _ _ h.le]
  rw [← hlen, List.set_append_right _ _ (le_refl _), Nat.sub_self]
  rw [hlen]
  have hd : s.myStringBuf.drop (i + bs.length) ≠ [] := by
    simp; omega
  obtain ⟨c, t, hct⟩ := List.exists_cons_of_ne_nil hd
  have ht : s.myStringBuf.drop (i + bs.length + 1) = t := by
    rw [← List.drop_drop, hct]
    rfl
  rw [hct, ht]
  rfl

theorem writeString_wire (snd : Nat → Send) (s : ArSocket) (m : List Nat)
    (hnul : 0 ∉ m) (hfit : m.length ≤ writeBufSize - 4) :
    (writeString snd s m).2.wire =
      s.wire ++ [⟨m ++ (if s.myStringWrongEndChars then [10, 13] else [13, 10]),
        m.length + 2⟩] := by
  have htake : (cstr m).take (writeBufSize - 3 - 1) = m := by
    rw [cstr_of_nul_free m hnul]
    exact List.take_of_length_le (by simpa using hfit)
  unfold writeString
  simp only [htake, write_wire]
  cases s.myStringWrongEndChars <;> simp

theorem finishLine_fst (snd : Nat → Send) (s : ArSocket) (i : Nat) :
    (finishLine snd s i).1 =
      if isNeg ((s.myStringBuf.set i 0).getD 0 0) then
        Outcome.Complete
          (escapeScan (s.myStringBuf.set i 0) ((s.myStringBuf.set i 0).length + 1) 0)
          (cstr ((s.myStringBuf.set i 0).drop
            (escapeScan (s.myStringBuf.set i 0) ((s.myStringBuf.set i 0).length + 1) 0)))
      else Outcome.Complete 0 (cstr (s.myStringBuf.set i 0)) := by
  unfold finishLine
  simp only []
  split_ifs <;> simp

theorem finishLine_escape (snd : Nat → Send) (s : ArSocket) (i : Nat)
    (h : isNeg ((s.myStringBuf.set i 0).getD 0 0) = true) :
    (finishLine snd s i).2.myStringGotEscapeChars = true := by
  unfold finishLine
  simp only [h, if_true, doStringEcho_myStringGotEscapeChars]

/-- The iterations that receive the bytes `bs` and then a line end `t` which is
not dropped, at an index other than 0, end the call in `finishLine`. -/
theorem readStringFrom_line (snd : Nat → Send) (s : ArSocket) (i : Nat) (bs : List Nat)
    (t : Nat) (rest : List Recv) (hplain : ∀ b ∈ bs, b ≠ 10 ∧ b ≠ 13)
    (ht : t = 10 ∨ (t = 13 ∧ s.myStringIgnoreReturn = false))
    (hk : i + bs.length < s.myStringBuf.length) (h0 : i + bs.length ≠ 0) :
    readStringFrom snd (bs.map Recv.data ++ Recv.data t :: rest) s i =
      some ((finishLine snd (accept (acceptAll s i bs) (i + bs.length) t) (i + bs.length)).1,
        (finishLine snd (accept (acceptAll s i bs) (i + bs.length) t) (i + bs.length)).2,
        rest) := by
  rw [readStringFrom_plain snd bs s i _ hplain hk.le,
    readStringFrom_data snd _ _ _ _ (by simpa using hk)]
  have h1 : ¬ ((accept (acceptAll s i bs) (i + bs.length) t).myStringIgnoreReturn = true
      ∧ t = 13) := by
    rcases ht with ht | ⟨-, ht⟩
    · simp [ht]
    · simp [ht]
  have h2 : t = 10 ∨ t = 13 := by
    rcases ht with ht | ⟨ht, -⟩
    · exact Or.inl ht
    · exact Or.inr ht
  rw [if_neg h1, if_pos h2, if_pos h0]

theorem line_buf (s : ArSocket) (i : Nat) (bs : List Nat) (t : Nat)
    (hk : i + bs.length < s.myStringBuf.length) :
    (accept (acceptAll s i bs) (i + bs.length) t).myStringBuf.set (i + bs.length) 0 =
      (s.myStringBuf.take i ++ bs) ++ 0 :: s.myStringBuf.drop (i + bs.length + 1) := by
  rw [accept_myStringBuf, List.set_set]
  exact acceptAll_set_nul s i bs hk

/-! ## Chunking invariance -/

theorem readMany_succ (snd : Nat → Send) (n : Nat) (s : ArSocket) (evs : List Recv) :
    readMany snd (n + 1) s evs =
      runFrom snd n (readStringFrom snd evs (enter s) s.myStringPos) := by
  rw [readMany]
  unfold readString runFrom
  rfl

theorem set_of_take (l acc : List Nat) (i c : Nat) (h : l.take i = acc) (hi : i < l.length) :
    l.set i c = acc ++ c :: l.drop (i + 1) := by
  rw [List.set_eq_take_append_cons_drop, if_pos hi, h]

theorem take_succ_set (l acc : List Nat) (i c : Nat) (h : l.take i = acc) (hi : i < l.length) :
    (l.set i c).take (i + 1) = acc ++ [c] := by
  have hl : acc.length = i := by rw [← h]; simp; omega
  rw [set_of_take l acc i c h hi]
  have : acc ++ c :: l.drop (i + 1) = (acc ++ [c]) ++ l.drop (i + 1) := by simp
  rw [this, List.take_left' (by simp [hl])]

theorem reading_enter (cap : Nat) (s : ArSocket) (i : Nat) (acc : List Nat)
    (h : Reading cap s i acc) :
    Reading cap (enter s) i acc := by
  obtain ⟨h1, -, h3, h4, h5, h6, h7⟩ := h
  exact ⟨h1, cstr_set_zero _, h3, h4, h5, h6, h7⟩

theorem pending_lt (cap : Nat) (acc bytes : List Nat) (lines : List (List Nat))
    (h : Pending cap acc bytes lines) (hcap : 0 < cap) : acc.length < cap := by
  rcases h with ⟨cur, rest, -, hl, hg⟩ | ⟨ha, -, -⟩ | ⟨ha, -, -⟩
  · have := (hg (acc ++ cur) (by rw [hl]; exact List.mem_cons_self _ _)).2.1
    simp at this
    omega
  · rw [ha]; exact hcap
  · rw [ha]; exact hcap

theorem reading_wouldBlock (snd : Nat → Send) (cap : Nat) (s : ArSocket) (i e : Nat)
    (acc : List Nat) (h : Reading cap s i acc) :
    Reading cap
      (enter (doStringEcho snd { (readAt s i (Recv.error e)).2 with myStringPos := i }))
      i acc := by
  obtain ⟨h1, -, -, h4, h5, h6, h7⟩ := h
  refine ⟨?_, cstr_set_zero _, ?_, h4, ?_, ?_, h7⟩
  · simpa using h1
  · simp
  · simpa using h5
  · simpa using h6

theorem reading_accept (cap : Nat) (s : ArSocket) (i b : Nat) (acc : List Nat)
    (h : Reading cap s i acc) (hi : i < cap) :
    Reading cap (accept s i b) (i + 1) (acc ++ [b]) := by
  obtain ⟨h1, h2, h3, h4, h5, h6, h7⟩ := h
  refine ⟨by simpa using h1, by simpa using h2, ?_, by simp [h4], ?_, by simpa using h6, h7⟩
  · simp only [accept_myStringPos]
    omega
  · rw [accept_myStringBuf]
    exact take_succ_set _ _ _ _ h5 (by omega)

theorem reading_finish (snd : Nat → Send) (cap : Nat) (s : ArSocket) (i b : Nat)
    (acc : List Nat) (h : Reading cap s i acc) :
    Reading cap (enter (finishLine snd (accept s i b) i).2) 0 [] := by
  obtain ⟨h1, -, -, -, -, h6, h7⟩ := h
  refine ⟨by simpa using h1, cstr_set_zero _, by simp, rfl, by simp, by simpa using h6, h7⟩

theorem reading_restart (cap : Nat) (s : ArSocket) (b : Nat) (h : Reading cap s 0 []) :
    Reading cap (enter (accept s 0 b)) 0 [] := by
  obtain ⟨h1, -, h3, -, -, h6, h7⟩ := h
  refine ⟨by simpa using h1, cstr_set_zero _, by simpa using h3, rfl, by simp,
    by simpa using h6, h7⟩

theorem finish_outcome (snd : Nat → Send) (cap : Nat) (s : ArSocket) (i b : Nat)
    (acc : List Nat) (h : Reading cap s i acc) (hi : i < cap) (hne : acc ≠ [])
    (hnul : 0 ∉ acc) (hhead : isNeg (acc.headD 0) = false) :
    (finishLine snd (accept s i b) i).1 = Outcome.Complete 0 acc := by
  obtain ⟨-, -, -, -, h5, h6, -⟩ := h
  have hbuf : (accept s i b).myStringBuf.set i 0
      = acc ++ 0 :: s.myStringBuf.drop (i + 1) := by
    rw [accept_myStringBuf, List.set_set]
    exact set_of_take _ _ _ _ h5 (by omega)
  have hh : isNeg ((acc ++ 0 :: s.myStringBuf.drop (i + 1)).getD 0 0) = false := by
    cases acc with
    | nil => exact absurd rfl hne
    | cons c t => simpa using hhead
  rw [finishLine_fst, hbuf, if_neg (by rw [hh]; simp), cstr_append_nul acc _ hnul]

theorem filter_skip (os : List Outcome) :
    (Outcome.Partial [] :: os).filter (fun o => decide (o ≠ Outcome.Partial []))
      = os.filter (fun o => decide (o ≠ Outcome.Partial [])) := by
  simp

theorem filter_keep (st : Nat) (p : List Nat) (os : List Outcome) :
    (Outcome.Complete st p :: os).filter (fun o => decide (o ≠ Outcome.Partial []))
      = Outcome.Complete st p :: os.filter (fun o => decide (o ≠ Outcome.Partial [])) := by
  simp

/-- From a point of the loop where the bytes `acc` of the current line are held,
and the events deliver what `Pending` describes, the outcomes other than
`Partial ""` are the completions of the lines still to be returned. -/
theorem chunks_main (snd : Nat → Send) (cap : Nat) :
    ∀ (evs : List Recv) (n : Nat) (s : ArSocket) (i : Nat) (acc : List Nat)
      (lines : List (List Nat)),
      evs.length ≤ n → Reading cap s i acc →
      (∀ ev ∈ evs, ev = Recv.error EAGAIN ∨ ∃ b, ev = Recv.data b) →
      Pending cap acc (evs.filterMap Recv.byte) lines →
      (runFrom snd n (readStringFrom snd evs s i)).filter
          (fun o => decide (o ≠ Outcome.Partial []))
        = lines.map (Outcome.Complete 0) := by
  intro evs
  induction evs with
  | nil =>
    intro n s i acc lines _ hr _ hp
    have hi : i < s.myStringBuf.length := by
      have := pending_lt cap acc _ lines hp hr.2.2.2.2.2.2
      rw [hr.2.2.2.2.2.1, hr.2.2.2.1]
      exact this
    have hl : lines = [] := by
      rcases hp with ⟨cur, rest, hb, -, -⟩ | ⟨-, hb, -⟩ | ⟨-, -, hl⟩
      · simp at hb
      · simp at hb
      · exact hl
    simp [readStringFrom, hi, runFrom, hl]
  | cons ev evs ih =>
    intro n s i acc lines hn hr hev hp
    have hcap : s.myStringBuf.length = cap := hr.2.2.2.2.2.1
    have hic : i < cap := by
      have := pending_lt cap acc _ lines hp hr.2.2.2.2.2.2
      rw [hr.2.2.2.1]
      exact this
    have hi : i < s.myStringBuf.length := by rw [hcap]; exact hic
    have hev' : ∀ ev ∈ evs, ev = Recv.error EAGAIN ∨ ∃ b, ev = Recv.data b :=
      fun e he => hev e (List.mem_cons_of_mem _ he)
    obtain ⟨m, rfl⟩ : ∃ m, n = m + 1 := ⟨n - 1, by simp at hn; omega⟩
    have hm : evs.length ≤ m := by simp at hn; omega
    rcases hev ev (List.mem_cons_self _ _) with rfl | ⟨b, rfl⟩
    · -- a would-block result: the call returns `Partial ""`, the next one goes on
      rw [readStringFrom_error snd s i _ evs hi, if_pos rfl, hr.2.1]
      simp only [runFrom]
      rw [filter_skip, readMany_succ]
      have hpos : (doStringEcho snd
          { (readAt s i (Recv.error EAGAIN)).2 with myStringPos := i }).myStringPos = i := by
        simp
      rw [hpos]
      exact ih m _ i acc lines hm (reading_wouldBlock snd cap s i EAGAIN acc hr) hev'
        (by simpa [Recv.byte] using hp)
    · -- a byte
      have hign : ¬ ((accept s i b).myStringIgnoreReturn = true ∧ b = 13) := by
        simp [hr.1]
      rw [readStringFrom_data snd s i b evs hi, if_neg hign]
      have hbytes : (Recv.data b :: evs).filterMap Recv.byte = b :: evs.filterMap Recv.byte := by
        simp [Recv.byte]
      rw [hbytes] at hp
      rcases hp with ⟨cur, rest, hb, hl, hg⟩ | ⟨ha, hb, hg⟩ | ⟨-, hb, -⟩
      · have hgood := hg (acc ++ cur) (by rw [hl]; exact List.mem_cons_self _ _)
        cases cur with
        | nil =>
          -- the CR that ends the line
          simp only [List.nil_append, List.cons.injEq] at hb
          obtain ⟨rfl, hb⟩ := hb
          rw [List.append_nil] at hl hgood
          have hne : acc ≠ [] := hgood.1
          have hi0 : i ≠ 0 := by
            rw [hr.2.2.2.1]
            exact fun h => hne (List.length_eq_zero.mp h)
          have hnul : 0 ∉ acc := fun h0 => (hgood.2.2.1 0 h0).1 rfl
          rw [if_pos (Or.inr rfl), if_pos hi0,
            finish_outcome snd cap s i 13 acc hr hic hne hnul hgood.2.2.2]
          simp only [runFrom]
          rw [filter_keep, readMany_succ, finishLine_myStringPos, hl, List.map_cons]
          congr 1
          exact ih m _ 0 [] rest hm (reading_finish snd cap s i 13 acc hr) hev'
            (Or.inr (Or.inl ⟨rfl, hb, fun l hl' => hg l (by rw [hl]; exact List.mem_cons_of_mem _ hl')⟩))
        | cons c cur' =>
          simp only [List.cons_append, List.cons.injEq] at hb
          obtain ⟨rfl, hb⟩ := hb
          have hplain := hgood.2.2.1 b (by simp)
          rw [if_neg (by simp [hplain.2.1, hplain.2.2])]
          exact ih (m + 1) _ (i + 1) (acc ++ [b]) lines (by omega)
            (reading_accept cap s i b acc hr hic) hev'
            (Or.inl ⟨cur', rest, hb, by simpa using hl, hg⟩)
      · -- the LF after a returned line
        simp only [List.cons.injEq] at hb
        obtain ⟨rfl, hb⟩ := hb
        subst ha
        have hi0 : i = 0 := hr.2.2.2.1
        subst hi0
        have hpos : (accept s 0 10).myStringPos = 0 := by
          have := hr.2.2.1
          simp only [accept_myStringPos]
          omega
        rw [if_pos (Or.inl rfl), if_neg (by simp), hpos]
        refine ih (m + 1) _ 0 [] lines (by omega) (reading_restart cap s 10 hr) hev' ?_
        cases lines with
        | nil => exact Or.inr (Or.inr ⟨rfl, by simpa [wireOf] using hb, rfl⟩)
        | cons l rest =>
          exact Or.inl ⟨l, rest, by simpa [wireOf] using hb, rfl, hg⟩
      · simp at hb

/-- C1: let `lines` be lines that are not empty, shorter than the buffer, free of
NUL, CR and LF and not starting with a high-bit byte; let the events `evs`
deliver `line1 CR LF line2 CR LF ...` cut into fragments by would-block results
in any way. Then the calls of `readString` repeated from the state left by
`internalInit` (ignore-return off, nothing accumulated), as many as it takes to
use up the events, have as outcomes, apart from `Partial ""`, exactly the
completions of the lines, in order: the k-th is `Complete` with the k-th line
as payload. -/
theorem readString_chunking (snd : Nat → Send) (s : ArSocket) (lines : List (List Nat))
    (evs : List Recv) (n : Nat) (hcap : 0 < s.myStringBuf.length)
    (hlines : ∀ l ∈ lines, GoodLine s.myStringBuf.length l)
    (hfrag : Fragmented evs (wireOf lines)) (hn : evs.length < n) :
    (readMany snd n (internalInit s) evs).filter (fun o => decide (o ≠ Outcome.Partial []))
      = lines.map (Outcome.Complete 0) := by
  obtain ⟨m, rfl⟩ : ∃ m, n = m + 1 := ⟨n - 1, by omega⟩
  rw [readMany_succ]
  have hr : Reading s.myStringBuf.length (enter (internalInit s))
      (internalInit s).myStringPos [] :=
    ⟨rfl, cstr_set_zero _, le_refl _, rfl, rfl, rfl, hcap⟩
  have hev : ∀ ev ∈ evs, ev = Recv.error EAGAIN ∨ ∃ b, ev = Recv.data b := by
    intro ev he
    have h := hfrag.1 ev he
    cases ev with
    | data b => exact Or.inr ⟨b, rfl⟩
    | zero => simp [isChunk] at h
    | error e =>
      simp only [isChunk, decide_eq_true_eq] at h
      exact Or.inl (by rw [h])
  refine chunks_main snd s.myStringBuf.length evs m _ _ [] lines (by omega) hr hev ?_
  rw [hfrag.2]
  cases lines with
  | nil => exact Or.inr (Or.inr ⟨rfl, rfl, rfl⟩)
  | cons l rest => exact Or.inl ⟨l, rest, rfl, rfl, hlines⟩

/-- C1, on the lines `"HI"` and `"J"` delivered as `H`, would-block, `I CR`,
would-block, `LF J CR LF`: the outcomes are `Partial ""`, `Complete "HI"`,
`Partial ""`, `Complete "J"`. -/
theorem readString_chunking_witness :
    (readMany (sendOk 1) 10 (freshSocket 8)
        [Recv.data 72, Recv.error EAGAIN, Recv.data 73, Recv.data 13, Recv.error EAGAIN,
          Recv.data 10, Recv.data 74, Recv.data 13, Recv.data 10]
      = [Outcome.Partial [], Outcome.Complete 0 [72, 73], Outcome.Partial [],
          Outcome.Complete 0 [74]])
    ∧ (readMany (sendOk 1) 10 (freshSocket 8)
        [Recv.data 72, Recv.error EAGAIN, Recv.data 73, Recv.data 13, Recv.error EAGAIN,
          Recv.data 10, Recv.data 74, Recv.data 13, Recv.data 10]).filter
          (fun o => decide (o ≠ Outcome.Partial []))
        = [[72, 73], [74]].map (Outcome.Complete 0) :=
  ⟨rfl,
    readString_chunking (sendOk 1) _ [[72, 73], [74]]
      [Recv.data 72, Recv.error EAGAIN, Recv.data 73, Recv.data 13, Recv.error EAGAIN,
        Recv.data 10, Recv.data 74, Recv.data 13, Recv.data 10] 10 (by decide)
      (by
        intro l hl
        simp only [List.mem_cons, List.mem_singleton, List.not_mem_nil, or_false] at hl
        rcases hl with rfl | rfl <;> refine ⟨by decide, by decide, by decide, by decide⟩)
      ⟨by decide, rfl⟩ (by decide)⟩

/-! ## The line writer -/

/-- C2: for every formatted message `m` (a C string, hence without NUL) that
fits the scratch buffer of `writeString` (at most `sizeof(buf) - 4` bytes, so
that `vsnprintf` keeps all of it), the call hands to `write` exactly `m`
followed by CR, LF, or by LF, CR when `myStringWrongEndChars` is set; the length
handed over is `len(m) + 2` and no NUL is among the bytes sent. -/
theorem writeString_framing (snd : Nat → Send) (s : ArSocket) (m : List Nat)
    (hnul : 0 ∉ m) (hfit : m.length ≤ writeBufSize - 4) :
    (writeString snd s m).2.wire =
        s.wire ++ [⟨m ++ (if s.myStringWrongEndChars then [10, 13] else [13, 10]),
          m.length + 2⟩]
      ∧ (m ++ (if s.myStringWrongEndChars then [10, 13] else [13, 10])).length
          = m.length + 2
      ∧ 0 ∉ m ++ (if s.myStringWrongEndChars then [10, 13] else [13, 10]) := by
  refine ⟨writeString_wire snd s m hnul hfit, ?_, ?_⟩
  · cases s.myStringWrongEndChars <;> simp
  · cases s.myStringWrongEndChars <;> simp [hnul]

/-- C2, on the message `"hello"`: `"hello\r\n"` is handed to `write`. -/
theorem writeString_framing_witness :
    (0 ∉ [104, 101, 108, 108, 111]) ∧ [104, 101, 108, 108, 111].length ≤ writeBufSize - 4 ∧
    (writeString (sendOk 7) (freshSocket 8) [104, 101, 108, 108, 111]).2.wire =
      [⟨[104, 101, 108, 108, 111, 13, 10], 7⟩] :=
  ⟨by decide, by decide,
    (writeString_framing (sendOk 7) (freshSocket 8) [104, 101, 108, 108, 111]
      (by decide) (by decide)).1⟩

/-! ## Sticky fault flags -/

/-- C9: after `read` the flag `myBadRead` is set exactly when it was set before or
the result was negative, error tracking is on, and the socket is blocking or the
error code is not would-block; the same holds for `write` and `myBadWrite` (a
faked write and the early `return 0` transfer nothing). Results that are zero or
positive, and would-block in non-blocking mode, leave the flag as it was; `read`
leaves `myBadWrite` alone and `write` leaves `myBadRead` alone; and neither
`writeString` nor `readString` turns a set flag off. -/
theorem sticky_fault_flags (snd : Nat → Send) (s : ArSocket) :
    (∀ ev : Recv,
      (read s ev).2.myBadRead =
          (s.myBadRead || (s.myErrorTracking && decide (ev.ret < 0) &&
            (!s.myNonBlocking || decide (ev.errno ≠ EAGAIN))))
        ∧ (read s ev).2.myBadWrite = s.myBadWrite)
    ∧ (∀ (d : List Nat) (l : Nat),
      (write snd s d l).2.myBadWrite =
          (s.myBadWrite || (!s.myFakeWrites &&
            match snd s.wire.length with
            | Send.notReady => false
            | Send.done ret e =>
              s.myErrorTracking && decide (ret < 0) &&
                (!s.myNonBlocking || decide (e ≠ EAGAIN))))
        ∧ (write snd s d l).2.myBadRead = s.myBadRead)
    ∧ (∀ m : List Nat,
      (s.myBadWrite = true → (writeString snd s m).2.myBadWrite = true)
        ∧ (writeString snd s m).2.myBadRead = s.myBadRead)
    ∧ (∀ (evs : List Recv) (o : Outcome) (s' : ArSocket) (rest : List Recv),
      readString snd s evs = some (o, s', rest) →
        (s.myBadRead = true → s'.myBadRead = true)
          ∧ (s.myBadWrite = true → s'.myBadWrite = true)) := by
  refine ⟨fun ev => ⟨read_myBadRead s ev, by simp⟩,
    fun d l => ⟨write_myBadWrite snd s d l, by simp⟩,
    fun m => ⟨fun hb => ?_, by simp⟩, fun evs o s' rest h => ?_⟩
  · simpa [writeString] using write_myBadWrite_mono _ _ _ _ hb
  · simpa using readStringFrom_flags_mono snd evs _ _ o s' rest h

/-- C9, on a blocking socket with error tracking: a negative result latches
`myBadRead`, and the flag survives a later successful `readString`. -/
theorem sticky_fault_flags_witness :
    (read { freshSocket 8 with myErrorTracking := true, myNonBlocking := false }
        (Recv.error 5)).2.myBadRead = true
      ∧ ∀ (o : Outcome) (s' : ArSocket) (rest : List Recv),
        readString (sendOk 1) { freshSocket 8 with myBadRead := true }
            [Recv.data 72, Recv.data 10] = some (o, s', rest) →
          s'.myBadRead = true :=
  ⟨((sticky_fault_flags (sendOk 1)
      { freshSocket 8 with myErrorTracking := true, myNonBlocking := false }).1
      (Recv.error 5)).1.trans (by decide),
    fun o s' rest h =>
      ((sticky_fault_flags (sendOk 1) { freshSocket 8 with myBadRead := true }).2.2.2
        _ o s' rest h).1 rfl⟩

/-! ## Escape stripping -/

theorem escapeScan_succ (buf : List Nat) (fuel ei c : Nat) (h : buf[ei]? = some c) :
    escapeScan buf (fuel + 1) ei =
      if isNeg c || (decide (ei > 0) && isNeg (buf.getD (ei - 1) 0)) then
        escapeScan buf fuel (ei + 1)
      else ei := by
  rw [escapeScan]
  simp only [h]

theorem escapeScan_run (e rest : List Nat) (he : ∀ c ∈ e, isNeg c = true) :
    ∀ (k fuel j : Nat), j + k = e.length →
      escapeScan (e ++ rest) (fuel + k) j = escapeScan (e ++ rest) fuel e.length := by
  intro k
  induction k with
  | zero =>
    intro fuel j hj
    simp only [Nat.add_zero] at hj
    rw [hj]
    rfl
  | succ k ih =>
    intro fuel j hj
    have hlt : j < e.length := by omega
    have hget : (e ++ rest)[j]? = some e[j] := by
      rw [List.getElem?_append_left hlt, List.getElem?_eq_getElem hlt]
    have hneg : isNeg e[j] = true := he _ (List.getElem_mem _)
    rw [show fuel + (k + 1) = (fuel + k) + 1 from rfl, escapeScan_succ _ _ _ _ hget,
      if_pos (by simp [hneg])]
    exact ih fuel (j + 1) (by omega)

theorem escapeScan_stop (e rest : List Nat) (x y : Nat) (fuel : Nat) (hne : e ≠ [])
    (he : ∀ c ∈ e, isNeg c = true) (hx : isNeg x = false) (hy : isNeg y = false) :
    escapeScan (e ++ x :: y :: rest) (fuel + 2) e.length = e.length + 1 := by
  have hpos : 0 < e.length := List.length_pos.mpr hne
  have hlast : isNeg ((e ++ x :: y :: rest).getD (e.length - 1) 0) = true := by
    have hlt : e.length - 1 < e.length := by omega
    rw [List.getD_eq_getElem?_getD, List.getElem?_append_left hlt,
      List.getElem?_eq_getElem hlt]
    exact he _ (List.getElem_mem _)
  have hg1 : (e ++ x :: y :: rest)[e.length]? = some x := by
    rw [List.getElem?_append_right (le_refl _)]
    simp
  have hg2 : (e ++ x :: y :: rest)[e.length + 1]? = some y := by
    rw [List.getElem?_append_right (by omega)]
    simp
  have hprev : (e ++ x :: y :: rest).getD (e.length + 1 - 1) 0 = x := by
    rw [List.getD_eq_getElem?_getD, Nat.add_sub_cancel, hg1]
    rfl
  rw [show fuel + 2 = (fuel + 1) + 1 from rfl, escapeScan_succ _ _ _ _ hg1,
    if_pos (by rw [hlast]; simp [hpos]), escapeScan_succ _ _ _ _ hg2,
    if_neg (by rw [hprev, hx, hy]; simp)]

theorem escapeScan_line (e tl : List Nat) (x y : Nat) (hne : e ≠ [])
    (he : ∀ c ∈ e, isNeg c = true) (hx : isNeg x = false) (hy : isNeg y = false) :
    escapeScan (e ++ x :: y :: tl) ((e ++ x :: y :: tl).length + 1) 0 = e.length + 1 := by
  have hl : (e ++ x :: y :: tl).length + 1 = (tl.length + 1 + 2) + e.length := by
    simp; omega
  rw [hl, escapeScan_run e _ he e.length _ 0 (by omega)]
  exact escapeScan_stop e tl x y _ hne he hx hy

/-- C3 as stated fails: the input `0x80 0x81 'O' 'K' CR` is returned as `"K"`,
not as `"OK"`: the scan of lines 392-394 also passes the byte that follows a
high-bit byte. -/
theorem escape_strip_counterexample :
    ∃ s', readString (sendOk 1) (freshSocket 8)
        [Recv.data 128, Recv.data 129, Recv.data 79, Recv.data 75, Recv.data 13, Recv.data 10]
        = some (Outcome.Complete 3 [75], s', [Recv.data 10])
      ∧ s'.myStringGotEscapeChars = true
      ∧ Outcome.Complete 3 [75] ≠ Outcome.Complete 2 [79, 75] :=
  ⟨_, rfl, rfl, by decide⟩

/-- C3, amended: let the bytes of a completed line (those held from earlier calls
and those received now) be `e ++ x :: r`, where `e` is the non-empty leading run
of high-bit bytes, `x` the byte that ends the run, and `r` the rest, free of NUL
and not starting with a high-bit byte. Then `readString` returns
`&myStringBuf[len(e) + 1]`, whose content is exactly `r` (the run and the one
byte after it are stripped), and sets `myStringGotEscapeChars`. -/
theorem readString_escape (snd : Nat → Send) (s : ArSocket) (bs : List Nat) (t : Nat)
    (rest : List Recv) (e : List Nat) (x : Nat) (r : List Nat)
    (hplain : ∀ b ∈ bs, b ≠ 10 ∧ b ≠ 13)
    (ht : t = 10 ∨ (t = 13 ∧ s.myStringIgnoreReturn = false))
    (hk : s.myStringPos + bs.length < s.myStringBuf.length)
    (hline : s.myStringBuf.take s.myStringPos ++ bs = e ++ x :: r)
    (hne : e ≠ []) (he : ∀ c ∈ e, isNeg c = true) (hx : isNeg x = false)
    (hr : isNeg (r.headD 0) = false) (hnul : 0 ∉ r) :
    ∃ s', readString snd s (bs.map Recv.data ++ Recv.data t :: rest)
        = some (Outcome.Complete (e.length + 1) r, s', rest)
      ∧ s'.myStringGotEscapeChars = true := by
  have hlen : (s.myStringBuf.take s.myStringPos ++ bs).length = s.myStringPos + bs.length := by
    simp; omega
  have h0 : s.myStringPos + bs.length ≠ 0 := by
    rw [← hlen, hline]
    simp
  have hbuf := line_buf { s with myStringBufEmpty := s.myStringBufEmpty.set 0 0 }
    s.myStringPos bs t hk
  simp only [hline] at hbuf
  obtain ⟨y, tl, hytl, hy⟩ : ∃ y tl, r ++ 0 :: s.myStringBuf.drop (s.myStringPos + bs.length + 1)
      = y :: tl ∧ isNeg y = false := by
    cases r with
    | nil => exact ⟨0, _, rfl, by decide⟩
    | cons y r' => exact ⟨y, _, rfl, by simpa using hr⟩
  have hbuf2 : (accept (acceptAll { s with myStringBufEmpty := s.myStringBufEmpty.set 0 0 }
      s.myStringPos bs) (s.myStringPos + bs.length) t).myStringBuf.set
        (s.myStringPos + bs.length) 0 = e ++ x :: y :: tl := by
    rw [hbuf, ← hytl]
    simp
  have hhead : isNeg ((e ++ x :: y :: tl).getD 0 0) = true := by
    cases e with
    | nil => exact absurd rfl hne
    | cons c e' => exact he c (List.mem_cons_self _ _)
  have hdrop : (e ++ x :: y :: tl).drop (e.length + 1) = y :: tl := by
    have : e ++ x :: y :: tl = (e ++ [x]) ++ y :: tl := by simp
    rw [this, List.drop_left' (by simp)]
  unfold readString
  rw [readStringFrom_line snd { s with myStringBufEmpty := s.myStringBufEmpty.set 0 0 }
    s.myStringPos bs t rest hplain ht hk h0]
  rw [finishLine_fst, hbuf2, if_pos hhead, escapeScan_line e tl x y hne he hx hy, hdrop,
    ← hytl, cstr_append_nul r _ hnul]
  exact ⟨_, rfl, finishLine_escape _ _ _ (by rw [hbuf2]; exact hhead)⟩

/-- C3, amended, on the input `0x80 0x81 'O' 'K' CR`: the payload is `"K"`. -/
theorem readString_escape_witness :
    ∃ s', readString (sendOk 1) (freshSocket 8)
        ([128, 129, 79, 75].map Recv.data ++ Recv.data 13 :: [Recv.data 10])
        = some (Outcome.Complete 3 [75], s', [Recv.data 10])
      ∧ s'.myStringGotEscapeChars = true :=
  readString_escape (sendOk 1) (freshSocket 8) [128, 129, 79, 75] 13 [Recv.data 10]
    [128, 129] 79 [75] (by decide) (by decide) (by decide) (by decide) (by decide)
    (by decide) (by decide) (by decide) (by decide)

/-! ## Members without influence on `readString`: the receive counters, the cell 0 -/

theorem write_eq (snd : Nat → Send) (s : ArSocket) (d : List Nat) (l : Nat) :
    write snd s d l =
      ((sendEffect snd s.wire.length s.myFakeWrites s.myErrorTracking s.myNonBlocking
          s.mySends s.myBytesSent s.myBadWrite l).1,
        { s with
          wire := s.wire ++ [⟨d, l⟩]
          mySends := (sendEffect snd s.wire.length s.myFakeWrites s.myErrorTracking
            s.myNonBlocking s.mySends s.myBytesSent s.myBadWrite l).2.1
          myBytesSent := (sendEffect snd s.wire.length s.myFakeWrites s.myErrorTracking
            s.myNonBlocking s.mySends s.myBytesSent s.myBadWrite l).2.2.1
          myBadWrite := (sendEffect snd s.wire.length s.myFakeWrites s.myErrorTracking
            s.myNonBlocking s.mySends s.myBytesSent s.myBadWrite l).2.2.2 }) := by
  unfold write sendEffect
  simp only []
  by_cases hf : s.myFakeWrites = true
  · simp only [hf, if_true]
  · simp only [hf]
    cases snd s.wire.length with
    | notReady => rfl
    | done ret e =>
      simp only []
      split_ifs <;> rfl

theorem doStringEcho_setStats (snd : Nat → Send) (s : ArSocket) (a b : Nat) :
    doStringEcho snd (setStats s a b) = setStats (doStringEcho snd s) a b := by
  unfold doStringEcho
  simp only [write_eq, setStats]
  split_ifs <;> rfl

theorem writeString_setStats (snd : Nat → Send) (s : ArSocket) (a b : Nat) (m : List Nat) :
    (writeString snd (setStats s a b) m).2 = setStats (writeString snd s m).2 a b := by
  unfold writeString
  simp only [write_eq, setStats]

theorem finishLine_setStats (snd : Nat → Send) (s : ArSocket) (a b : Nat) (i : Nat) :
    finishLine snd (setStats s a b) i =
      ((finishLine snd s i).1, setStats (finishLine snd s i).2 a b) := by
  unfold finishLine doStringEcho
  simp only [write_eq, setStats]
  split_ifs <;> rfl

theorem accept_setStats (s : ArSocket) (a b i x : Nat) :
    accept (setStats s a b) i x = setStats (accept s i x) (a + 1) (b + 1) := by
  unfold accept readAt read
  simp only [Recv.ret, setStats]
  split_ifs <;> first | rfl | simp_all

theorem readAt_error_setStats (s : ArSocket) (a b i e : Nat) :
    (readAt (setStats s a b) i (Recv.error e)).2
      = setStats (readAt s i (Recv.error e)).2 a b := by
  unfold readAt read
  simp only [Recv.ret, setStats]
  split_ifs <;> first | rfl | simp_all

@[simp]
theorem setStats_myStringBuf (s : ArSocket) (a b : Nat) :
    (setStats s a b).myStringBuf = s.myStringBuf := rfl

@[simp]
theorem setStats_myStringBufEmpty (s : ArSocket) (a b : Nat) :
    (setStats s a b).myStringBufEmpty = s.myStringBufEmpty := rfl

@[simp]
theorem setStats_myStringPos (s : ArSocket) (a b : Nat) :
    (setStats s a b).myStringPos = s.myStringPos := rfl

@[simp]
theorem setStats_myStringPosLast (s : ArSocket) (a b : Nat) :
    (setStats s a b).myStringPosLast = s.myStringPosLast := rfl

@[simp]
theorem setStats_myStringGotComplete (s : ArSocket) (a b : Nat) :
    (setStats s a b).myStringGotComplete = s.myStringGotComplete := rfl

@[simp]
theorem setStats_myStringGotEscapeChars (s : ArSocket) (a b : Nat) :
    (setStats s a b).myStringGotEscapeChars = s.myStringGotEscapeChars := rfl

@[simp]
theorem setStats_myStringHaveEchoed (s : ArSocket) (a b : Nat) :
    (setStats s a b).myStringHaveEchoed = s.myStringHaveEchoed := rfl

@[simp]
theorem setStats_myStringAutoEcho (s : ArSocket) (a b : Nat) :
    (setStats s a b).myStringAutoEcho = s.myStringAutoEcho := rfl

@[simp]
theorem setStats_myStringEcho (s : ArSocket) (a b : Nat) :
    (setStats s a b).myStringEcho = s.myStringEcho := rfl

@[simp]
theorem setStats_myStringIgnoreReturn (s : ArSocket) (a b : Nat) :
    (setStats s a b).myStringIgnoreReturn = s.myStringIgnoreReturn := rfl

@[simp]
theorem setStats_myStringWrongEndChars (s : ArSocket) (a b : Nat) :
    (setStats s a b).myStringWrongEndChars = s.myStringWrongEndChars := rfl

@[simp]
theorem setStats_myLogWriteStrings (s : ArSocket) (a b : Nat) :
    (setStats s a b).myLogWriteStrings = s.myLogWriteStrings := rfl

@[simp]
theorem setStats_myErrorTracking (s : ArSocket) (a b : Nat) :
    (setStats s a b).myErrorTracking = s.myErrorTracking := rfl

@[simp]
theorem setStats_myNonBlocking (s : ArSocket) (a b : Nat) :
    (setStats s a b).myNonBlocking = s.myNonBlocking := rfl

@[simp]
theorem setStats_myFakeWrites (s : ArSocket) (a b : Nat) :
    (setStats s a b).myFakeWrites = s.myFakeWrites := rfl

@[simp]
theorem setStats_myBadRead (s : ArSocket) (a b : Nat) :
    (setStats s a b).myBadRead = s.myBadRead := rfl

@[simp]
theorem setStats_myBadWrite (s : ArSocket) (a b : Nat) :
    (setStats s a b).myBadWrite = s.myBadWrite := rfl

@[simp]
theorem setStats_mySends (s : ArSocket) (a b : Nat) :
    (setStats s a b).mySends = s.mySends := rfl

@[simp]
theorem setStats_myBytesSent (s : ArSocket) (a b : Nat) :
    (setStats s a b).myBytesSent = s.myBytesSent := rfl

@[simp]
theorem setStats_wire (s : ArSocket) (a b : Nat) :
    (setStats s a b).wire = s.wire := rfl

@[simp]
theorem noStats_setStats (s : ArSocket) (a b : Nat) : noStats (setStats s a b) = noStats s := rfl

/-- The receive counters have no influence on `readString` beyond their own
values. -/
theorem readStringFrom_setStats (snd : Nat → Send) (evs : List Recv) (s : ArSocket)
    (i a b : Nat) :
    (readStringFrom snd evs (setStats s a b) i).map (mapState noStats)
      = (readStringFrom snd evs s i).map (mapState noStats) := by
  induction evs generalizing s i a b with
  | nil =>
    by_cases hi : i < s.myStringBuf.length
    · simp [readStringFrom, hi]
    · rw [readStringFrom_full snd _ i [] (by simpa using hi),
        readStringFrom_full snd s i [] (by omega), writeString_setStats]
      rfl
  | cons ev evs ih =>
    by_cases hi : i < s.myStringBuf.length
    · cases ev with
      | data x =>
        rw [readStringFrom_data snd _ i x evs (by simpa using hi),
          readStringFrom_data snd s i x evs hi, accept_setStats]
        simp only [setStats_myStringIgnoreReturn, setStats_myStringPos,
          setStats_myStringBufEmpty, finishLine_setStats]
        split_ifs
        · exact ih _ _ _ _
        · rfl
        · exact ih { accept s i x with
            myStringBufEmpty := (accept s i x).myStringBufEmpty.set 0 0 } _ (a + 1) (b + 1)
        · exact ih _ _ _ _
      | zero =>
        rw [readStringFrom_zero snd _ i evs (by simpa using hi),
          readStringFrom_zero snd s i evs hi]
        rfl
      | error e =>
        rw [readStringFrom_error snd _ i e evs (by simpa using hi),
          readStringFrom_error snd s i e evs hi, readAt_error_setStats]
        have h := doStringEcho_setStats snd
          { (readAt s i (Recv.error e)).2 with myStringPos := i } a b
        have h' : noStats (doStringEcho snd
            (setStats { (readAt s i (Recv.error e)).2 with myStringPos := i } a b))
            = noStats (doStringEcho snd
                { (readAt s i (Recv.error e)).2 with myStringPos := i }) := by
          rw [h]
          rfl
        split_ifs
        · exact congrArg (fun t => some (Outcome.Partial (cstr s.myStringBufEmpty), t, evs)) h'
        · rfl
    · rw [readStringFrom_full snd _ i _ (by simpa using hi),
        readStringFrom_full snd s i _ (by omega), writeString_setStats]
      rfl

theorem view_noStats (s : ArSocket) : view (noStats s) = view s := by
  unfold view
  rfl

theorem readStringFrom_setStats_view (snd : Nat → Send) (evs : List Recv) (s : ArSocket)
    (i a b : Nat) :
    (readStringFrom snd evs (setStats s a b) i).map (mapState view)
      = (readStringFrom snd evs s i).map (mapState view) := by
  have h := congrArg (Option.map (mapState view)) (readStringFrom_setStats snd evs s i a b)
  have hc : mapState view ∘ mapState noStats = mapState view := by
    funext r
    simp [mapState, view_noStats]
  simpa only [Option.map_map, hc] using h

theorem view_setStats_setCell (s : ArSocket) (c a b : Nat) (h : s.myStringPos = 0) :
    view (setStats (setCell s c) a b) = view s := by
  simp [view, noCell, setCell, setStats, h]

theorem accept_setCell_zero (s : ArSocket) (c x : Nat) :
    accept (setCell s c) 0 x = accept s 0 x := by
  unfold accept readAt read setCell
  simp only [Recv.ret, List.set_set]
  split_ifs <;> first | rfl | simp_all

theorem accept_zero_of_not_neg (s : ArSocket) (x : Nat) (hx : isNeg x = false)
    (h : 0 < s.myStringBuf.length) :
    accept s 0 x = setStats (setCell s x) (s.myRecvs + 1) (s.myBytesRecvd + 1) := by
  have hg : (readAt s 0 (Recv.data x)).2.myStringBuf.getD 0 0 = x := by
    rw [readAt_myStringBuf]
    exact getD_set_self _ _ _ h
  unfold accept
  simp only [hg, hx]
  unfold readAt read
  simp [Recv.ret, setStats, setCell]

theorem doStringEcho_setCell (snd : Nat → Send) (s : ArSocket) (c : Nat)
    (h : s.myStringPos = 0) :
    doStringEcho snd (setCell s c) = setCell (doStringEcho snd s) c := by
  have hd : s.myStringPosLast ≠ s.myStringPos →
      (s.myStringBuf.set 0 c).drop s.myStringPosLast
        = s.myStringBuf.drop s.myStringPosLast := fun hp =>
    List.drop_set_of_lt _ _ (Nat.pos_of_ne_zero (by omega))
  unfold doStringEcho
  simp only [write_eq, setCell]
  split_ifs with h1 h2 h3 h4 h3 h4
  · rfl
  · rfl
  · rfl
  · simp only [hd h3]
  · rfl
  · rfl
  · simp only [hd h3]

theorem readAt_error_setCell (s : ArSocket) (c i e : Nat) :
    (readAt (setCell s c) i (Recv.error e)).2 = setCell (readAt s i (Recv.error e)).2 c := by
  unfold readAt read
  simp only [Recv.ret, setCell]
  split_ifs <;> rfl

/-- While no byte is accumulated, the content of the cell 0 and the receive
counters have no influence on `readString` beyond their own values. -/
theorem readStringFrom_setCell (snd : Nat → Send) (evs : List Recv) (s : ArSocket)
    (c a b : Nat) (hpos : s.myStringPos = 0) (hcap : 0 < s.myStringBuf.length) :
    (readStringFrom snd evs (setStats (setCell s c) a b) 0).map (mapState view)
      = (readStringFrom snd evs s 0).map (mapState view) := by
  rw [readStringFrom_setStats_view]
  have hcap' : 0 < (setCell s c).myStringBuf.length := by simpa [setCell] using hcap
  cases evs with
  | nil => simp [readStringFrom, hcap, hcap']
  | cons ev evs =>
    cases ev with
    | data x =>
      rw [readStringFrom_data snd _ 0 x evs hcap', readStringFrom_data snd s 0 x evs hcap,
        accept_setCell_zero]
    | zero =>
      rw [readStringFrom_zero snd _ 0 evs hcap', readStringFrom_zero snd s 0 evs hcap]
      simp [mapState, view, noCell, setCell, setStats]
    | error e =>
      rw [readStringFrom_error snd _ 0 e evs hcap', readStringFrom_error snd s 0 e evs hcap,
        readAt_error_setCell]
      have h := doStringEcho_setCell snd
        { (readAt s 0 (Recv.error e)).2 with myStringPos := 0 } c rfl
      have h' : view (doStringEcho snd
          (setCell { (readAt s 0 (Recv.error e)).2 with myStringPos := 0 } c))
          = view (doStringEcho snd { (readAt s 0 (Recv.error e)).2 with myStringPos := 0 }) := by
        rw [h]
        exact view_setStats_setCell _ c _ _ (by simp)
      split_ifs
      · exact congrArg (fun t => some (Outcome.Partial (cstr s.myStringBufEmpty), t, evs)) h'
      · have h2 : view (setCell (readAt s 0 (Recv.error e)).2 c)
            = view (readAt s 0 (Recv.error e)).2 :=
          view_setStats_setCell _ c _ _ (by simpa using hpos)
        exact congrArg (fun t => some (Outcome.IoError, t, evs)) h2

/-! ## A line end at index 0 -/

theorem readStringFrom_skip (snd : Nat → Send) (s : ArSocket) (b : Nat)
    (rest : List Recv) (hpos : s.myStringPos = 0) (hcap : 0 < s.myStringBuf.length)
    (hb : b = 10 ∨ b = 13) (hE : s.myStringBufEmpty.set 0 0 = s.myStringBufEmpty) :
    (readStringFrom snd (Recv.data b :: rest) s 0).map (mapState view)
      = (readStringFrom snd rest s 0).map (mapState view) := by
  have hneg : isNeg b = false := by
    rcases hb with hb | hb <;> rw [hb] <;> decide
  have hwrap : ((0 + sizeMod - 1) % sizeMod + 1) % sizeMod = 0 := by decide
  have hacc := accept_zero_of_not_neg s b hneg hcap
  have hsim := readStringFrom_setCell snd rest s b (s.myRecvs + 1) (s.myBytesRecvd + 1)
    hpos hcap
  rw [readStringFrom_data snd s 0 b rest hcap, hwrap, hacc]
  by_cases h1 : (setStats (setCell s b) (s.myRecvs + 1) (s.myBytesRecvd + 1)).myStringIgnoreReturn
      = true ∧ b = 13
  · rw [if_pos h1]
    exact hsim
  · have hs : ({ setStats (setCell s b) (s.myRecvs + 1) (s.myBytesRecvd + 1) with
        myStringBufEmpty := (setStats (setCell s b) (s.myRecvs + 1)
          (s.myBytesRecvd + 1)).myStringBufEmpty.set 0 0 } : ArSocket)
        = setStats (setCell s b) (s.myRecvs + 1) (s.myBytesRecvd + 1) := by
      simp [setStats, setCell, hE]
    have hp : (setStats (setCell s b) (s.myRecvs + 1) (s.myBytesRecvd + 1)).myStringPos = 0 :=
      hpos
    rw [if_neg h1, if_pos hb, if_neg (by simp), hp]
    exact (congrArg (fun t => (readStringFrom snd rest t 0).map (mapState view)) hs).trans hsim

theorem readMany_nil (snd : Nat → Send) (n : Nat) (s : ArSocket)
    (h : s.myStringPos < s.myStringBuf.length) : readMany snd n s [] = [] := by
  cases n with
  | zero => rfl
  | succ n => simp [readMany, readString, readStringFrom, h]

/-- C5 as stated fails: with a buffer of 4 bytes, the line `0x80 'A' 'B'` of
`capacity - 1` bytes, none of them a line end, followed by CR is completed with
the payload `"B"`, not with its three bytes. -/
theorem capacity_line_counterexample :
    ∃ s', readString (sendOk 1) (freshSocket 4)
        [Recv.data 128, Recv.data 65, Recv.data 66, Recv.data 13]
        = some (Outcome.Complete 2 [66], s', [])
      ∧ [128, 65, 66].length = (freshSocket 4).myStringBuf.length - 1
      ∧ (∀ b ∈ [128, 65, 66], b ≠ 10 ∧ b ≠ 13)
      ∧ ∀ st, Outcome.Complete 2 [66] ≠ Outcome.Complete st [128, 65, 66] :=
  ⟨_, rfl, rfl, by decide, fun st h => by simp at h⟩

/-- C5, amended: start with no byte accumulated (`myStringPos = 0`) and receive
bytes `bs` none of which is LF or CR.
(1) If `bs` has exactly `capacity - 1` bytes, is not empty, holds no NUL and
does not start with a high-bit byte, then a line end after it (LF, or CR when
`myStringIgnoreReturn` is off) yields `Complete` with exactly the bytes `bs`.
(2) If `bs` has `capacity` bytes, the call yields `Overflowed` and during it
`write` is called exactly once, by the `writeString` of `"String too long"`,
whatever the oracle `snd` answers to that write; over the whole run of
`capacity` bytes the outcome `Overflowed` is produced exactly once. -/
theorem readString_capacity (snd : Nat → Send) (s : ArSocket) (bs : List Nat)
    (rest : List Recv) (hpos : s.myStringPos = 0) (hplain : ∀ b ∈ bs, b ≠ 10 ∧ b ≠ 13) :
    (∀ t : Nat, bs.length + 1 = s.myStringBuf.length → bs ≠ [] → 0 ∉ bs →
        isNeg (bs.headD 0) = false →
        (t = 10 ∨ (t = 13 ∧ s.myStringIgnoreReturn = false)) →
        ∃ s', readString snd s (bs.map Recv.data ++ Recv.data t :: rest)
          = some (Outcome.Complete 0 bs, s', rest))
    ∧ (bs.length = s.myStringBuf.length →
        (∃ s', readString snd s (bs.map Recv.data ++ rest)
            = some (Outcome.Overflowed, s', rest)
          ∧ s'.wire = s.wire ++
              [⟨stringTooLong ++ (if s.myStringWrongEndChars then [10, 13] else [13, 10]),
                17⟩])
        ∧ (0 < s.myStringBuf.length →
            ∀ n, readMany snd (n + 1) s (bs.map Recv.data) = [Outcome.Overflowed])) := by
  constructor
  · intro t hlen hne hnul hhead ht
    have hk : s.myStringPos + bs.length < s.myStringBuf.length := by omega
    have h0 : s.myStringPos + bs.length ≠ 0 := by
      have := List.length_pos.mpr hne
      omega
    have hbuf := line_buf { s with myStringBufEmpty := s.myStringBufEmpty.set 0 0 }
      s.myStringPos bs t hk
    simp only [hpos, List.take_zero, List.nil_append] at hbuf
    have hh : isNeg ((bs ++ 0 :: s.myStringBuf.drop (0 + bs.length + 1)).getD 0 0) = false := by
      cases bs with
      | nil => exact absurd rfl hne
      | cons c bs' => simpa using hhead
    unfold readString
    rw [readStringFrom_line snd { s with myStringBufEmpty := s.myStringBufEmpty.set 0 0 }
      s.myStringPos bs t rest hplain ht hk h0, finishLine_fst]
    simp only [hpos] at hbuf ⊢
    rw [hbuf, if_neg (by rw [hh]; simp), cstr_append_nul bs _ hnul]
    exact ⟨_, rfl⟩
  · intro hlen
    have hfull : ∀ rest' : List Recv, readString snd s (bs.map Recv.data ++ rest') =
        some (Outcome.Overflowed,
          (writeString snd (acceptAll { s with myStringBufEmpty := s.myStringBufEmpty.set 0 0 }
            s.myStringPos bs) stringTooLong).2, rest') := by
      intro rest'
      rw [readString_plain snd s bs rest' hplain (by omega),
        readStringFrom_full snd _ _ _ (by simp; omega)]
    refine ⟨⟨_, hfull rest, ?_⟩, fun hcap n => ?_⟩
    · rw [writeString_wire snd _ stringTooLong (by decide) (by decide)]
      simp [stringTooLong]
    · have h1 := hfull []
      rw [List.append_nil] at h1
      rw [readMany, h1]
      simp only []
      rw [readMany_nil]
      simp only [writeString_myStringPos, writeString_myStringBuf, acceptAll_myStringPos,
        acceptAll_length]
      omega

/-- C5, amended, on a buffer of 4 bytes: `"ABC"` and LF complete the line `"ABC"`,
and `"ABCD"` overflows with one `write` of `"String too long\r\n"`. -/
theorem readString_capacity_witness :
    (freshSocket 4).myStringPos = 0
      ∧ (∃ s', readString (sendOk 1) (freshSocket 4)
          ([65, 66, 67].map Recv.data ++ Recv.data 10 :: [])
          = some (Outcome.Complete 0 [65, 66, 67], s', []))
      ∧ (∃ s', readString (sendOk 1) (freshSocket 4) ([65, 66, 67, 68].map Recv.data ++ [])
          = some (Outcome.Overflowed, s', [])
        ∧ s'.wire = [⟨stringTooLong ++ [13, 10], 17⟩]) :=
  ⟨rfl,
    (readString_capacity (sendOk 1) (freshSocket 4) [65, 66, 67] [] rfl (by decide)).1 10
      rfl (by decide) (by decide) (by decide) (Or.inl rfl),
    ((readString_capacity (sendOk 1) (freshSocket 4) [65, 66, 67, 68] [] rfl (by decide)).2
      rfl).1⟩

/-! ## The partial string -/

/-- C10 fails on the code: after the line `"hi"` was completed and returned, no
byte is accumulated (`myStringPos = 0`), yet `comparePartialReadString("h")`
answers 0, because `strncmp` meets the bytes of the returned line that are
still in `myStringBuf`. The same happens inside a line: after `"hello"` was
returned and `"he"` of the next line is accumulated, `"hel"` compares equal. The
call itself changes no state. -/
theorem comparePartial_stale_bytes :
    (∃ s', readString (sendOk 1) (freshSocket 8) [Recv.data 104, Recv.data 105, Recv.data 13]
        = some (Outcome.Complete 0 [104, 105], s', [])
      ∧ s'.myStringPos = 0
      ∧ comparePartialReadString s' [104] = (some 0, s')
      ∧ ¬ ([104] = s'.myStringBuf.take (min [104].length s'.myStringPos)))
    ∧ (∃ s1 s2, readString (sendOk 1) (freshSocket 8)
          [Recv.data 104, Recv.data 101, Recv.data 108, Recv.data 108, Recv.data 111,
            Recv.data 13, Recv.data 10, Recv.data 104, Recv.data 101, Recv.error EAGAIN]
          = some (Outcome.Complete 0 [104, 101, 108, 108, 111], s1,
              [Recv.data 10, Recv.data 104, Recv.data 101, Recv.error EAGAIN])
      ∧ readString (sendOk 1) s1 [Recv.data 10, Recv.data 104, Recv.data 101, Recv.error EAGAIN]
          = some (Outcome.Partial [], s2, [])
      ∧ s2.myStringPos = 2
      ∧ comparePartialReadString s2 [104, 101, 108] = (some 0, s2)) :=
  ⟨⟨_, rfl, rfl, rfl, by decide⟩, ⟨_, _, rfl, rfl, rfl, rfl⟩⟩

/-! ## The ways out of `readString` on a read without data -/

/-- C6 as stated fails: after one byte `H` and a would-block, `readString`
returns `Partial` with the empty payload although one byte is accumulated. -/
theorem wouldBlock_payload_counterexample :
    ∃ s', readString (sendOk 1) (freshSocket 8) [Recv.data 72, Recv.error EAGAIN]
        = some (Outcome.Partial [], s', [])
      ∧ s'.myStringPos = 1 ∧ s'.myStringBuf.take s'.myStringPos = [72]
      ∧ Outcome.Partial [] ≠ Outcome.Partial (s'.myStringBuf.take s'.myStringPos) :=
  ⟨_, rfl, rfl, rfl, by decide⟩

/-- C6, amended: when the read reports would-block after the bytes `bs` (none of
them LF or CR) were added to the `myStringPos` bytes already held, `k` in all,
`readString` returns `Partial` with the empty payload (`myStringBufEmpty`; not
`Closed`, not `IoError`), leaves `myStringPos = k`, and the `k` accumulated
bytes stay at the front of `myStringBuf`. -/
theorem readString_wouldBlock (snd : Nat → Send) (s : ArSocket) (bs : List Nat)
    (rest : List Recv) (hplain : ∀ b ∈ bs, b ≠ 10 ∧ b ≠ 13)
    (hk : s.myStringPos + bs.length < s.myStringBuf.length) :
    ∃ s', readString snd s (bs.map Recv.data ++ Recv.error EAGAIN :: rest)
        = some (Outcome.Partial [], s', rest)
      ∧ s'.myStringPos = s.myStringPos + bs.length
      ∧ s'.myStringBuf.take (s.myStringPos + bs.length)
          = s.myStringBuf.take s.myStringPos ++ bs := by
  rw [readString_plain snd s bs _ hplain (by omega),
    readStringFrom_error snd _ _ _ _ (by simpa using hk), if_pos rfl,
    acceptAll_myStringBufEmpty, cstr_set_zero]
  refine ⟨_, rfl, ?_, ?_⟩
  · simp
  · simp only [doStringEcho_myStringBuf, readAt_myStringBuf]
    rw [acceptAll_take _ _ _ (by simpa using hk.le)]
    exact take_accumulated _ _ _ hk.le _

/-- C6, amended, on the line start `H` followed by a would-block. -/
theorem readString_wouldBlock_witness :
    (∀ b ∈ [72], b ≠ 10 ∧ b ≠ 13)
      ∧ (freshSocket 8).myStringPos + [72].length < (freshSocket 8).myStringBuf.length
      ∧ ∃ s', readString (sendOk 1) (freshSocket 8) [Recv.data 72, Recv.error EAGAIN]
          = some (Outcome.Partial [], s', [])
        ∧ s'.myStringPos = 1 ∧ s'.myStringBuf.take 1 = [72] :=
  ⟨by decide, by decide,
    readString_wouldBlock (sendOk 1) (freshSocket 8) [72] [] (by decide) (by decide)⟩

/-- C7: when the read returns zero bytes after the bytes `bs` (none of them LF or
CR) were added to the `myStringPos` bytes already held, `k` in all, `readString`
returns `Closed`, `myStringPos = k`, `myStringBuf` starts with those `k` bytes
followed by NUL, and `comparePartialReadString` answers 0 on a C string `p`
exactly when `p` is a leading part of the `k` accumulated bytes. -/
theorem readString_closed (snd : Nat → Send) (s : ArSocket) (bs : List Nat)
    (rest : List Recv) (hplain : ∀ b ∈ bs, b ≠ 10 ∧ b ≠ 13)
    (hk : s.myStringPos + bs.length < s.myStringBuf.length) :
    ∃ s', readString snd s (bs.map Recv.data ++ Recv.zero :: rest)
        = some (Outcome.Closed, s', rest)
      ∧ s'.myStringPos = s.myStringPos + bs.length
      ∧ s'.myStringBuf.take (s.myStringPos + bs.length + 1)
          = s.myStringBuf.take s.myStringPos ++ bs ++ [0]
      ∧ ∀ p : List Nat, 0 ∉ p →
          ((comparePartialReadString s' p).1 = some 0
            ↔ p <+: s.myStringBuf.take s.myStringPos ++ bs) := by
  rw [readString_plain snd s bs _ hplain (by omega),
    readStringFrom_zero snd _ _ _ (by simpa using hk)]
  have hlen : (s.myStringBuf.take s.myStringPos ++ bs).length = s.myStringPos + bs.length := by
    simp; omega
  have hbuf := acceptAll_set_nul { s with myStringBufEmpty := s.myStringBufEmpty.set 0 0 }
    s.myStringPos bs hk
  simp only [] at hbuf
  refine ⟨_, rfl, rfl, ?_, ?_⟩
  · simp only [hbuf]
    exact take_accumulated_nul _ _ _ hlen
  · intro p hp
    simp only [comparePartialReadString, hbuf, strlen, cstr_of_nul_free p hp]
    rw [strncmp_eq_zero_iff _ _ hp, prefix_before_nul _ _ _ hp]

/-- C7, on a zero-byte first read: `Closed`, and the empty string compares
equal. -/
theorem readString_closed_witness :
    (∀ b ∈ ([] : List Nat), b ≠ 10 ∧ b ≠ 13)
      ∧ (freshSocket 8).myStringPos + ([] : List Nat).length
          < (freshSocket 8).myStringBuf.length
      ∧ ∃ s', readString (sendOk 1) (freshSocket 8) [Recv.zero]
          = some (Outcome.Closed, s', [])
        ∧ (comparePartialReadString s' []).1 = some 0 := by
  refine ⟨by decide, by decide, ?_⟩
  obtain ⟨s', h1, -, -, h4⟩ :=
    readString_closed (sendOk 1) (freshSocket 8) [] [] (by decide) (by decide)
  exact ⟨s', h1, (h4 [] (by decide)).2 (List.nil_prefix)⟩

/-- C8 as stated fails: on a blocking socket with error tracking, a negative
result whose code is `EAGAIN` makes `readString` return `Partial`, not
`IoError`, while `read` latches `myBadRead` on that same result. -/
theorem blocking_wouldBlock_counterexample :
    ({ freshSocket 8 with myNonBlocking := false, myErrorTracking := true }).myNonBlocking
        = false
      ∧ (Recv.error EAGAIN).ret < 0
      ∧ (readString (sendOk 1)
          { freshSocket 8 with myNonBlocking := false, myErrorTracking := true }
          [Recv.error EAGAIN]).map (fun r => r.1) = some (Outcome.Partial [])
      ∧ (read { freshSocket 8 with myNonBlocking := false, myErrorTracking := true }
          (Recv.error EAGAIN)).2.myBadRead = true :=
  ⟨rfl, by decide, rfl, rfl⟩

/-- C8, amended: a negative read result met after the bytes `bs` of the current
call makes `readString` return `IoError` exactly when its error code is not
`EAGAIN`, in blocking and in non-blocking mode alike, and `Partial` when it is
`EAGAIN`. With error tracking on and the flag clear, `read` latches `myBadRead`
on that result exactly when the socket is blocking or the code is not `EAGAIN`;
so the two agree in non-blocking mode, and in blocking mode on every code but
`EAGAIN`. -/
theorem readString_error_class (snd : Nat → Send) (s : ArSocket) (bs : List Nat) (e : Nat)
    (rest : List Recv) (hplain : ∀ b ∈ bs, b ≠ 10 ∧ b ≠ 13)
    (hk : s.myStringPos + bs.length < s.myStringBuf.length) :
    (readString snd s (bs.map Recv.data ++ Recv.error e :: rest)).map (fun r => r.1)
        = some (if e = EAGAIN then Outcome.Partial [] else Outcome.IoError)
      ∧ ((readString snd s (bs.map Recv.data ++ Recv.error e :: rest)).map (fun r => r.1)
          = some Outcome.IoError ↔ e ≠ EAGAIN)
      ∧ (s.myErrorTracking = true → s.myBadRead = false →
          ((read s (Recv.error e)).2.myBadRead = true
            ↔ (s.myNonBlocking = false ∨ e ≠ EAGAIN))) := by
  have h1 : (readString snd s (bs.map Recv.data ++ Recv.error e :: rest)).map (fun r => r.1)
      = some (if e = EAGAIN then Outcome.Partial [] else Outcome.IoError) := by
    rw [readString_plain snd s bs _ hplain (by omega),
      readStringFrom_error snd _ _ _ _ (by simpa using hk)]
    split_ifs <;> simp [cstr_set_zero]
  refine ⟨h1, ?_, ?_⟩
  · rw [h1]
    split_ifs with he <;> simp [he]
  · intro ht hb
    rw [read_myBadRead, ht, hb]
    cases s.myNonBlocking <;> simp [Recv.ret, Recv.errno]

/-- C8, amended, on a non-blocking socket and the error code 5. -/
theorem readString_error_class_witness :
    (∀ b ∈ [72], b ≠ 10 ∧ b ≠ 13)
      ∧ (freshSocket 8).myStringPos + [72].length < (freshSocket 8).myStringBuf.length
      ∧ (readString (sendOk 1) (freshSocket 8) [Recv.data 72, Recv.error 5]).map
          (fun r => r.1) = some Outcome.IoError :=
  ⟨by decide, by decide,
    (readString_error_class (sendOk 1) (freshSocket 8) [72] 5 [] (by decide) (by decide)).1⟩

/-! ## The partial string cleared -/

/-- C12: `clearPartialReadString` leaves `myStringPos = 0` and the empty C string
in `myStringBuf`, and calling it twice gives the same state as calling it
once. -/
theorem clearPartialReadString_idem (s : ArSocket) :
    (clearPartialReadString s).myStringPos = 0
      ∧ cstr (clearPartialReadString s).myStringBuf = []
      ∧ clearPartialReadString (clearPartialReadString s) = clearPartialReadString s := by
  refine ⟨rfl, cstr_set_zero _, ?_⟩
  simp [clearPartialReadString, List.set_set]

/-! ## The state after an overflow -/

theorem finishLine_ne_overflowed (snd : Nat → Send) (s : ArSocket) (i : Nat) :
    (finishLine snd s i).1 ≠ Outcome.Overflowed := by
  rw [finishLine_fst]
  split_ifs <;> simp

theorem readStringFrom_overflowed (snd : Nat → Send) (evs : List Recv) (s : ArSocket) (i : Nat)
    (s' : ArSocket) (rest : List Recv)
    (h : readStringFrom snd evs s i = some (Outcome.Overflowed, s', rest)) :
    s'.myStringPos = s.myStringPos ∧ s'.myStringPosLast = s.myStringPosLast := by
  induction evs generalizing s i with
  | nil =>
    by_cases hi : i < s.myStringBuf.length
    · simp [readStringFrom, hi] at h
    · rw [readStringFrom_full snd s i [] (by omega)] at h
      simp only [Option.some.injEq, Prod.mk.injEq, true_and] at h
      obtain ⟨rfl, -⟩ := h
      simp
  | cons ev evs ih =>
    by_cases hi : i < s.myStringBuf.length
    · cases ev with
      | data b =>
        rw [readStringFrom_data snd s i b evs hi] at h
        split_ifs at h with h1 h2 h3
        · simpa using ih _ _ h
        · simp only [Option.some.injEq, Prod.mk.injEq] at h
          exact absurd h.1 (finishLine_ne_overflowed _ _ _)
        · simpa using ih _ _ h
        · simpa using ih _ _ h
      | zero =>
        rw [readStringFrom_zero snd s i evs hi] at h
        simp at h
      | error e =>
        rw [readStringFrom_error snd s i e evs hi] at h
        split_ifs at h <;> simp at h
    · rw [readStringFrom_full snd s i _ (by omega)] at h
      simp only [Option.some.injEq, Prod.mk.injEq, true_and] at h
      obtain ⟨rfl, -⟩ := h
      simp

/-- C20: a call of `readString` that ends with `Overflowed` leaves `myStringPos`
and `myStringPosLast` as they were when the call began, whatever the state and
the events. -/
theorem readString_overflowed_frame (snd : Nat → Send) (s : ArSocket) (evs : List Recv)
    (s' : ArSocket) (rest : List Recv)
    (h : readString snd s evs = some (Outcome.Overflowed, s', rest)) :
    s'.myStringPos = s.myStringPos ∧ s'.myStringPosLast = s.myStringPosLast := by
  rw [readString_eq] at h
  simpa using readStringFrom_overflowed snd evs _ _ s' rest h

/-- C20, on a buffer of 4 bytes that holds `"AB"` echoed up to index 1: two more
bytes overflow, and the positions 2 and 1 are kept. -/
theorem readString_overflowed_frame_witness :
    ∃ s', readString (sendOk 1)
          { freshSocket 4 with myStringBuf := [65, 66, 0, 0], myStringPos := 2,
                               myStringPosLast := 1 }
          [Recv.data 67, Recv.data 68] = some (Outcome.Overflowed, s', [])
      ∧ s'.myStringPos = 2 ∧ s'.myStringPosLast = 1 :=
  ⟨_, rfl,
    readString_overflowed_frame (sendOk 1)
      { freshSocket 4 with myStringBuf := [65, 66, 0, 0], myStringPos := 2,
                           myStringPosLast := 1 }
      [Recv.data 67, Recv.data 68] _ [] rfl⟩

/-! ## The escape scan and the end of the line -/

/-- C17 fails on the code. After the line `"hello"` was returned, the line made
of the single byte `0x80` is completed with its NUL at index 1, yet the scan of
lines 392-394 goes on to index 2 and `readString` returns `&myStringBuf[2]`,
the bytes `"llo"` left over from the earlier line. And with a buffer of 4
bytes, the line of the three bytes `0x80 0x81 0x82` has its NUL at index 3 and
the scan leaves the array: it stops at index 4, where the source reads
`myStringBuf[4]`. -/
theorem escapeScan_past_nul :
    (∃ s1 s2, readString (sendOk 1) (freshSocket 8)
          [Recv.data 104, Recv.data 101, Recv.data 108, Recv.data 108, Recv.data 111,
            Recv.data 13, Recv.data 10, Recv.data 128, Recv.data 13]
          = some (Outcome.Complete 0 [104, 101, 108, 108, 111], s1,
              [Recv.data 10, Recv.data 128, Recv.data 13])
      ∧ readString (sendOk 1) s1 [Recv.data 10, Recv.data 128, Recv.data 13]
          = some (Outcome.Complete 2 [108, 108, 111], s2, [])
      ∧ s2.myStringBuf = [128, 0, 108, 108, 111, 0, 0, 0])
    ∧ (∃ s', readString (sendOk 1) (freshSocket 4)
          [Recv.data 128, Recv.data 129, Recv.data 130, Recv.data 13]
          = some (Outcome.Complete 4 [], s', [])
      ∧ s'.myStringBuf = [128, 129, 130, 0]
      ∧ s'.myStringBuf.length = 4) :=
  ⟨⟨_, _, rfl, rfl, rfl⟩, ⟨_, rfl, rfl, rfl⟩⟩

/-! ## The echo position -/

/-- C18 fails on the code. From a fresh socket, `readString` receives `"ab"` and
a would-block, so that both positions are 2; `clearPartialReadString` then
resets `myStringPos` but not `myStringPosLast`, and the reachable state has
`myStringPosLast = 2 > 0 = myStringPos`. The next `readString` that meets a
would-block calls `write(&myStringBuf[2], myStringPos - myStringPosLast)` with
the length `2 ^ 64 - 2`. -/
theorem echo_position_underflow :
    (applyCalls (sendOk 1) (freshSocket 8)
        [Call.readString [Recv.data 97, Recv.data 98, Recv.error EAGAIN],
          Call.clearPartialReadString]).myStringPos = 0
    ∧ (applyCalls (sendOk 1) (freshSocket 8)
        [Call.readString [Recv.data 97, Recv.data 98, Recv.error EAGAIN],
          Call.clearPartialReadString]).myStringPosLast = 2
    ∧ (applyCalls (sendOk 1) (freshSocket 8)
        [Call.readString [Recv.data 97, Recv.data 98, Recv.error EAGAIN],
          Call.clearPartialReadString,
          Call.readString [Recv.error EAGAIN]]).wire
        = [⟨[97, 98], 2⟩, ⟨[0, 0, 0, 0, 0, 0], 2 ^ 64 - 2⟩] :=
  ⟨rfl, rfl, by decide⟩

/-! ## The scratch buffer of `writeString` -/

theorem storeAll_append (buf : List Nat) (st1 st2 : List (Nat × Nat)) :
    storeAll buf (st1 ++ st2) = storeAll (storeAll buf st1) st2 := by
  simp [storeAll, List.foldl_append]

theorem storeAll_enumFrom (body pre old suf : List Nat) (hold : old.length = body.length) :
    storeAll (pre ++ old ++ suf) (List.enumFrom pre.length body) = pre ++ body ++ suf := by
  induction body generalizing pre old with
  | nil =>
    have : old = [] := List.length_eq_zero.mp hold
    simp [storeAll, this]
  | cons b body ih =>
    cases old with
    | nil => simp at hold
    | cons c old =>
      have h := ih (pre ++ [b]) old (by simpa using hold)
      simp only [List.length_append, List.length_singleton] at h
      simp only [List.enumFrom_cons, storeAll, List.foldl_cons] at h ⊢
      have hs : (pre ++ c :: old ++ suf).set pre.length b = pre ++ [b] ++ old ++ suf := by
        simp
      rw [hs, h]
      simp

theorem storeAll_enum (body buf : List Nat) (h : body.length ≤ buf.length) :
    storeAll buf body.enum = body ++ buf.drop body.length := by
  have h1 := storeAll_enumFrom body [] (buf.take body.length) (buf.drop body.length)
    (by simp; omega)
  simpa [List.enum] using h1

theorem writeString_data (snd : Nat → Send) (s : ArSocket) (msg : List Nat) :
    (writeString snd s msg).2.wire = s.wire ++
      [⟨(cstr msg).take (writeBufSize - 3 - 1) ++
          (if s.myStringWrongEndChars then [10, 13] else [13, 10]),
        ((cstr msg).take (writeBufSize - 3 - 1)).length + 2⟩] := by
  unfold writeString
  simp only [write_wire]
  cases s.myStringWrongEndChars <;> simp

theorem storeAll_ends (body rest : List Nat) (c1 c2 r1 r2 : Nat) :
    storeAll (body ++ r1 :: r2 :: rest)
        [(body.length, 0), (body.length, c1), (body.length + 1, c2)]
      = body ++ c1 :: c2 :: rest := by
  simp [storeAll]

/-- C16: whatever the length of the formatted message, `writeString` keeps at
most 9996 of its bytes (hence at most 9997); every index it stores to in the
local array of 10000 bytes (message bytes, the NUL of `vsnprintf`, the two end
characters and the NUL stored after the `write`) is below 10000; it hands to
`write` at most 9998 bytes (hence never more than 9999), namely the front of
the array as the stores made before the `write` left it. -/
theorem writeString_bounds (snd : Nat → Send) (s : ArSocket) (msg buf0 : List Nat)
    (hbuf : buf0.length = writeBufSize) :
    ((cstr msg).take (writeBufSize - 3 - 1)).length ≤ 9996
      ∧ ((cstr msg).take (writeBufSize - 3 - 1)).length ≤ 9997
      ∧ (∀ p ∈ writeStringStores s msg, p.1 < writeBufSize)
      ∧ ∃ d l, (writeString snd s msg).2.wire = s.wire ++ [⟨d, l⟩]
          ∧ l ≤ 9998 ∧ l ≤ 9999 ∧ d.length = l
          ∧ (storeAll buf0 (writeStringStores s msg).dropLast).take l = d := by
  have hlen : ((cstr msg).take (writeBufSize - 3 - 1)).length ≤ 9996 := by
    rw [List.length_take]
    exact Nat.min_le_left _ _
  refine ⟨hlen, by omega, ?_, _, _, writeString_data snd s msg, by omega, by omega, ?_, ?_⟩
  · intro p hp
    unfold writeStringStores at hp
    simp only [List.mem_append, List.mem_singleton] at hp
    rcases hp with ((hp | hp) | hp) | hp
    · have := List.fst_lt_of_mem_enum hp
      show p.1 < 10000
      omega
    · rw [hp]
      show _ < 10000
      omega
    · have hterm : ∀ (w : Bool) (n : Nat),
          ∀ q ∈ (if w = true then [(n, 10), (n + 1, 13)] else [(n, 13), (n + 1, 10)] :
            List (Nat × Nat)), q.1 ≤ n + 1 := by
        intro w n q hq
        cases w <;> simp at hq <;> rcases hq with rfl | rfl <;> simp
      have := hterm _ _ p hp
      show p.1 < 10000
      omega
    · rw [hp]
      show _ < 10000
      omega
  · cases s.myStringWrongEndChars <;> simp
  · generalize hb : (cstr msg).take (writeBufSize - 3 - 1) = body at hlen
    have hdrop : 4 ≤ (buf0.drop body.length).length := by
      rw [List.length_drop, hbuf]
      show 4 ≤ 10000 - body.length
      omega
    obtain ⟨r1, r2, rest, hr⟩ : ∃ r1 r2 rest, buf0.drop body.length = r1 :: r2 :: rest := by
      match h : buf0.drop body.length with
      | [] => rw [h] at hdrop; simp at hdrop
      | [_] => rw [h] at hdrop; simp at hdrop
      | r1 :: r2 :: rest => exact ⟨r1, r2, rest, rfl⟩
    have hstores : ∀ c1 c2 : Nat,
        (storeAll buf0 (body.enum ++ [(body.length, 0)] ++
            [(body.length, c1), (body.length + 1, c2)])).take (body.length + 2)
          = body ++ [c1, c2] := by
      intro c1 c2
      rw [List.append_assoc, storeAll_append,
        storeAll_enum body buf0 (by rw [hbuf]; show _ ≤ 10000; omega), hr]
      have := storeAll_ends body rest c1 c2 r1 r2
      simp only [List.singleton_append] at this ⊢
      rw [this]
      have h2 : body ++ c1 :: c2 :: rest = (body ++ [c1, c2]) ++ rest := by simp
      rw [h2, List.take_left' (by simp)]
    unfold writeStringStores
    simp only [hb]
    cases s.myStringWrongEndChars
    · simpa using hstores 13 10
    · simpa using hstores 10 13

/-- C16, on the message `"hello"` and an array of zero bytes. -/
theorem writeString_bounds_witness :
    (List.replicate writeBufSize 0).length = writeBufSize
      ∧ (∀ p ∈ writeStringStores (freshSocket 8) [104, 101, 108, 108, 111],
          p.1 < writeBufSize) :=
  ⟨List.length_replicate _ _,
    (writeString_bounds (sendOk 7) (freshSocket 8) [104, 101, 108, 108, 111]
      (List.replicate writeBufSize 0) (List.length_replicate _ _)).2.2.1⟩

/-! ## `doStringEcho` -/

theorem doStringEcho_disabled (snd : Nat → Send) (s : ArSocket)
    (h1 : s.myStringAutoEcho = false) (h2 : s.myStringEcho = false) :
    doStringEcho snd s = s := by
  unfold doStringEcho
  simp [h1, h2]

theorem doStringEcho_wire_quiet (snd : Nat → Send) (s : ArSocket)
    (hen : ¬ (s.myStringAutoEcho = false ∧ s.myStringEcho = false))
    (h : s.myStringPosLast = s.myStringPos
      ∨ (s.myStringAutoEcho = true ∧ s.myStringGotEscapeChars = true)) :
    (doStringEcho snd s).wire = s.wire ++
        (if s.myStringHaveEchoed = true ∧ s.myStringGotComplete = true then
          [(⟨[10, 13], 2⟩ : WriteCall)] else [])
      ∧ (doStringEcho snd s).myStringPosLast = s.myStringPosLast
      ∧ (doStringEcho snd s).myStringHaveEchoed = s.myStringHaveEchoed := by
  have hen' : ¬ ((!s.myStringAutoEcho && !s.myStringEcho) = true) := by
    simpa using hen
  unfold doStringEcho
  simp only [write_eq, if_neg hen']
  by_cases hc : (s.myStringHaveEchoed && s.myStringGotComplete) = true
  · have hc' : s.myStringHaveEchoed = true ∧ s.myStringGotComplete = true := by
      simpa using hc
    simp only [hc, hc', if_true, and_self]
    rcases h with h | h
    · simp [h]
    · by_cases hp : s.myStringPosLast = s.myStringPos
      · simp [hp]
      · simp [hp, h.1, h.2]
  · have hc' : ¬ (s.myStringHaveEchoed = true ∧ s.myStringGotComplete = true) := by
      simpa using hc
    simp only [hc, hc', if_false]
    rcases h with h | h
    · simp [h]
    · by_cases hp : s.myStringPosLast = s.myStringPos
      · simp [hp]
      · simp [hp, h.1, h.2]

theorem echo_length (p q : Nat) (h : q ≤ p) (hp : p < sizeMod) :
    (p + sizeMod - q) % sizeMod = p - q := by
  have h1 : p + sizeMod - q = (p - q) + sizeMod := by omega
  rw [h1, Nat.add_mod_right, Nat.mod_eq_of_lt (by omega)]

theorem doStringEcho_wire_payload (snd : Nat → Send) (s : ArSocket)
    (hen : ¬ (s.myStringAutoEcho = false ∧ s.myStringEcho = false))
    (hlt : s.myStringPosLast < s.myStringPos) (hsz : s.myStringPos < sizeMod)
    (hq : ¬ (s.myStringAutoEcho = true ∧ s.myStringGotEscapeChars = true)) :
    (doStringEcho snd s).wire = s.wire ++
        (if s.myStringHaveEchoed = true ∧ s.myStringGotComplete = true then
          [(⟨[10, 13], 2⟩ : WriteCall)] else [])
        ++ [⟨(s.myStringBuf.drop s.myStringPosLast).take
              (s.myStringPos - s.myStringPosLast),
            s.myStringPos - s.myStringPosLast⟩]
      ∧ (doStringEcho snd s).myStringPosLast = s.myStringPos
      ∧ (doStringEcho snd s).myStringHaveEchoed = true := by
  have hen' : ¬ ((!s.myStringAutoEcho && !s.myStringEcho) = true) := by
    simpa using hen
  have hq' : ¬ ((s.myStringAutoEcho && s.myStringGotEscapeChars) = true) := by
    simpa using hq
  have hp : ¬ s.myStringPosLast = s.myStringPos := by omega
  have hl := echo_length s.myStringPos s.myStringPosLast hlt.le hsz
  unfold doStringEcho
  simp only [write_eq, if_neg hen']
  by_cases hc : (s.myStringHaveEchoed && s.myStringGotComplete) = true
  · have hc' : s.myStringHaveEchoed = true ∧ s.myStringGotComplete = true := by
      simpa using hc
    simp only [hc, hc', if_true, and_self]
    simp [hp, hq', hl]
  · have hc' : ¬ (s.myStringHaveEchoed = true ∧ s.myStringGotComplete = true) := by
      simpa using hc
    simp only [hc, hc', if_false]
    simp [hp, hq', hl]

/-- C14 fails on the code, through the defect of C18: in the state reached from
a fresh socket by a `readString` that receives `"ab"` and a would-block, and a
`clearPartialReadString`, echo is enabled, `myStringPosLast = 2` differs from
`myStringPos = 0`, no escape byte was seen, and the range `[2, 0)` of the buffer
is empty; yet `doStringEcho` calls `write(&myStringBuf[2], 2 ^ 64 - 2)`, which
takes the six bytes up to the end of the array and more. -/
theorem doStringEcho_underflow :
    (applyCalls (sendOk 1) (freshSocket 8)
        [Call.readString [Recv.data 97, Recv.data 98, Recv.error EAGAIN],
          Call.clearPartialReadString]).myStringAutoEcho = true
    ∧ (applyCalls (sendOk 1) (freshSocket 8)
        [Call.readString [Recv.data 97, Recv.data 98, Recv.error EAGAIN],
          Call.clearPartialReadString]).myStringGotEscapeChars = false
    ∧ (applyCalls (sendOk 1) (freshSocket 8)
        [Call.readString [Recv.data 97, Recv.data 98, Recv.error EAGAIN],
          Call.clearPartialReadString]).myStringPosLast = 2
    ∧ (applyCalls (sendOk 1) (freshSocket 8)
        [Call.readString [Recv.data 97, Recv.data 98, Recv.error EAGAIN],
          Call.clearPartialReadString]).myStringPos = 0
    ∧ ((applyCalls (sendOk 1) (freshSocket 8)
        [Call.readString [Recv.data 97, Recv.data 98, Recv.error EAGAIN],
          Call.clearPartialReadString]).myStringBuf.take 0).drop 2 = []
    ∧ (doStringEcho (sendOk 1) (applyCalls (sendOk 1) (freshSocket 8)
        [Call.readString [Recv.data 97, Recv.data 98, Recv.error EAGAIN],
          Call.clearPartialReadString])).wire
        = [⟨[97, 98], 2⟩, ⟨[0, 0, 0, 0, 0, 0], 2 ^ 64 - 2⟩] :=
  ⟨rfl, rfl, rfl, rfl, rfl, by decide⟩

/-! ## The escape flag and the echo -/

theorem accept_escape_mono (s : ArSocket) (i b : Nat)
    (h : s.myStringGotEscapeChars = true) : (accept s i b).myStringGotEscapeChars = true := by
  unfold accept
  simp only []
  split_ifs
  · rfl
  · simpa using h

theorem accept_zero_escape (s : ArSocket) (b : Nat) (hb : isNeg b = true)
    (hcap : 0 < s.myStringBuf.length) : (accept s 0 b).myStringGotEscapeChars = true := by
  have hg : (readAt s 0 (Recv.data b)).2.myStringBuf.getD 0 0 = b := by
    rw [readAt_myStringBuf]
    exact getD_set_self _ _ _ hcap
  unfold accept
  simp only [hg, hb]
  simp

theorem finishLine_escape_mono (snd : Nat → Send) (s : ArSocket) (i : Nat)
    (h : s.myStringGotEscapeChars = true) :
    (finishLine snd s i).2.myStringGotEscapeChars = true := by
  unfold finishLine
  simp only []
  split_ifs <;> simp [h]

theorem finishLine_quiet (snd : Nat → Send) (s : ArSocket) (i : Nat)
    (hauto : s.myStringAutoEcho = true) (hesc : s.myStringGotEscapeChars = true) :
    ∃ ext, (finishLine snd s i).2.wire = s.wire ++ ext
      ∧ ∀ c ∈ ext, NoPayload s.myStringWrongEndChars c := by
  unfold finishLine
  simp only []
  split_ifs
  all_goals
    refine ⟨_, (doStringEcho_wire_quiet snd _ (by simp [hauto])
      (Or.inr ⟨by simpa using hauto, by simp [hesc]⟩)).1, ?_⟩
    intro c hc
    split_ifs at hc
    · simp only [List.mem_singleton] at hc
      exact Or.inl hc
    · simp at hc

theorem quietFrom_refl (wrong : Bool) (w : List WriteCall) : QuietFrom wrong w w :=
  ⟨[], by simp, by simp⟩

theorem quietFrom_trans (wrong : Bool) (w0 w1 w2 : List WriteCall)
    (h1 : QuietFrom wrong w0 w1) (h2 : QuietFrom wrong w1 w2) : QuietFrom wrong w0 w2 := by
  obtain ⟨e1, rfl, he1⟩ := h1
  obtain ⟨e2, rfl, he2⟩ := h2
  refine ⟨e1 ++ e2, by simp, ?_⟩
  intro c hc
  rcases List.mem_append.mp hc with hc | hc
  · exact he1 c hc
  · exact he2 c hc

theorem doStringEcho_quiet (snd : Nat → Send) (s : ArSocket)
    (hauto : s.myStringAutoEcho = true) (hesc : s.myStringGotEscapeChars = true) :
    QuietFrom s.myStringWrongEndChars s.wire (doStringEcho snd s).wire := by
  refine ⟨_, (doStringEcho_wire_quiet snd s (by simp [hauto]) (Or.inr ⟨hauto, hesc⟩)).1, ?_⟩
  intro c hc
  split_ifs at hc
  · simp only [List.mem_singleton] at hc
    exact Or.inl hc
  · simp at hc

theorem overflow_quiet (snd : Nat → Send) (s : ArSocket) :
    QuietFrom s.myStringWrongEndChars s.wire (writeString snd s stringTooLong).2.wire := by
  refine ⟨_, writeString_wire snd s stringTooLong (by decide) (by decide), ?_⟩
  intro c hc
  simp only [List.mem_singleton] at hc
  exact Or.inr (by rw [hc]; rfl)

/-- Once auto-echo is on and the escape flag is set, a call of `readString`
keeps both and writes nothing but line-end echoes and the overflow message. -/
theorem readStringFrom_quiet (snd : Nat → Send) (evs : List Recv) (s : ArSocket) (i : Nat)
    (o : Outcome) (s' : ArSocket) (rest : List Recv)
    (hauto : s.myStringAutoEcho = true) (hesc : s.myStringGotEscapeChars = true)
    (h : readStringFrom snd evs s i = some (o, s', rest)) :
    s'.myStringAutoEcho = true ∧ s'.myStringGotEscapeChars = true
      ∧ s'.myStringWrongEndChars = s.myStringWrongEndChars
      ∧ QuietFrom s.myStringWrongEndChars s.wire s'.wire := by
  induction evs generalizing s i with
  | nil =>
    by_cases hi : i < s.myStringBuf.length
    · simp [readStringFrom, hi] at h
    · rw [readStringFrom_full snd s i [] (by omega)] at h
      simp only [Option.some.injEq, Prod.mk.injEq] at h
      obtain ⟨-, rfl, -⟩ := h
      exact ⟨by simpa using hauto, by simpa using hesc, by simp, overflow_quiet snd s⟩
  | cons ev evs ih =>
    by_cases hi : i < s.myStringBuf.length
    · cases ev with
      | data b =>
        have ha : (accept s i b).myStringAutoEcho = true := by simpa using hauto
        have he := accept_escape_mono s i b hesc
        rw [readStringFrom_data snd s i b evs hi] at h
        split_ifs at h with h1 h2 h3
        · simpa using ih _ _ ha he h
        · simp only [Option.some.injEq, Prod.mk.injEq] at h
          obtain ⟨-, rfl, -⟩ := h
          refine ⟨by simpa using hauto, finishLine_escape_mono _ _ _ he, by simp, ?_⟩
          simpa using finishLine_quiet snd (accept s i b) i ha he
        · simpa using ih (enter (accept s i b)) _ ha he h
        · simpa using ih _ _ ha he h
      | zero =>
        rw [readStringFrom_zero snd s i evs hi] at h
        simp only [Option.some.injEq, Prod.mk.injEq] at h
        obtain ⟨-, rfl, -⟩ := h
        exact ⟨hauto, hesc, rfl, quietFrom_refl _ _⟩
      | error e =>
        rw [readStringFrom_error snd s i e evs hi] at h
        split_ifs at h
        · simp only [Option.some.injEq, Prod.mk.injEq] at h
          obtain ⟨-, rfl, -⟩ := h
          refine ⟨by simpa using hauto, by simpa using hesc, by simp, ?_⟩
          simpa using doStringEcho_quiet snd
            { (readAt s i (Recv.error e)).2 with myStringPos := i }
            (by simpa using hauto) (by simpa using hesc)
        · simp only [Option.some.injEq, Prod.mk.injEq] at h
          obtain ⟨-, rfl, -⟩ := h
          exact ⟨by simpa using hauto, by simpa using hesc, by simp,
            by simpa using quietFrom_refl s.myStringWrongEndChars s.wire⟩
    · rw [readStringFrom_full snd s i _ (by omega)] at h
      simp only [Option.some.injEq, Prod.mk.injEq] at h
      obtain ⟨-, rfl, -⟩ := h
      exact ⟨by simpa using hauto, by simpa using hesc, by simp, overflow_quiet snd s⟩

theorem readStringFrom_escape_mono (snd : Nat → Send) (evs : List Recv) (s : ArSocket)
    (i : Nat) (o : Outcome) (s' : ArSocket) (rest : List Recv)
    (hesc : s.myStringGotEscapeChars = true)
    (h : readStringFrom snd evs s i = some (o, s', rest)) :
    s'.myStringGotEscapeChars = true ∧ s'.myStringAutoEcho = s.myStringAutoEcho := by
  induction evs generalizing s i with
  | nil =>
    by_cases hi : i < s.myStringBuf.length
    · simp [readStringFrom, hi] at h
    · rw [readStringFrom_full snd s i [] (by omega)] at h
      simp only [Option.some.injEq, Prod.mk.injEq] at h
      obtain ⟨-, rfl, -⟩ := h
      exact ⟨by simpa using hesc, by simp⟩
  | cons ev evs ih =>
    by_cases hi : i < s.myStringBuf.length
    · cases ev with
      | data b =>
        have he := accept_escape_mono s i b hesc
        rw [readStringFrom_data snd s i b evs hi] at h
        split_ifs at h with h1 h2 h3
        · simpa using ih _ _ he h
        · simp only [Option.some.injEq, Prod.mk.injEq] at h
          obtain ⟨-, rfl, -⟩ := h
          exact ⟨finishLine_escape_mono _ _ _ he, by simp⟩
        · simpa using ih (enter (accept s i b)) _ he h
        · simpa using ih _ _ he h
      | zero =>
        rw [readStringFrom_zero snd s i evs hi] at h
        simp only [Option.some.injEq, Prod.mk.injEq] at h
        obtain ⟨-, rfl, -⟩ := h
        exact ⟨hesc, rfl⟩
      | error e =>
        rw [readStringFrom_error snd s i e evs hi] at h
        split_ifs at h
        · simp only [Option.some.injEq, Prod.mk.injEq] at h
          obtain ⟨-, rfl, -⟩ := h
          exact ⟨by simpa using hesc, by simp⟩
        · simp only [Option.some.injEq, Prod.mk.injEq] at h
          obtain ⟨-, rfl, -⟩ := h
          exact ⟨by simpa using hesc, by simp⟩
    · rw [readStringFrom_full snd s i _ (by omega)] at h
      simp only [Option.some.injEq, Prod.mk.injEq] at h
      obtain ⟨-, rfl, -⟩ := h
      exact ⟨by simpa using hesc, by simp⟩

theorem applyCall_readString (snd : Nat → Send) (s : ArSocket) (evs : List Recv) :
    applyCall snd s (Call.readString evs) =
      match readString snd s evs with
      | none => s
      | some (_, s1, _) => s1 := rfl

theorem applyCall_escape_mono (snd : Nat → Send) (s : ArSocket) (c : Call)
    (hesc : s.myStringGotEscapeChars = true) :
    (applyCall snd s c).myStringGotEscapeChars = true
      ∧ (applyCall snd s c).myStringAutoEcho = s.myStringAutoEcho := by
  cases c with
  | readString evs =>
    rw [applyCall_readString]
    cases hr : readString snd s evs with
    | none => exact ⟨hesc, rfl⟩
    | some r =>
      obtain ⟨o, s1, rest⟩ := r
      rw [readString_eq] at hr
      simpa using readStringFrom_escape_mono snd evs _ _ o s1 rest (by simpa using hesc) hr
  | writeString msg => exact ⟨by simpa [applyCall] using hesc, by simp [applyCall]⟩
  | clearPartialReadString => exact ⟨hesc, rfl⟩
  | doStringEcho => exact ⟨by simpa [applyCall] using hesc, by simp [applyCall]⟩

theorem applyCall_quiet (snd : Nat → Send) (s : ArSocket) (c : Call)
    (hauto : s.myStringAutoEcho = true) (hesc : s.myStringGotEscapeChars = true)
    (hc : c.isReader = true) :
    (applyCall snd s c).myStringWrongEndChars = s.myStringWrongEndChars
      ∧ QuietFrom s.myStringWrongEndChars s.wire (applyCall snd s c).wire := by
  cases c with
  | readString evs =>
    rw [applyCall_readString]
    cases hr : readString snd s evs with
    | none => exact ⟨rfl, quietFrom_refl _ _⟩
    | some r =>
      obtain ⟨o, s1, rest⟩ := r
      rw [readString_eq] at hr
      have := readStringFrom_quiet snd evs _ _ o s1 rest (by simpa using hauto)
        (by simpa using hesc) hr
      exact ⟨by simpa using this.2.2.1, by simpa using this.2.2.2⟩
  | writeString msg => simp [Call.isReader] at hc
  | clearPartialReadString => exact ⟨rfl, quietFrom_refl _ _⟩
  | doStringEcho => exact ⟨by simp [applyCall], doStringEcho_quiet snd s hauto hesc⟩

theorem applyCalls_escape_mono (snd : Nat → Send) (cs : List Call) (s : ArSocket)
    (hesc : s.myStringGotEscapeChars = true) :
    (applyCalls snd s cs).myStringGotEscapeChars = true
      ∧ (applyCalls snd s cs).myStringAutoEcho = s.myStringAutoEcho := by
  induction cs generalizing s with
  | nil => exact ⟨hesc, rfl⟩
  | cons c cs ih =>
    have h1 := applyCall_escape_mono snd s c hesc
    have h2 := ih (applyCall snd s c) h1.1
    exact ⟨h2.1, h2.2.trans h1.2⟩

theorem applyCalls_quiet (snd : Nat → Send) (cs : List Call) (s : ArSocket)
    (hauto : s.myStringAutoEcho = true) (hesc : s.myStringGotEscapeChars = true)
    (hcs : ∀ c ∈ cs, c.isReader = true) :
    (applyCalls snd s cs).myStringWrongEndChars = s.myStringWrongEndChars
      ∧ QuietFrom s.myStringWrongEndChars s.wire (applyCalls snd s cs).wire := by
  induction cs generalizing s with
  | nil => exact ⟨rfl, quietFrom_refl _ _⟩
  | cons c cs ih =>
    have h0 := applyCall_escape_mono snd s c hesc
    have h1 := applyCall_quiet snd s c hauto hesc (hcs c (List.mem_cons_self _ _))
    have h2 := ih (applyCall snd s c) (h0.2.trans hauto) h0.1
      (fun c' hc' => hcs c' (List.mem_cons_of_mem _ hc'))
    rw [h1.1] at h2
    exact ⟨h2.1, quietFrom_trans _ _ _ _ h1.2 h2.2⟩

/-- C19: once `myStringGotEscapeChars` is set, it stays set through every
sequence of calls of `readString`, `writeString`, `clearPartialReadString` and
`doStringEcho` (a completed line included). Consequently, with auto-echo on,
`doStringEcho` in any later state performs no payload step: it writes at most
the line-end echo `"\n\r"` and leaves `myStringPosLast` alone; and all that a
later sequence of reader calls hands to `write` are line-end echoes and the
overflow message. -/
theorem gotEscapeChars_monotone (snd : Nat → Send) (s : ArSocket) (cs : List Call)
    (hesc : s.myStringGotEscapeChars = true) :
    (applyCalls snd s cs).myStringGotEscapeChars = true
      ∧ (s.myStringAutoEcho = true →
          ((doStringEcho snd (applyCalls snd s cs)).wire = (applyCalls snd s cs).wire ++
              (if (applyCalls snd s cs).myStringHaveEchoed = true
                  ∧ (applyCalls snd s cs).myStringGotComplete = true then
                [(⟨[10, 13], 2⟩ : WriteCall)] else [])
            ∧ (doStringEcho snd (applyCalls snd s cs)).myStringPosLast
                = (applyCalls snd s cs).myStringPosLast)
          ∧ ((∀ c ∈ cs, c.isReader = true) →
              QuietFrom s.myStringWrongEndChars s.wire (applyCalls snd s cs).wire)) := by
  have h := applyCalls_escape_mono snd cs s hesc
  refine ⟨h.1, fun hauto => ⟨?_, fun hcs => (applyCalls_quiet snd cs s hauto hesc hcs).2⟩⟩
  have hq := doStringEcho_wire_quiet snd (applyCalls snd s cs)
    (by rw [h.2, hauto]; simp) (Or.inr ⟨h.2.trans hauto, h.1⟩)
  exact ⟨hq.1, hq.2.1⟩

/-- C19, on a socket whose escape flag is set: the flag survives a partial line,
a clear, a written line and an echo. -/
theorem gotEscapeChars_monotone_witness :
    ({ freshSocket 8 with myStringGotEscapeChars := true }).myStringGotEscapeChars = true
      ∧ (applyCalls (sendOk 1) { freshSocket 8 with myStringGotEscapeChars := true }
          [Call.readString [Recv.data 65, Recv.error EAGAIN], Call.clearPartialReadString,
            Call.writeString [104, 105], Call.doStringEcho,
            Call.readString [Recv.data 66, Recv.data 10]]).myStringGotEscapeChars = true :=
  ⟨rfl,
    (gotEscapeChars_monotone (sendOk 1) { freshSocket 8 with myStringGotEscapeChars := true }
      [Call.readString [Recv.data 65, Recv.error EAGAIN], Call.clearPartialReadString,
        Call.writeString [104, 105], Call.doStringEcho,
        Call.readString [Recv.data 66, Recv.data 10]] rfl).1⟩

theorem readManyState_quiet (snd : Nat → Send) (n : Nat) :
    ∀ (s : ArSocket) (evs : List Recv), s.myStringAutoEcho = true →
      s.myStringGotEscapeChars = true →
      QuietFrom s.myStringWrongEndChars s.wire (readManyState snd n s evs).wire := by
  induction n with
  | zero =>
    intro s evs _ _
    exact quietFrom_refl _ _
  | succ n ih =>
    intro s evs hauto hesc
    rw [readManyState]
    cases hr : readString snd s evs with
    | none => exact quietFrom_refl _ _
    | some r =>
      obtain ⟨o, s1, rest⟩ := r
      rw [readString_eq] at hr
      have h1 := readStringFrom_quiet snd evs _ _ o s1 rest (by simpa using hauto)
        (by simpa using hesc) hr
      have h2 := ih s1 rest h1.1 h1.2.1
      rw [h1.2.2.1] at h2
      exact quietFrom_trans _ _ _ _ (by simpa using h1.2.2.2) (by simpa using h2)

theorem readStringFrom_skips (snd : Nat → Send) (terms : List Nat)
    (hterm : ∀ t ∈ terms, t = 10 ∨ t = 13) :
    ∀ (s : ArSocket) (rest : List Recv), s.myStringPos = 0 → 0 < s.myStringBuf.length →
      ∃ s1, readStringFrom snd (terms.map Recv.data ++ rest) s 0
          = readStringFrom snd rest s1 0
        ∧ s1.myStringPos = 0 ∧ s1.myStringBuf.length = s.myStringBuf.length
        ∧ s1.wire = s.wire ∧ s1.myStringAutoEcho = s.myStringAutoEcho
        ∧ s1.myStringWrongEndChars = s.myStringWrongEndChars := by
  induction terms with
  | nil =>
    intro s rest hpos _
    exact ⟨s, rfl, hpos, rfl, rfl, rfl, rfl⟩
  | cons t terms ih =>
    intro s rest hpos hcap
    have ht := hterm t (List.mem_cons_self _ _)
    have hwrap : ((0 + sizeMod - 1) % sizeMod + 1) % sizeMod = 0 := by decide
    have hp : (accept s 0 t).myStringPos = 0 := by simpa using hpos
    rw [List.map_cons, List.cons_append, readStringFrom_data snd s 0 t _ hcap, hwrap, hp]
    by_cases h1 : (accept s 0 t).myStringIgnoreReturn = true ∧ t = 13
    · rw [if_pos h1]
      obtain ⟨s1, e1, e2, e3, e4, e5, e6⟩ := ih (fun x hx => hterm x (List.mem_cons_of_mem _ hx))
        (accept s 0 t) rest hp (by simpa using hcap)
      exact ⟨s1, e1, e2, by simpa using e3, by simpa using e4, by simpa using e5,
        by simpa using e6⟩
    · rw [if_neg h1, if_pos ht, if_neg (by simp)]
      obtain ⟨s1, e1, e2, e3, e4, e5, e6⟩ := ih (fun x hx => hterm x (List.mem_cons_of_mem _ hx))
        (enter (accept s 0 t)) rest (by simpa using hpos) (by simpa using hcap)
      exact ⟨s1, e1, e2, by simpa using e3, by simpa using e4, by simpa using e5,
        by simpa using e6⟩

theorem noPayload_low (wrong : Bool) (c : WriteCall) (h : NoPayload wrong c) :
    ∀ x ∈ c.data, isNeg x = false := by
  rcases h with rfl | rfl
  · decide
  · cases wrong <;> decide

/-- C11: with auto-echo on, let a line start at position 0 with a high-bit byte
`b` (line ends skipped at index 0 may come before it in the same call), and let
any events follow: the rest of the line in any fragmentation, and later lines.
Then whatever the repeated calls of `readString` hand to `write` from there on
is a line-end echo `"\n\r"` or the overflow message: no byte of the line buffer,
hence no byte of the escape run, and no high-bit byte at all, is written
back. -/
theorem escape_run_not_echoed (snd : Nat → Send) (s : ArSocket) (terms : List Nat) (b : Nat)
    (evs : List Recv) (n : Nat) (hauto : s.myStringAutoEcho = true)
    (hpos : s.myStringPos = 0) (hcap : 0 < s.myStringBuf.length)
    (hterm : ∀ t ∈ terms, t = 10 ∨ t = 13) (hb : isNeg b = true) :
    QuietFrom s.myStringWrongEndChars s.wire
        (readManyState snd n s (terms.map Recv.data ++ Recv.data b :: evs)).wire
      ∧ ∀ c ∈ (readManyState snd n s
            (terms.map Recv.data ++ Recv.data b :: evs)).wire.drop s.wire.length,
          ∀ x ∈ c.data, isNeg x = false := by
  have hq : QuietFrom s.myStringWrongEndChars s.wire
      (readManyState snd n s (terms.map Recv.data ++ Recv.data b :: evs)).wire := by
    cases n with
    | zero => exact quietFrom_refl _ _
    | succ n =>
      rw [readManyState]
      cases hr : readString snd s (terms.map Recv.data ++ Recv.data b :: evs) with
      | none => exact quietFrom_refl _ _
      | some r =>
        obtain ⟨o, s2, rest⟩ := r
        rw [readString_eq, hpos] at hr
        obtain ⟨s1, e1, e2, e3, e4, e5, e6⟩ := readStringFrom_skips snd terms hterm (enter s)
          (Recv.data b :: evs) hpos hcap
        have hb128 : 128 ≤ b := by simpa [isNeg] using hb
        have hcap1 : 0 < s1.myStringBuf.length := by rw [e3]; exact hcap
        rw [e1, readStringFrom_data snd s1 0 b evs hcap1,
          if_neg (by omega), if_neg (by omega)] at hr
        have h1 := readStringFrom_quiet snd evs _ _ o s2 rest
          (by simpa [e5] using hauto) (accept_zero_escape s1 b hb hcap1) hr
        simp only [accept_myStringWrongEndChars, accept_wire, e4, e6, enter_wire,
          enter_myStringWrongEndChars] at h1
        have h2 := readManyState_quiet snd n s2 rest h1.1 h1.2.1
        rw [h1.2.2.1] at h2
        exact quietFrom_trans _ _ _ _ h1.2.2.2 h2
  refine ⟨hq, ?_⟩
  obtain ⟨ext, hext, hall⟩ := hq
  rw [hext, List.drop_left]
  exact fun c hc => noPayload_low _ c (hall c hc)

/-- C11, on the input `0x80 0x81 'O' 'K' CR LF` cut by would-block results:
the writes of the four calls carry no high-bit byte. -/
theorem escape_run_not_echoed_witness :
    (freshSocket 8).myStringAutoEcho = true ∧ isNeg 128 = true
      ∧ ∀ c ∈ (readManyState (sendOk 1) 4 (freshSocket 8)
            (([] : List Nat).map Recv.data ++ Recv.data 128 ::
              [Recv.error EAGAIN, Recv.data 129, Recv.data 79, Recv.error EAGAIN,
                Recv.data 75, Recv.data 13, Recv.data 10])).wire.drop
            (freshSocket 8).wire.length,
          ∀ x ∈ c.data, isNeg x = false :=
  ⟨rfl, rfl,
    (escape_run_not_echoed (sendOk 1) (freshSocket 8) [] 128
      [Recv.error EAGAIN, Recv.data 129, Recv.data 79, Recv.error EAGAIN,
        Recv.data 75, Recv.data 13, Recv.data 10] 4 rfl rfl (by decide) (by simp) rfl).2⟩

/-! ## The ignore-return mode -/

theorem index_wrap (i : Nat) (h : i < sizeMod) :
    ((i + sizeMod - 1) % sizeMod + 1) % sizeMod = i := by
  unfold sizeMod at h ⊢
  omega

theorem set_getD_self (l : List Nat) (i : Nat) : l.set i (l.getD i 0) = l := by
  induction l generalizing i with
  | nil => rfl
  | cons x t ih =>
    cases i with
    | zero => rfl
    | succ i =>
      have := ih i
      simp only [List.getD_eq_getElem?_getD] at this
      simp [this]

theorem setCellAt_self (s : ArSocket) (i : Nat) :
    setStats (setCellAt s i (s.myStringBuf.getD i 0)) s.myRecvs s.myBytesRecvd = s := by
  unfold setStats setCellAt
  rw [set_getD_self]

theorem accept_setCellAt (s : ArSocket) (i c x : Nat) :
    accept (setCellAt s i c) i x = accept s i x := by
  have key : (readAt (setCellAt s i c) i (Recv.data x)).2 = (readAt s i (Recv.data x)).2 := by
    unfold readAt read setCellAt
    simp [Recv.ret, List.set_set]
  unfold accept
  rw [key]

theorem readStringFrom_return (snd : Nat → Send) (s : ArSocket) (i : Nat) (rest : List Recv)
    (hign : s.myStringIgnoreReturn = true) (hi : i < s.myStringBuf.length)
    (hcap : s.myStringBuf.length ≤ sizeMod) :
    readStringFrom snd (Recv.data 13 :: rest) s i
      = readStringFrom snd rest (accept s i 13) i := by
  rw [readStringFrom_data snd s i 13 rest hi, if_pos ⟨by simpa using hign, rfl⟩,
    index_wrap i (by omega)]

@[simp]
theorem setCellAt_myStringBufEmpty (s : ArSocket) (i c : Nat) :
    (setCellAt s i c).myStringBufEmpty = s.myStringBufEmpty := rfl

@[simp]
theorem setCellAt_myStringPos (s : ArSocket) (i c : Nat) :
    (setCellAt s i c).myStringPos = s.myStringPos := rfl

@[simp]
theorem setCellAt_myStringPosLast (s : ArSocket) (i c : Nat) :
    (setCellAt s i c).myStringPosLast = s.myStringPosLast := rfl

@[simp]
theorem setCellAt_myStringGotComplete (s : ArSocket) (i c : Nat) :
    (setCellAt s i c).myStringGotComplete = s.myStringGotComplete := rfl

@[simp]
theorem setCellAt_myStringGotEscapeChars (s : ArSocket) (i c : Nat) :
    (setCellAt s i c).myStringGotEscapeChars = s.myStringGotEscapeChars := rfl

@[simp]
theorem setCellAt_myStringHaveEchoed (s : ArSocket) (i c : Nat) :
    (setCellAt s i c).myStringHaveEchoed = s.myStringHaveEchoed := rfl

@[simp]
theorem setCellAt_myStringAutoEcho (s : ArSocket) (i c : Nat) :
    (setCellAt s i c).myStringAutoEcho = s.myStringAutoEcho := rfl

@[simp]
theorem setCellAt_myStringEcho (s : ArSocket) (i c : Nat) :
    (setCellAt s i c).myStringEcho = s.myStringEcho := rfl

@[simp]
theorem setCellAt_myStringIgnoreReturn (s : ArSocket) (i c : Nat) :
    (setCellAt s i c).myStringIgnoreReturn = s.myStringIgnoreReturn := rfl

@[simp]
theorem setCellAt_myStringWrongEndChars (s : ArSocket) (i c : Nat) :
    (setCellAt s i c).myStringWrongEndChars = s.myStringWrongEndChars := rfl

@[simp]
theorem setCellAt_myLogWriteStrings (s : ArSocket) (i c : Nat) :
    (setCellAt s i c).myLogWriteStrings = s.myLogWriteStrings := rfl

@[simp]
theorem setCellAt_myErrorTracking (s : ArSocket) (i c : Nat) :
    (setCellAt s i c).myErrorTracking = s.myErrorTracking := rfl

@[simp]
theorem setCellAt_myNonBlocking (s : ArSocket) (i c : Nat) :
    (setCellAt s i c).myNonBlocking = s.myNonBlocking := rfl

@[simp]
theorem setCellAt_myFakeWrites (s : ArSocket) (i c : Nat) :
    (setCellAt s i c).myFakeWrites = s.myFakeWrites := rfl

@[simp]
theorem setCellAt_myBadRead (s : ArSocket) (i c : Nat) :
    (setCellAt s i c).myBadRead = s.myBadRead := rfl

@[simp]
theorem setCellAt_myBadWrite (s : ArSocket) (i c : Nat) :
    (setCellAt s i c).myBadWrite = s.myBadWrite := rfl

@[simp]
theorem setCellAt_mySends (s : ArSocket) (i c : Nat) :
    (setCellAt s i c).mySends = s.mySends := rfl

@[simp]
theorem setCellAt_myBytesSent (s : ArSocket) (i c : Nat) :
    (setCellAt s i c).myBytesSent = s.myBytesSent := rfl

@[simp]
theorem setCellAt_myRecvs (s : ArSocket) (i c : Nat) :
    (setCellAt s i c).myRecvs = s.myRecvs := rfl

@[simp]
theorem setCellAt_myBytesRecvd (s : ArSocket) (i c : Nat) :
    (setCellAt s i c).myBytesRecvd = s.myBytesRecvd := rfl

@[simp]
theorem setCellAt_wire (s : ArSocket) (i c : Nat) :
    (setCellAt s i c).wire = s.wire := rfl

@[simp]
theorem setCellAt_myStringBuf (s : ArSocket) (i c : Nat) :
    (setCellAt s i c).myStringBuf = s.myStringBuf.set i c := rfl

theorem setStats_eq_cell (t : ArSocket) (j a b : Nat) :
    setStats t a b = setStats (setCellAt t j (t.myStringBuf.getD j 0)) a b := by
  unfold setStats setCellAt
  rw [set_getD_self]

/-- With ignore-return on, the received CR bytes, the content of the cell at the
loop index and the receive counters have no influence on the outcome of
`readString` and on the resulting position. -/
theorem readStringFrom_filter (snd : Nat → Send) (evs : List Recv) :
    ∀ (s : ArSocket) (i c a b : Nat), s.myStringIgnoreReturn = true →
      s.myStringBuf.length ≤ sizeMod →
      (readStringFrom snd evs (setStats (setCellAt s i c) a b) i).map outcomeAndPos
        = (readStringFrom snd (evs.filter notReturn) s i).map outcomeAndPos := by
  induction evs with
  | nil =>
    intro s i c a b _ _
    by_cases hi : i < s.myStringBuf.length
    · simp [readStringFrom, hi]
    · rw [List.filter_nil, readStringFrom_full snd _ i [] (by simpa using hi),
        readStringFrom_full snd s i [] (by omega)]
      simp [outcomeAndPos]
  | cons ev evs ih =>
    intro s i c a b hign hcap
    by_cases hi : i < s.myStringBuf.length
    · have hi' : i < (setStats (setCellAt s i c) a b).myStringBuf.length := by simpa using hi
      cases ev with
      | data x =>
        by_cases hx : x = 13
        · subst hx
          have hf : (Recv.data 13 :: evs).filter notReturn = evs.filter notReturn := by
            simp [notReturn]
          rw [hf, readStringFrom_return snd _ i evs (by simpa using hign) hi'
            (by simpa using hcap), accept_setStats, accept_setCellAt]
          have hc : accept s i 13 = setStats (setCellAt s i 13) (s.myRecvs + 1)
              (s.myBytesRecvd + 1) := by
            obtain ⟨g, hg⟩ := accept_shape s i 13
            have hg2 : (accept s i 13).myStringGotEscapeChars = s.myStringGotEscapeChars := by
              unfold accept
              simp only []
              split_ifs with h
              · have h2 := h.2
                rw [readAt_myStringBuf, getD_set_self _ _ _ hi] at h2
                exact absurd h2 (by decide)
              · simp
            rw [hg] at hg2 ⊢
            simp only [] at hg2
            rw [hg2]
            rfl
          rw [hc]
          exact ih s i 13 _ _ hign hcap
        · have hf : (Recv.data x :: evs).filter notReturn
              = Recv.data x :: evs.filter notReturn := by
            simp [notReturn, hx]
          rw [hf, readStringFrom_data snd _ i x evs hi', readStringFrom_data snd s i x _ hi,
            accept_setStats, accept_setCellAt]
          have hign' : (accept s i x).myStringIgnoreReturn = true := by simpa using hign
          have hcap' : (accept s i x).myStringBuf.length ≤ sizeMod := by simpa using hcap
          simp only [hx, and_false, or_false, if_false]
          by_cases ht : x = 10
          · rw [if_pos ht, if_pos ht]
            by_cases h0 : i ≠ 0
            · rw [if_pos h0, if_pos h0, finishLine_setStats]
              rfl
            · rw [if_neg h0, if_neg h0]
              rw [show enter (setStats (accept s i x) (a + 1) (b + 1))
                  = setStats (enter (accept s i x)) (a + 1) (b + 1) from rfl,
                setStats_eq_cell (enter (accept s i x)) (accept s i x).myStringPos]
              exact ih (enter (accept s i x)) _ _ _ _ (by simpa using hign)
                (by simpa using hcap)
          · rw [if_neg ht, if_neg ht, setStats_eq_cell (accept s i x) (i + 1)]
            exact ih (accept s i x) _ _ _ _ hign' hcap'
      | zero =>
        have hf : (Recv.zero :: evs).filter notReturn = Recv.zero :: evs.filter notReturn := by
          simp [notReturn]
        rw [hf, readStringFrom_zero snd _ i evs hi', readStringFrom_zero snd s i _ hi]
        rfl
      | error e =>
        have hf : (Recv.error e :: evs).filter notReturn
            = Recv.error e :: evs.filter notReturn := by
          simp [notReturn]
        rw [hf, readStringFrom_error snd _ i e evs hi', readStringFrom_error snd s i e _ hi]
        split_ifs <;> simp [outcomeAndPos]
    · rw [readStringFrom_full snd _ i _ (by simpa using hi),
        readStringFrom_full snd s i _ (by omega)]
      simp [outcomeAndPos]

/-- C15: with ignore-return on (and a buffer no longer than `size_t` can count),
a received CR is dropped at every loop index `i`, index 0 included: the loop goes
on at the same index `i`, the wrap of `i--` being undone by the `i++` of
`continue`; and for every state and every stream of events, the call of
`readString` on the stream has the same outcome, the same payload and the same
resulting `myStringPos` as the call on the stream without its CR bytes (and it
returns exactly when that one does). -/
theorem readString_ignore_return (snd : Nat → Send) (s : ArSocket) (evs : List Recv)
    (hign : s.myStringIgnoreReturn = true) (hcap : s.myStringBuf.length ≤ sizeMod) :
    (∀ i rest, i < s.myStringBuf.length →
        readStringFrom snd (Recv.data 13 :: rest) s i
          = readStringFrom snd rest (accept s i 13) i)
      ∧ (readString snd s evs).map outcomeAndPos
          = (readString snd s (evs.filter notReturn)).map outcomeAndPos := by
  refine ⟨fun i rest hi => readStringFrom_return snd s i rest hign hi hcap, ?_⟩
  rw [readString_eq, readString_eq]
  have e := setCellAt_self (enter s) s.myStringPos
  have h := readStringFrom_filter snd evs (enter s) s.myStringPos
    ((enter s).myStringBuf.getD s.myStringPos 0) (enter s).myRecvs (enter s).myBytesRecvd
    (by simpa using hign) (by simpa using hcap)
  rw [e] at h
  exact h

/-- C15, on a socket with a buffer of 4 bytes: the stream CR `a` CR LF gives the
line `"a"` as the stream `a` LF does, and a CR at index 0 leaves the loop at
index 0. -/
theorem readString_ignore_return_witness :
    (∀ i rest, i < ({ freshSocket 4 with myStringIgnoreReturn := true } : ArSocket).myStringBuf.length →
        readStringFrom (sendOk 1) (Recv.data 13 :: rest)
            { freshSocket 4 with myStringIgnoreReturn := true } i
          = readStringFrom (sendOk 1) rest
              (accept { freshSocket 4 with myStringIgnoreReturn := true } i 13) i)
      ∧ (readString (sendOk 1) { freshSocket 4 with myStringIgnoreReturn := true }
            [Recv.data 13, Recv.data 97, Recv.data 13, Recv.data 10]).map outcomeAndPos
          = some (Outcome.Complete 0 [97], 0)
      ∧ (readString (sendOk 1) { freshSocket 4 with myStringIgnoreReturn := true }
            [Recv.data 97, Recv.data 10]).map outcomeAndPos
          = some (Outcome.Complete 0 [97], 0) :=
  ⟨(readString_ignore_return (sendOk 1) { freshSocket 4 with myStringIgnoreReturn := true }
      [Recv.data 13, Recv.data 97, Recv.data 13, Recv.data 10] rfl (by decide)).1,
    rfl, rfl⟩

/-! ## The echo of the received bytes -/

theorem accept_low_escape (s : ArSocket) (i b : Nat) (hb : isNeg b = false)
    (hi : i < s.myStringBuf.length) :
    (accept s i b).myStringGotEscapeChars = s.myStringGotEscapeChars := by
  have hg : (readAt s i (Recv.data b)).2.myStringBuf.getD i 0 = b := by
    rw [readAt_myStringBuf]
    exact getD_set_self _ _ _ hi
  unfold accept
  simp only [hg, hb]
  simp

theorem acceptAll_low_escape (s : ArSocket) (i : Nat) (bs : List Nat)
    (hlow : ∀ b ∈ bs, isNeg b = false) (h : i + bs.length ≤ s.myStringBuf.length) :
    (acceptAll s i bs).myStringGotEscapeChars = s.myStringGotEscapeChars := by
  induction bs generalizing s i with
  | nil => rfl
  | cons b bs ih =>
    simp only [List.length_cons] at h
    rw [acceptAll, ih (accept s i b) (i + 1) (fun c hc => hlow c (List.mem_cons_of_mem _ hc))
      (by simp; omega), accept_low_escape s i b (hlow b (List.mem_cons_self _ _)) (by omega)]

theorem echo_range (buf bs : List Nat) (p q : Nat) (hq : q ≤ p)
    (hp : p + bs.length ≤ buf.length) :
    ((buf.take p ++ bs ++ buf.drop (p + bs.length)).drop q).take (p + bs.length - q)
      = (buf.drop q).take (p - q) ++ bs := by
  have h1 : (buf.take p).length = p := by simp; omega
  rw [List.append_assoc, List.drop_append_of_le_length (by omega), ← List.append_assoc,
    List.take_left', List.drop_take]
  simp only [List.length_append, List.length_drop, h1]
  omega

/-- A call that receives the plain bytes `bs` and then a would-block result
returns `Partial` and echoes, in one write, the bytes of the buffer from
`myStringPosLast` on: those of earlier calls not yet echoed, then `bs`. -/
theorem readString_pending_echo (snd : Nat → Send) (s : ArSocket) (bs : List Nat)
    (rest : List Recv)
    (hen : s.myStringAutoEcho = true ∨ s.myStringEcho = true)
    (hesc : s.myStringGotEscapeChars = false) (hlow : ∀ b ∈ bs, isNeg b = false)
    (hplain : ∀ b ∈ bs, b ≠ 10 ∧ b ≠ 13) (hle : s.myStringPosLast ≤ s.myStringPos)
    (hfit : s.myStringPos + bs.length < s.myStringBuf.length)
    (hcap : s.myStringBuf.length ≤ sizeMod) :
    ∃ s', readString snd s (bs.map Recv.data ++ Recv.error EAGAIN :: rest)
          = some (Outcome.Partial [], s', rest)
      ∧ s'.myStringPos = s.myStringPos + bs.length
      ∧ s'.myStringPosLast = s.myStringPos + bs.length
      ∧ s'.wire = s.wire
          ++ (if s.myStringHaveEchoed = true ∧ s.myStringGotComplete = true then
              [(⟨[10, 13], 2⟩ : WriteCall)] else [])
          ++ (if s.myStringPosLast = s.myStringPos + bs.length then []
              else [⟨(s.myStringBuf.drop s.myStringPosLast).take
                        (s.myStringPos - s.myStringPosLast) ++ bs,
                      s.myStringPos + bs.length - s.myStringPosLast⟩]) := by
  have hen' : ¬ (s.myStringAutoEcho = false ∧ s.myStringEcho = false) := by
    rcases hen with h | h <;> simp [h]
  have hbuf := acceptAll_take (enter s) s.myStringPos bs (by simpa using hfit.le)
  have hge := acceptAll_low_escape (enter s) s.myStringPos bs hlow (by simpa using hfit.le)
  rw [readString_eq, readStringFrom_plain snd bs (enter s) s.myStringPos _ hplain
      (by simpa using hfit.le),
    readStringFrom_error snd _ _ _ _ (by simpa [acceptAll_length] using hfit), if_pos rfl]
  have hc : cstr (acceptAll (enter s) s.myStringPos bs).myStringBufEmpty = [] := by
    simp [cstr_set_zero]
  rw [hc]
  refine ⟨_, rfl, ?_, ?_, ?_⟩
  · simp
  · by_cases hp : s.myStringPosLast = s.myStringPos + bs.length
    · rw [(doStringEcho_wire_quiet snd _ (by simpa using hen')
        (Or.inl (by simpa using hp))).2.1]
      simpa using hp
    · rw [(doStringEcho_wire_payload snd _ (by simpa using hen') (by simp; omega)
        (by simp; omega) (by simp [hge, hesc])).2.1]
  · by_cases hp : s.myStringPosLast = s.myStringPos + bs.length
    · rw [(doStringEcho_wire_quiet snd _ (by simpa using hen')
        (Or.inl (by simpa using hp))).1, if_pos hp]
      simp
    · rw [(doStringEcho_wire_payload snd _ (by simpa using hen') (by simp; omega)
        (by simp; omega) (by simp [hge, hesc])).1, if_neg hp]
      have hr := echo_range s.myStringBuf bs s.myStringPos s.myStringPosLast hle hfit.le
      simp only [enter_myStringBuf] at hbuf
      rw [List.append_assoc] at hr hbuf
      simp [readAt_myStringBuf, hbuf, hr]

/-- The end of a line echoes no byte of the buffer: with echo on, `finishLine`
writes the two bytes LF, CR if an echo took place before, and nothing else. -/
theorem finishLine_echo (snd : Nat → Send) (s : ArSocket) (i : Nat)
    (hen : s.myStringAutoEcho = true ∨ s.myStringEcho = true) :
    (∃ st p, (finishLine snd s i).1 = Outcome.Complete st p)
      ∧ (finishLine snd s i).2.wire = s.wire
          ++ (if s.myStringHaveEchoed = true then [(⟨[10, 13], 2⟩ : WriteCall)] else [])
      ∧ (finishLine snd s i).2.myStringPos = 0
      ∧ (finishLine snd s i).2.myStringPosLast = 0 := by
  have hen' : ¬ (s.myStringAutoEcho = false ∧ s.myStringEcho = false) := by
    rcases hen with h | h <;> simp [h]
  unfold finishLine
  simp only []
  split_ifs
  all_goals
    refine ⟨⟨_, _, rfl⟩, ?_, by simp, ?_⟩
    · rw [(doStringEcho_wire_quiet snd _ (by simpa using hen') (Or.inl rfl)).1]
      simp_all
    · rw [(doStringEcho_wire_quiet snd _ (by simpa using hen') (Or.inl rfl)).2.1]

/-- A call that receives the plain bytes `bs` and then a line end returns
`Complete` and echoes none of the bytes of the line. -/
theorem readString_complete_echo (snd : Nat → Send) (s : ArSocket) (bs : List Nat) (t : Nat)
    (rest : List Recv)
    (hen : s.myStringAutoEcho = true ∨ s.myStringEcho = true)
    (hplain : ∀ b ∈ bs, b ≠ 10 ∧ b ≠ 13)
    (ht : t = 10 ∨ (t = 13 ∧ s.myStringIgnoreReturn = false))
    (hfit : s.myStringPos + bs.length < s.myStringBuf.length)
    (h0 : s.myStringPos + bs.length ≠ 0) :
    ∃ st p s', readString snd s (bs.map Recv.data ++ Recv.data t :: rest)
          = some (Outcome.Complete st p, s', rest)
      ∧ s'.wire = s.wire
          ++ (if s.myStringHaveEchoed = true then [(⟨[10, 13], 2⟩ : WriteCall)] else [])
      ∧ s'.myStringPos = 0 ∧ s'.myStringPosLast = 0 := by
  rw [readString_eq, readStringFrom_line snd (enter s) s.myStringPos bs t rest hplain
    (by simpa using ht) (by simpa using hfit) h0]
  obtain ⟨⟨st, p, ho⟩, hw, hp, hq⟩ := finishLine_echo snd
    (accept (acceptAll (enter s) s.myStringPos bs) (s.myStringPos + bs.length) t)
    (s.myStringPos + bs.length) (by simpa using hen)
  rw [ho]
  exact ⟨st, p, _, rfl, by simpa using hw, hp, hq⟩

/-- C13 fails on the code. With echo on, the call that receives `h`, `i` and CR
completes the line `"hi"` and writes nothing: neither byte is echoed. When the
bytes arrive in two fragments, `h` is echoed by the first call, which returns
`Partial`, and the second call, which receives `i` and CR, writes the line end
LF, CR only: `i` is never echoed. -/
theorem echo_skips_completing_call :
    ((readString (sendOk 1) { freshSocket 8 with myStringEcho := true }
          [Recv.data 104, Recv.data 105, Recv.data 13]).map
        fun r => (r.1, r.2.1.wire)) = some (Outcome.Complete 0 [104, 105], [])
      ∧ (readMany (sendOk 1) 2 { freshSocket 8 with myStringEcho := true }
          [Recv.data 104, Recv.error EAGAIN, Recv.data 105, Recv.data 13])
        = [Outcome.Partial [], Outcome.Complete 0 [104, 105]]
      ∧ (readManyState (sendOk 1) 2 { freshSocket 8 with myStringEcho := true }
          [Recv.data 104, Recv.error EAGAIN, Recv.data 105, Recv.data 13]).wire
        = [⟨[104], 1⟩, ⟨[10, 13], 2⟩] :=
  ⟨rfl, rfl, rfl⟩

/-! ## The echo over a run of calls -/

theorem echoedPayload_append (a b : List WriteCall) :
    echoedPayload (a ++ b) = echoedPayload a ++ echoedPayload b := by
  induction a with
  | nil => rfl
  | cons c a ih =>
    simp only [List.cons_append, echoedPayload]
    split_ifs <;> simp [ih]

theorem echoedPayload_lineEnd (c : Prop) [Decidable c] :
    echoedPayload (if c then [(⟨[10, 13], 2⟩ : WriteCall)] else []) = [] := by
  split_ifs <;> simp [echoedPayload]

theorem echoedPayload_plain (bs : List Nat) (l : Nat) (hplain : ∀ b ∈ bs, b ≠ 10 ∧ b ≠ 13) :
    echoedPayload [⟨bs, l⟩] = bs := by
  have h : (⟨bs, l⟩ : WriteCall) ≠ ⟨[10, 13], 2⟩ := by
    intro h
    have h1 : bs = [10, 13] := congrArg WriteCall.data h
    exact (hplain 10 (by simp [h1])).1 rfl
  simp [echoedPayload, h]

/-- Line ends met at index 0 while no byte is accumulated are skipped, and the
reader is then as before, apart from the cell 0 and the receive counters. -/
theorem readStringFrom_skips_echo (snd : Nat → Send) (terms : List Nat)
    (hterm : ∀ t ∈ terms, t = 10 ∨ t = 13) :
    ∀ (s : ArSocket) (rest : List Recv), s.myStringPos = 0 → 0 < s.myStringBuf.length →
      cstr s.myStringBufEmpty = [] →
      ∃ s1, readStringFrom snd (terms.map Recv.data ++ rest) s 0
          = readStringFrom snd rest s1 0
        ∧ s1.myStringPos = 0 ∧ s1.myStringBuf.length = s.myStringBuf.length
        ∧ s1.wire = s.wire ∧ s1.myStringAutoEcho = s.myStringAutoEcho
        ∧ s1.myStringEcho = s.myStringEcho
        ∧ s1.myStringIgnoreReturn = s.myStringIgnoreReturn
        ∧ s1.myStringPosLast = s.myStringPosLast
        ∧ s1.myStringGotEscapeChars = s.myStringGotEscapeChars
        ∧ cstr s1.myStringBufEmpty = [] := by
  induction terms with
  | nil =>
    intro s rest hpos _ hemp
    exact ⟨s, rfl, hpos, rfl, rfl, rfl, rfl, rfl, rfl, rfl, hemp⟩
  | cons t terms ih =>
    intro s rest hpos hcap hemp
    have ht := hterm t (List.mem_cons_self _ _)
    have hlow : isNeg t = false := by rcases ht with rfl | rfl <;> decide
    have hwrap : ((0 + sizeMod - 1) % sizeMod + 1) % sizeMod = 0 := by decide
    have hp : (accept s 0 t).myStringPos = 0 := by simpa using hpos
    have hg := accept_low_escape s 0 t hlow hcap
    rw [List.map_cons, List.cons_append, readStringFrom_data snd s 0 t _ hcap, hwrap, hp]
    by_cases h1 : (accept s 0 t).myStringIgnoreReturn = true ∧ t = 13
    · rw [if_pos h1]
      obtain ⟨s1, e1, e2, e3, e4, e5, e6, e7, e8, e9, e10⟩ :=
        ih (fun x hx => hterm x (List.mem_cons_of_mem _ hx))
          (accept s 0 t) rest hp (by simpa using hcap) (by simpa using hemp)
      exact ⟨s1, e1, e2, by simpa using e3, by simpa using e4, by simpa using e5,
        by simpa using e6, by simpa using e7, by simpa using e8, e9.trans hg, e10⟩
    · rw [if_neg h1, if_pos ht, if_neg (by simp)]
      obtain ⟨s1, e1, e2, e3, e4, e5, e6, e7, e8, e9, e10⟩ :=
        ih (fun x hx => hterm x (List.mem_cons_of_mem _ hx))
          (enter (accept s 0 t)) rest (by simpa using hpos) (by simpa using hcap)
          (by simp [cstr_set_zero])
      exact ⟨s1, e1, e2, by simpa using e3, by simpa using e4, by simpa using e5,
        by simpa using e6, by simpa using e7, by simpa using e8,
        e9.trans (by simpa using hg), e10⟩

theorem head_low (buf bs : List Nat) (p : Nat) (hp : p + bs.length ≤ buf.length)
    (hlow : ∀ b ∈ bs, isNeg b = false) (h0 : p ≠ 0 → isNeg (buf.getD 0 0) = false)
    (hne : p + bs.length ≠ 0) :
    isNeg ((buf.take p ++ bs ++ buf.drop (p + bs.length)).getD 0 0) = false := by
  cases p with
  | zero =>
    cases bs with
    | nil => simp at hne
    | cons b bs => simpa using hlow b (List.mem_cons_self _ _)
  | succ p =>
    cases buf with
    | nil => simp at hp
    | cons c buf => simpa using h0 (by omega)

theorem getD_set_ne (l : List Nat) (i v : Nat) (hi : i ≠ 0) :
    (l.set i v).getD 0 0 = l.getD 0 0 := by
  cases l with
  | nil => rfl
  | cons c l =>
    cases i with
    | zero => exact absurd rfl hi
    | succ i => rfl

/-- A call that is ready to echo, receives the plain bytes `bs` and then a
would-block result: it returns `Partial`, has echoed `bs`, and is ready again. -/
theorem readStringFrom_pending_ready (snd : Nat → Send) (e : ArSocket) (bs : List Nat)
    (rest : List Recv) (hr : EchoReady e) (hemp : cstr e.myStringBufEmpty = [])
    (hlow : ∀ b ∈ bs, isNeg b = false) (hplain : ∀ b ∈ bs, b ≠ 10 ∧ b ≠ 13)
    (hfit : e.myStringPos + bs.length < e.myStringBuf.length) :
    ∃ s', readStringFrom snd (bs.map Recv.data ++ Recv.error EAGAIN :: rest) e e.myStringPos
          = some (Outcome.Partial [], s', rest)
      ∧ EchoReady s' ∧ s'.myStringPos = e.myStringPos + bs.length
      ∧ s'.myStringIgnoreReturn = e.myStringIgnoreReturn
      ∧ s'.myStringBuf.length = e.myStringBuf.length
      ∧ ∃ ext, s'.wire = e.wire ++ ext ∧ echoedPayload ext = bs := by
  obtain ⟨hen, hesc, hlast, hhead, hcap⟩ := hr
  have hen' : ¬ (e.myStringAutoEcho = false ∧ e.myStringEcho = false) := by
    rcases hen with h | h <;> simp [h]
  have hbuf := acceptAll_take e e.myStringPos bs hfit.le
  have hge := acceptAll_low_escape e e.myStringPos bs hlow hfit.le
  have hc : cstr (acceptAll e e.myStringPos bs).myStringBufEmpty = [] := by
    simpa using hemp
  rw [readStringFrom_plain snd bs e e.myStringPos _ hplain hfit.le,
    readStringFrom_error snd _ _ _ _ (by simpa [acceptAll_length] using hfit), if_pos rfl, hc]
  have hlastT : ∀ t : ArSocket, t.myStringPosLast = e.myStringPosLast →
      t.myStringPos = e.myStringPos + bs.length →
      ¬ (t.myStringAutoEcho = false ∧ t.myStringEcho = false) →
      t.myStringGotEscapeChars = false → t.wire = e.wire →
      t.myStringBuf = (acceptAll e e.myStringPos bs).myStringBuf →
      (doStringEcho snd t).myStringPosLast = e.myStringPos + bs.length
        ∧ ∃ ext, (doStringEcho snd t).wire = e.wire ++ ext ∧ echoedPayload ext = bs := by
    intro t h1 h2 h3 h4 h5 h6
    by_cases hb : bs = []
    · subst hb
      have hq := doStringEcho_wire_quiet snd t h3 (Or.inl (by rw [h1, h2, hlast]; rfl))
      refine ⟨by rw [hq.2.1, h1, hlast]; rfl, _, by rw [hq.1, h5], ?_⟩
      exact echoedPayload_lineEnd _
    · have hpos : 0 < bs.length := List.length_pos.mpr hb
      have hq := doStringEcho_wire_payload snd t h3 (by rw [h1, h2, hlast]; omega)
        (by rw [h2]; omega) (by simp [h4])
      refine ⟨by rw [hq.2.1, h2], _, by rw [hq.1, h5, List.append_assoc], ?_⟩
      rw [echoedPayload_append, echoedPayload_lineEnd, List.nil_append, h6, h1, h2, hlast,
        hbuf]
      have hr := echo_range e.myStringBuf bs e.myStringPos e.myStringPos (le_refl _) hfit.le
      rw [hr]
      simp only [Nat.sub_self, List.take_zero, List.nil_append]
      exact echoedPayload_plain bs _ hplain
  obtain ⟨hl, hw⟩ := hlastT
    { (readAt (acceptAll e e.myStringPos bs) (e.myStringPos + bs.length)
          (Recv.error EAGAIN)).2 with myStringPos := e.myStringPos + bs.length }
    (by simp) rfl (by simpa using hen') (by simp [hge, hesc]) (by simp)
    (by simp [readAt_myStringBuf])
  refine ⟨_, rfl, ⟨by simpa using hen, by simp [hge, hesc], by simpa using hl, ?_,
    by simpa [acceptAll_length] using hcap⟩, by simp, by simp, by simp [acceptAll_length], hw⟩
  intro hne
  have h := head_low e.myStringBuf bs e.myStringPos hfit.le hlow hhead (by simpa using hne)
  simpa [readAt_myStringBuf, hbuf] using h

theorem finishLine_low_escape (snd : Nat → Send) (s : ArSocket) (i : Nat)
    (h : isNeg ((s.myStringBuf.set i 0).getD 0 0) = false) :
    (finishLine snd s i).2.myStringGotEscapeChars = s.myStringGotEscapeChars := by
  unfold finishLine
  simp only [h]
  simp

/-- A call that is ready to echo, receives the plain bytes `bs` and then a line
end: it returns `Complete`, has echoed no payload byte, and is ready again. -/
theorem readStringFrom_complete_ready (snd : Nat → Send) (e : ArSocket) (bs : List Nat)
    (t : Nat) (rest : List Recv) (hr : EchoReady e)
    (hlow : ∀ b ∈ bs, isNeg b = false) (hplain : ∀ b ∈ bs, b ≠ 10 ∧ b ≠ 13)
    (ht : t = 10 ∨ (t = 13 ∧ e.myStringIgnoreReturn = false))
    (hfit : e.myStringPos + bs.length < e.myStringBuf.length)
    (h0 : e.myStringPos + bs.length ≠ 0) :
    ∃ st p s', readStringFrom snd (bs.map Recv.data ++ Recv.data t :: rest) e e.myStringPos
          = some (Outcome.Complete st p, s', rest)
      ∧ EchoReady s' ∧ s'.myStringPos = 0
      ∧ s'.myStringIgnoreReturn = e.myStringIgnoreReturn
      ∧ s'.myStringBuf.length = e.myStringBuf.length
      ∧ ∃ ext, s'.wire = e.wire ++ ext ∧ echoedPayload ext = [] := by
  obtain ⟨hen, hesc, hlast, hhead, hcap⟩ := hr
  have hbuf := acceptAll_take e e.myStringPos bs hfit.le
  have hge := acceptAll_low_escape e e.myStringPos bs hlow hfit.le
  have htlow : isNeg t = false := by rcases ht with rfl | ⟨rfl, -⟩ <;> decide
  have hgx := accept_low_escape (acceptAll e e.myStringPos bs) (e.myStringPos + bs.length) t
    htlow (by simpa [acceptAll_length] using hfit)
  have hh := head_low e.myStringBuf bs e.myStringPos hfit.le hlow hhead h0
  have hhead' : isNeg (((accept (acceptAll e e.myStringPos bs) (e.myStringPos + bs.length)
      t).myStringBuf.set (e.myStringPos + bs.length) 0).getD 0 0) = false := by
    rw [getD_set_ne _ _ _ h0, accept_myStringBuf, getD_set_ne _ _ _ h0, hbuf]
    exact hh
  have hfl := finishLine_low_escape snd _ _ hhead'
  rw [readStringFrom_line snd e e.myStringPos bs t rest hplain ht hfit h0]
  obtain ⟨⟨st, p, ho⟩, hw, hp, hq⟩ := finishLine_echo snd
    (accept (acceptAll e e.myStringPos bs) (e.myStringPos + bs.length) t)
    (e.myStringPos + bs.length) (by simpa using hen)
  rw [ho]
  refine ⟨st, p, _, rfl, ⟨by simpa using hen, by rw [hfl, hgx, hge, hesc], by rw [hp, hq],
    fun h => absurd hp h, by simpa [acceptAll_length] using hcap⟩, hp, by simp,
    by simp [acceptAll_length], _, by simpa using hw, echoedPayload_lineEnd _⟩

theorem echoReady_enter (s : ArSocket) (h : EchoReady s) : EchoReady (enter s) := h

/-- The line ends that a call skips before its first accepted byte leave the
reader ready to echo. -/
theorem readString_lead (snd : Nat → Send) (s : ArSocket) (lead : List Nat) (rest : List Recv)
    (hr : EchoReady s) (hl : lead = [] ∨ s.myStringPos = 0) (hcap : 0 < s.myStringBuf.length)
    (hterm : ∀ t ∈ lead, t = 10 ∨ t = 13) :
    ∃ s1, readString snd s (lead.map Recv.data ++ rest)
          = readStringFrom snd rest s1 s1.myStringPos
      ∧ EchoReady s1 ∧ s1.myStringPos = s.myStringPos ∧ s1.wire = s.wire
      ∧ s1.myStringIgnoreReturn = s.myStringIgnoreReturn
      ∧ s1.myStringBuf.length = s.myStringBuf.length
      ∧ cstr s1.myStringBufEmpty = [] := by
  by_cases hnil : lead = []
  · subst hnil
    exact ⟨enter s, rfl, echoReady_enter s hr, rfl, rfl, rfl, rfl, by simp [cstr_set_zero]⟩
  · have hpos : s.myStringPos = 0 := hl.resolve_left hnil
    obtain ⟨hen, hesc, hlast, -, hsz⟩ := hr
    obtain ⟨s1, e1, e2, e3, e4, e5, e6, e7, e8, e9, e10⟩ :=
      readStringFrom_skips_echo snd lead hterm (enter s) rest (by simpa using hpos)
        (by simpa using hcap) (by simp [cstr_set_zero])
    rw [readString_eq, hpos, e1]
    refine ⟨s1, by rw [e2], ⟨?_, ?_, ?_, ?_, ?_⟩, e2, by simpa using e4,
      by simpa using e7, by simpa using e3, e10⟩
    · rw [e5, e6]
      simpa using hen
    · rw [e9]
      simpa using hesc
    · rw [e8, e2]
      simpa [hpos] using hlast
    · intro h
      exact absurd e2 h
    · rw [e3]
      simpa using hsz

/-- One round: the call returns the outcome of the round, echoes the accepted
bytes exactly when that outcome is `Partial`, and leaves the reader ready for
the next round. -/
theorem readString_round (snd : Nat → Send) (s : ArSocket) (r : Round) (rest : List Recv)
    (hr : EchoReady s) (hl : r.lead = [] ∨ s.myStringPos = 0)
    (hterm : ∀ t ∈ r.lead, t = 10 ∨ t = 13)
    (hb : ∀ b ∈ r.bytes, b ≠ 10 ∧ b ≠ 13 ∧ isNeg b = false)
    (hfit : s.myStringPos + r.bytes.length < s.myStringBuf.length)
    (hstop : ∀ t, r.stop = some t →
      (t = 10 ∨ (t = 13 ∧ s.myStringIgnoreReturn = false))
        ∧ s.myStringPos + r.bytes.length ≠ 0) :
    ∃ o s', readString snd s (r.events ++ rest) = some (o, s', rest)
      ∧ Answers r o ∧ EchoReady s'
      ∧ s'.myStringIgnoreReturn = s.myStringIgnoreReturn
      ∧ s'.myStringBuf.length = s.myStringBuf.length
      ∧ s'.myStringPos = (match r.stop with
          | none => s.myStringPos + r.bytes.length
          | some _ => 0)
      ∧ ∃ ext, s'.wire = s.wire ++ ext
          ∧ echoedPayload ext = (match r.stop with
              | none => r.bytes
              | some _ => []) := by
  obtain ⟨lead, bytes, stop⟩ := r
  simp only [] at hl hterm hb hfit hstop
  obtain ⟨s1, e1, hr1, e2, e3, e4, e5, e6⟩ :=
    readString_lead snd s lead (bytes.map Recv.data ++
      ([match stop with
        | none => Recv.error EAGAIN
        | some t => Recv.data t] ++ rest)) hr hl (by omega) hterm
  have hev : (Round.mk lead bytes stop).events ++ rest
      = lead.map Recv.data ++ (bytes.map Recv.data ++
          ([match stop with
            | none => Recv.error EAGAIN
            | some t => Recv.data t] ++ rest)) := by
    simp [Round.events]
  rw [hev, e1]
  cases stop with
  | none =>
    obtain ⟨s', h1, h2, h3, h4, h5, ext, h6, h7⟩ :=
      readStringFrom_pending_ready snd s1 bytes rest hr1 e6 (fun b h => (hb b h).2.2)
        (fun b h => ⟨(hb b h).1, (hb b h).2.1⟩) (by rw [e2, e5]; exact hfit)
    exact ⟨_, s', h1, rfl, h2, h4.trans e4, h5.trans e5, by rw [h3, e2],
      ext, by rw [h6, e3], h7⟩
  | some t =>
    have hs := hstop t rfl
    obtain ⟨st, p, s', h1, h2, h3, h4, h5, ext, h6, h7⟩ :=
      readStringFrom_complete_ready snd s1 bytes t rest hr1 (fun b h => (hb b h).2.2)
        (fun b h => ⟨(hb b h).1, (hb b h).2.1⟩) (by rw [e4]; exact hs.1)
        (by rw [e2, e5]; exact hfit) (by rw [e2]; exact hs.2)
    exact ⟨_, s', h1, ⟨st, p, rfl⟩, h2, h4.trans e4, h5.trans e5, h3,
      ext, by rw [h6, e3], h7⟩

/-- Over a run of rounds, every call returns the outcome of its round, and the
payload bytes written back are the bytes accepted by the calls that returned
`Partial`. -/
theorem echo_rounds (snd : Nat → Send) (rs : List Round) :
    ∀ s : ArSocket, EchoReady s →
      roundsFit s.myStringIgnoreReturn s.myStringBuf.length s.myStringPos rs = true →
      List.Forall₂ Answers rs (readMany snd rs.length s (roundsEvents rs))
        ∧ ∃ ext, (readManyState snd rs.length s (roundsEvents rs)).wire = s.wire ++ ext
            ∧ echoedPayload ext = pendingBytes rs := by
  induction rs with
  | nil =>
    intro s _ _
    exact ⟨List.Forall₂.nil, [], by simp [readManyState], rfl⟩
  | cons r rs ih =>
    intro s hr hfit
    obtain ⟨lead, bytes, stop⟩ := r
    cases stop with
    | none =>
      simp only [roundsFit, Bool.and_eq_true, Bool.or_eq_true, decide_eq_true_eq,
        List.all_eq_true, List.isEmpty_iff, Bool.not_eq_true'] at hfit
      obtain ⟨⟨⟨⟨a1, a2⟩, a3⟩, a4⟩, a5⟩ := hfit
      obtain ⟨o, s', h1, h2, h3, h4, h5, h6, ext, h7, h8⟩ :=
        readString_round snd s (Round.mk lead bytes none) (roundsEvents rs) hr a1 a2
          (fun b h => ⟨(a3 b h).1.1, (a3 b h).1.2, (a3 b h).2⟩) a4 (fun t h => by cases h)
      have hfit' : roundsFit s'.myStringIgnoreReturn s'.myStringBuf.length s'.myStringPos rs
          = true := by
        rw [h4, h5, h6]
        exact a5
      obtain ⟨i1, ext2, i2, i3⟩ := ih s' h3 hfit'
      simp only [List.length_cons, roundsEvents, readMany, readManyState, h1]
      refine ⟨List.Forall₂.cons h2 i1, ext ++ ext2, by rw [i2, h7, List.append_assoc], ?_⟩
      rw [echoedPayload_append, h8, i3]
      rfl
    | some t =>
      simp only [roundsFit, Bool.and_eq_true, Bool.or_eq_true, decide_eq_true_eq,
        List.all_eq_true, List.isEmpty_iff, Bool.not_eq_true'] at hfit
      obtain ⟨⟨⟨⟨a1, a2⟩, a3⟩, a4⟩, ⟨a5, a6⟩, a7⟩ := hfit
      obtain ⟨o, s', h1, h2, h3, h4, h5, h6, ext, h7, h8⟩ :=
        readString_round snd s (Round.mk lead bytes (some t)) (roundsEvents rs) hr a1 a2
          (fun b h => ⟨(a3 b h).1.1, (a3 b h).1.2, (a3 b h).2⟩) a4
          (fun t' h => by cases h; exact ⟨a5, a6⟩)
      have hfit' : roundsFit s'.myStringIgnoreReturn s'.myStringBuf.length s'.myStringPos rs
          = true := by
        rw [h4, h5, h6]
        exact a7
      obtain ⟨i1, ext2, i2, i3⟩ := ih s' h3 hfit'
      simp only [List.length_cons, roundsEvents, readMany, readManyState, h1]
      refine ⟨List.Forall₂.cons h2 i1, ext ++ ext2, by rw [i2, h7, List.append_assoc], ?_⟩
      rw [echoedPayload_append, h8, i3]
      rfl

/-- C13, amended: with echo on and no high-bit byte received, the bytes that a
call accepts are echoed by that call when it returns `Partial`, and are never
echoed when it returns `Complete`.
(1) A call that receives the plain bytes `bs` and then a would-block result
returns `Partial`, having written (after the line end LF, CR that closes an
echoed line) one write with the bytes accepted since the last echo, `bs` last,
and it moves `myStringPosLast` to `myStringPos`.
(2) A call that receives `bs` and then a line end returns `Complete`, having
written only LF, CR if an echo took place before, and resets both positions.
(3) Over a run of calls each of which ends on a would-block result or on a line
end (the rounds `rs`, run from a state in which all accumulated bytes are echoed
and the first of them, if any, is not a high-bit byte), every call returns,
`Partial` on a would-block result and `Complete` on a line end, and the payload
bytes written back, the line-end echoes left out, are the bytes accepted by the
calls that returned `Partial`, in order, each once.
In (1) and (2), and in every round of (3), the accepted bytes leave room in the
buffer for the event that ends the call. -/
theorem readString_echo (snd : Nat → Send) (s : ArSocket)
    (hen : s.myStringAutoEcho = true ∨ s.myStringEcho = true)
    (hesc : s.myStringGotEscapeChars = false)
    (hcap : s.myStringBuf.length ≤ sizeMod) :
    (∀ (bs : List Nat) (rest : List Recv),
        (∀ b ∈ bs, isNeg b = false) → (∀ b ∈ bs, b ≠ 10 ∧ b ≠ 13) →
        s.myStringPosLast ≤ s.myStringPos →
        s.myStringPos + bs.length < s.myStringBuf.length →
        (∃ s', readString snd s (bs.map Recv.data ++ Recv.error EAGAIN :: rest)
              = some (Outcome.Partial [], s', rest)
          ∧ s'.myStringPos = s.myStringPos + bs.length
          ∧ s'.myStringPosLast = s.myStringPos + bs.length
          ∧ s'.wire = s.wire
              ++ (if s.myStringHaveEchoed = true ∧ s.myStringGotComplete = true then
                  [(⟨[10, 13], 2⟩ : WriteCall)] else [])
              ++ (if s.myStringPosLast = s.myStringPos + bs.length then []
                  else [⟨(s.myStringBuf.drop s.myStringPosLast).take
                            (s.myStringPos - s.myStringPosLast) ++ bs,
                          s.myStringPos + bs.length - s.myStringPosLast⟩]))
          ∧ ∀ t, (t = 10 ∨ (t = 13 ∧ s.myStringIgnoreReturn = false)) →
              s.myStringPos + bs.length ≠ 0 →
              ∃ st p s', readString snd s (bs.map Recv.data ++ Recv.data t :: rest)
                  = some (Outcome.Complete st p, s', rest)
                ∧ s'.wire = s.wire
                    ++ (if s.myStringHaveEchoed = true then [(⟨[10, 13], 2⟩ : WriteCall)]
                        else [])
                ∧ s'.myStringPos = 0 ∧ s'.myStringPosLast = 0)
      ∧ ∀ rs : List Round,
          s.myStringPosLast = s.myStringPos →
          (s.myStringPos ≠ 0 → isNeg (s.myStringBuf.getD 0 0) = false) →
          roundsFit s.myStringIgnoreReturn s.myStringBuf.length s.myStringPos rs = true →
          List.Forall₂ Answers rs (readMany snd rs.length s (roundsEvents rs))
            ∧ ∃ ext, (readManyState snd rs.length s (roundsEvents rs)).wire = s.wire ++ ext
                ∧ echoedPayload ext = pendingBytes rs :=
  ⟨fun bs rest hlow hplain hle hfit =>
    ⟨readString_pending_echo snd s bs rest hen hesc hlow hplain hle hfit hcap,
      fun t ht h0 => readString_complete_echo snd s bs t rest hen hplain ht hfit h0⟩,
    fun rs hlast hhead hfit => echo_rounds snd rs s ⟨hen, hesc, hlast, hhead, hcap⟩ hfit⟩

/-- C13 amended, on a socket with echo on and a buffer of 8 bytes: the call that
receives `h`, `i` and a would-block result writes `"hi"` once, and the call that
receives `h`, `i` and LF writes nothing; and over the four calls that receive
`h`, `i`, `j` CR and LF `k`, the first two and the last ending on a would-block
result, the payload written back is `"hik"`: the `j` accepted by the call that
completed the line is missing. -/
theorem readString_echo_witness :
    ((∃ s', readString (sendOk 1) { freshSocket 8 with myStringEcho := true }
          [Recv.data 104, Recv.data 105, Recv.error EAGAIN]
          = some (Outcome.Partial [], s', [])
      ∧ s'.myStringPos = 2 ∧ s'.myStringPosLast = 2 ∧ s'.wire = [⟨[104, 105], 2⟩])
      ∧ ∃ st p s', readString (sendOk 1) { freshSocket 8 with myStringEcho := true }
          [Recv.data 104, Recv.data 105, Recv.data 10]
          = some (Outcome.Complete st p, s', [])
        ∧ s'.wire = [] ∧ s'.myStringPos = 0 ∧ s'.myStringPosLast = 0)
      ∧ (List.Forall₂ Answers
            [⟨[], [104], none⟩, ⟨[], [105], none⟩, ⟨[], [106], some 13⟩, ⟨[10], [107], none⟩]
            (readMany (sendOk 1) 4 { freshSocket 8 with myStringEcho := true }
              [Recv.data 104, Recv.error EAGAIN, Recv.data 105, Recv.error EAGAIN,
                Recv.data 106, Recv.data 13, Recv.data 10, Recv.data 107,
                Recv.error EAGAIN])
          ∧ ∃ ext, (readManyState (sendOk 1) 4 { freshSocket 8 with myStringEcho := true }
                [Recv.data 104, Recv.error EAGAIN, Recv.data 105, Recv.error EAGAIN,
                  Recv.data 106, Recv.data 13, Recv.data 10, Recv.data 107,
                  Recv.error EAGAIN]).wire = [] ++ ext
              ∧ echoedPayload ext = [104, 105, 107])
      ∧ (readManyState (sendOk 1) 4 { freshSocket 8 with myStringEcho := true }
            [Recv.data 104, Recv.error EAGAIN, Recv.data 105, Recv.error EAGAIN,
              Recv.data 106, Recv.data 13, Recv.data 10, Recv.data 107,
              Recv.error EAGAIN]).wire
          = [⟨[104], 1⟩, ⟨[105], 1⟩, ⟨[10, 13], 2⟩, ⟨[107], 1⟩] :=
  ⟨⟨((readString_echo (sendOk 1) { freshSocket 8 with myStringEcho := true }
        (Or.inr rfl) rfl (by decide)).1 [104, 105] []
        (by decide) (by decide) (by decide) (by decide)).1,
      _, _, _, rfl, rfl, rfl, rfl⟩,
    (readString_echo (sendOk 1) { freshSocket 8 with myStringEcho := true }
        (Or.inr rfl) rfl (by decide)).2
      [⟨[], [104], none⟩, ⟨[], [105], none⟩, ⟨[], [106], some 13⟩, ⟨[10], [107], none⟩]
      rfl (by decide) rfl,
    rfl⟩

end ArSocket
